import Mathlib

/-!
# IMU_Processing.cpp: measurement synchronisation, calibration and undistortion

A shallow embedding of `src/src/IMU_Processing.cpp`.

* `double` values are read as elements of an ordered field: the ingress
  buffers and `SyncMeasure` are written over any linearly ordered field `T`
  (they run on `ℚ`), the numerical part (`Exp`, `UndistortPcl`, `Process`)
  over `ℝ`.
* A `std::vector`/`std::deque` is a `List`; a nullable shared pointer is an
  `Option`.
* A function returns `none` where the C++ has no defined result: `back()`,
  `front()` or a dereference on an empty container or null pointer, a failed
  `ROS_ASSERT`/`assert`, a signed `int` overflow.
* Logging (`ROS_INFO`, `std::cout`) is left out, except that an operand of a
  log statement which reads `back()` of an empty vector is still a read with
  no defined result.
-/

namespace IMUProcessing

/-! ## Data model -/

/-- A cloud point, `pcl::PointXYZINormal`; `curvature` carries the offset time
of the point in milliseconds from the capture timestamp of its scan. -/
structure PointType (T : Type) where
  x : T
  y : T
  z : T
  intensity : T
  normal_x : T
  normal_y : T
  normal_z : T
  curvature : T

/-- A scan, `sensor_msgs::PointCloud2`, reduced to what the program reads of
it: `header.stamp.toSec()` and the points `pcl::fromROSMsg` yields, in stored
order. -/
structure PointCloud2 (T : Type) where
  stamp : T
  points : List (PointType T)

/-- An inertial sample, `sensor_msgs::Imu`: `header.stamp.toSec()`, angular
velocity and linear acceleration. -/
structure Imu (T : Type) where
  stamp : T
  angular_velocity : Fin 3 → T
  linear_acceleration : Fin 3 → T

/-- The `struct MeasureGroup` (lines 67-71); a null `lidar` pointer is `none`. -/
structure MeasureGroup (T : Type) where
  lidar : Option (PointCloud2 T)
  imu : List (Imu T)

/-- The file-level variables of lines 629-638 (the mutex and the condition
variable have no value to model). -/
structure Globals (T : Type) where
  b_exit : Bool
  b_reset : Bool
  last_timestamp_lidar : T
  lidar_buffer : List (PointCloud2 T)
  last_timestamp_imu : T
  imu_buffer : List (Imu T)

/-! ## Ingress callbacks and `SyncMeasure` (lines 647-743) -/

section Sync

variable {T : Type} [LinearOrderedField T]

/-- The initial values of the file-level variables (lines 631-638). -/
def Globals.init : Globals T :=
  { b_exit := false, b_reset := false,
    last_timestamp_lidar := -1, lidar_buffer := [],
    last_timestamp_imu := -1, imu_buffer := [] }

/-- The callback `pointcloud_cbk` (lines 647-665). -/
def pointcloud_cbk (msg : PointCloud2 T) (g : Globals T) : Globals T :=
  let timestamp := msg.stamp
  let lidar_buffer := if timestamp < g.last_timestamp_lidar then [] else g.lidar_buffer
  { g with last_timestamp_lidar := timestamp, lidar_buffer := lidar_buffer ++ [msg] }

/-- The callback `imu_cbk` (lines 667-687). -/
def imu_cbk (msg_in : Imu T) (g : Globals T) : Globals T :=
  let timestamp := msg_in.stamp
  let loop_back : Bool := decide (timestamp < g.last_timestamp_imu)
  { g with
    imu_buffer := (if loop_back then [] else g.imu_buffer) ++ [msg_in],
    b_reset := if loop_back then true else g.b_reset,
    last_timestamp_imu := timestamp }

/-- The value of `lidar_end_time` on line 718: the capture timestamp plus the
offset time of the point stored LAST in the cloud, divided by 1000. There is no
value when the cloud is empty (`v_pcl.points.back()`). -/
def lidar_end_time (lidar : PointCloud2 T) : Option T :=
  lidar.points.getLast?.map (fun pt => lidar.stamp + pt.curvature / 1000)

/-- The loop of lines 723-731: the buffered samples with
`imu_time <= lidar_end_time`, in buffer order. -/
def collect_imu (end_time : T) (imu_buffer : List (Imu T)) : List (Imu T) :=
  imu_buffer.filter (fun imu => decide (imu.stamp ≤ end_time))

/-- The loop of lines 733-736: `imu_cnt` times `pop_front()`. -/
def pop_front_n : Nat → List (Imu T) → List (Imu T)
  | 0, buf => buf
  | _ + 1, [] => []
  | n + 1, _ :: buf => pop_front_n n buf

/-- The function `SyncMeasure` (lines 689-743). The result is the returned
`bool`, the group left in `measgroup`, and the file-level variables afterwards.
It is `none` where the code reads `back()` of an empty container: the cloud on
line 718, and the collected group in the operand of the print on line 738. -/
def SyncMeasure (measgroup : MeasureGroup T) (g : Globals T) :
    Option (Bool × MeasureGroup T × Globals T) :=
  match g.lidar_buffer, g.imu_buffer.getLast? with
  | [], _ => some (false, measgroup, g)
  | _ :: _, none => some (false, measgroup, g)
  | lidar :: lidar_rest, some imu_back =>
    if imu_back.stamp < lidar.stamp then
      some (false, measgroup, g)
    else
      match lidar_end_time lidar with
      | none => none
      | some end_time =>
        let imu := collect_imu end_time g.imu_buffer
        let imu_cnt := imu.length
        match imu.getLast? with
        | none => none
        | some _ =>
          some (true, { lidar := some lidar, imu := imu },
            { g with lidar_buffer := lidar_rest,
                     imu_buffer := pop_front_n imu_cnt g.imu_buffer })

/-- The scan end-time in the words of the specification: the capture timestamp
plus the MAXIMUM point offset time of the scan (milliseconds, hence divided by
1000). It is used only to state the coverage claim as the specification words
it; the code computes `lidar_end_time`. -/
def spec_scan_end_time (lidar : PointCloud2 T) : Option T :=
  match lidar.points.map (fun pt => pt.curvature) with
  | [] => none
  | c :: cs => some (lidar.stamp + cs.foldl max c / 1000)

end Sync


/-- An all-zero cloud point with offset time `c` (milliseconds), used to write
concrete scans. -/
def pointAt {T : Type} [LinearOrderedField T] (c : T) : PointType T :=
  { x := 0, y := 0, z := 0, intensity := 0,
    normal_x := 0, normal_y := 0, normal_z := 0, curvature := c }

/-- An inertial sample at timestamp `t` with zero readings, used to write
concrete buffers. -/
def imuAt {T : Type} [LinearOrderedField T] (t : T) : Imu T :=
  { stamp := t, angular_velocity := fun _ => 0, linear_acceleration := fun _ => 0 }

/-! ## `ImuProcess` (lines 76-625), over exact real arithmetic -/

noncomputable section Numeric

/-- The type `Eigen::Vector3d` (and `geometry_msgs::Vector3`). -/
abbrev Vector3d : Type := Fin 3 → ℝ

/-- The type `Eigen::Matrix3d`; a `Sophus::SO3d` rotation is held as its
rotation matrix. -/
abbrev Matrix3d : Type := Matrix (Fin 3) (Fin 3) ℝ

/-- The Euclidean norm, `Eigen::Vector3d::norm()`. -/
def norm3 (v : Vector3d) : ℝ :=
  Real.sqrt (v 0 * v 0 + v 1 * v 1 + v 2 * v 2)

/-- The macro `SKEW_SYM_MATRX(v)` (line 38), filled in row by row by `K << ...`. -/
def SKEW_SYM_MATRX (v : Vector3d) : Matrix3d :=
  !![0, -v 2, v 1; v 2, 0, -v 0; -v 1, v 0, 0]

/-- The constant `MAX_INI_COUNT` (line 39). -/
def MAX_INI_COUNT : Int := 50

/-- The constant `FORWARD` (line 40), as the `bool orientation` it is compared with. -/
def FORWARD : Bool := false

/-- The constant `BACKWARD` (line 41), as the `bool orientation` it is passed as. -/
def BACKWARD : Bool := true

/-- The largest value of a 32-bit `int`. -/
def INT_MAX : Int := 2147483647

/-- The record `livox_loam_kp::Pose6D`, with the fields `SET_POS6D` fills; the
nine entries of `rot` are held as the matrix they are copied from. -/
structure Pose6D where
  offset_time : ℝ
  acc : Vector3d
  gyr : Vector3d
  bias_acc : Vector3d
  bias_gyr : Vector3d
  pos : Vector3d
  rot : Matrix3d

/-- The lambda `SET_POS6D` (lines 42-53). -/
def set_pose6d (t : ℝ) (a g b_a b_g p : Vector3d) (R : Matrix3d) : Pose6D :=
  { offset_time := t, acc := a, gyr := g, bias_acc := b_a, bias_gyr := b_g, pos := p, rot := R }

/-- The message `livox_loam_kp::KeyPointPose`: the stamp of its header and the
key-pose sequence. -/
structure KeyPointPose where
  header_stamp : ℝ
  pose6D : List Pose6D

/-- The data members of `class ImuProcess` (lines 100-135). Left out: the node
handle `nh` and the extrinsic `T_i_l`, which is set by the constructor and never
read. -/
structure ImuProcess where
  scale_gravity : ℝ
  zero_bias_acc : Vector3d
  zero_bias_gyr : Vector3d
  cov_acc : Vector3d
  cov_gyr : Vector3d
  b_first_frame_ : Bool
  Need_init : Bool
  init_iter_num : Int
  mean_acc : Vector3d
  mean_gyr : Vector3d
  cur_pcl_in_ : Option (List (PointType ℝ))
  cur_pcl_un_ : Option (List (PointType ℝ))
  last_lidar_ : Option (PointCloud2 ℝ)
  last_imu_ : Option (Imu ℝ)
  start_timestamp_ : ℝ
  v_imu_ : List (Imu ℝ)
  v_rot_ : List Matrix3d
  v_rot_pcl_ : List Matrix3d
  v_rot_kp_ : KeyPointPose

/-- The constructor `ImuProcess::ImuProcess()` (lines 139-151). It does not
initialise `zero_bias_acc` and `zero_bias_gyr` (a default-constructed
`Eigen::Vector3d` holds indeterminate values), so they are arguments here. -/
def ImuProcess.ctor (zero_bias_acc zero_bias_gyr : Vector3d) : ImuProcess :=
  { scale_gravity := 1.0,
    zero_bias_acc := zero_bias_acc,
    zero_bias_gyr := zero_bias_gyr,
    cov_acc := ![0.1, 0.1, 0.1],
    cov_gyr := ![0.1, 0.1, 0.1],
    b_first_frame_ := true,
    Need_init := true,
    init_iter_num := 1,
    mean_acc := ![0, 0, -1.0],
    mean_gyr := ![0, 0, 0],
    cur_pcl_in_ := none,
    cur_pcl_un_ := none,
    last_lidar_ := none,
    last_imu_ := none,
    start_timestamp_ := -1,
    v_imu_ := [],
    v_rot_ := [],
    v_rot_pcl_ := [],
    v_rot_kp_ := { header_stamp := 0, pose6D := [] } }

/-- The method `ImuProcess::Reset()` (lines 155-185). -/
def Reset (s : ImuProcess) : ImuProcess :=
  { s with
    scale_gravity := 1.0,
    zero_bias_acc := ![0, 0, 0],
    zero_bias_gyr := ![0, 0, 0],
    cov_acc := ![0.1, 0.1, 0.1],
    cov_gyr := ![0.1, 0.1, 0.1],
    mean_acc := ![0, 0, -1.0],
    mean_gyr := ![0, 0, 0],
    Need_init := true,
    b_first_frame_ := true,
    init_iter_num := 1,
    last_lidar_ := none,
    last_imu_ := none,
    start_timestamp_ := -1,
    v_rot_ := [],
    v_imu_ := [],
    v_rot_pcl_ := [],
    v_rot_kp_ := { s.v_rot_kp_ with pose6D := [] },
    cur_pcl_in_ := some [],
    cur_pcl_un_ := some [] }

/-- The method `ImuProcess::Exp` (lines 195-217): Rodrigues' formula about the
normalised angular velocity, the identity when the norm is not above `1e-7`. -/
def Exp (ang_vel : Vector3d) (dt : ℝ) : Matrix3d :=
  let ang_vel_norm := norm3 ang_vel
  let Eye3d : Matrix3d := 1
  if ang_vel_norm > 0.0000001 then
    let r_axis : Vector3d := fun i => ang_vel i / ang_vel_norm
    let K : Matrix3d := SKEW_SYM_MATRX r_axis
    let r_ang := ang_vel_norm * dt
    Eye3d + Real.sin r_ang • K + (1.0 - Real.cos r_ang) • K * K
  else
    Eye3d

/-- The method `ImuProcess::GetRot` (lines 219-229). -/
def GetRot (s : ImuProcess) : Matrix3d :=
  match s.v_rot_.getLast? with
  | none => 1
  | some R => R

/-- One pass of the loop body of `IntegrateGyr` (lines 240-294) for the sample
`imu`. `SO3_exp` stands for `Sophus::SO3d::exp`, which is library code. The two
`ROS_ASSERT`s, the `assert` and `back()` of an empty `v_imu_` give `none`. -/
def IntegrateGyr_step (SO3_exp : Vector3d → Matrix3d) (s : ImuProcess) (imu : Imu ℝ) :
    Option ImuProcess :=
  let seeded : Option ImuProcess :=
    if s.v_rot_.isEmpty then
      match s.last_imu_ with
      | none => none
      | some last_imu =>
        if s.start_timestamp_ > 0 then
          let dt1 := s.start_timestamp_ - last_imu.stamp
          let dt2 := imu.stamp - s.start_timestamp_
          let w1 := dt2 / (dt1 + dt2 + 1e-9)
          let w2 := dt1 / (dt1 + dt2 + 1e-9)
          let gyr1 := last_imu.angular_velocity
          let acc1 := last_imu.linear_acceleration
          let gyr2 := imu.angular_velocity
          let acc2 := imu.linear_acceleration
          let imu_inter : Imu ℝ :=
            { stamp := s.start_timestamp_,
              angular_velocity := fun i => w1 * gyr1 i + w2 * gyr2 i,
              linear_acceleration := fun i => w1 * acc1 i + w2 * acc2 i }
          some { s with v_rot_ := s.v_rot_ ++ [1], v_imu_ := s.v_imu_ ++ [imu_inter] }
        else none
    else some s
  match seeded with
  | none => none
  | some s =>
    match s.v_rot_.getLast?, s.v_imu_.getLast? with
    | some rot_last, some imumsg_last =>
      let time_last := imumsg_last.stamp
      let gyr_last := imumsg_last.angular_velocity
      let time := imu.stamp
      let gyr := imu.angular_velocity
      if time ≥ 0 then
        let ang_vel_avr : Vector3d := fun i => 0.5 * (gyr i + gyr_last i)
        let dt_seg := time - time_last
        let delta_angle : Vector3d := fun i => dt_seg * ang_vel_avr i
        let delta_r := SO3_exp delta_angle
        let rot := rot_last * delta_r
        some { s with v_imu_ := s.v_imu_ ++ [imu], v_rot_ := s.v_rot_ ++ [rot] }
      else none
    | _, _ => none

/-- The loop of `IntegrateGyr` (lines 238-295) over the samples of the group. -/
def IntegrateGyr_loop (SO3_exp : Vector3d → Matrix3d) :
    ImuProcess → List (Imu ℝ) → Option ImuProcess
  | s, [] => some s
  | s, imu :: rest =>
    match IntegrateGyr_step SO3_exp s imu with
    | none => none
    | some s1 => IntegrateGyr_loop SO3_exp s1 rest

/-- The method `ImuProcess::IntegrateGyr` (lines 231-303); `none` also when
`last_lidar_` is null on line 235. -/
def IntegrateGyr (SO3_exp : Vector3d → Matrix3d) (s : ImuProcess) (v_imu : List (Imu ℝ)) :
    Option ImuProcess :=
  match s.last_lidar_ with
  | none => none
  | some last_lidar =>
    IntegrateGyr_loop SO3_exp { s with start_timestamp_ := last_lidar.stamp } v_imu

/-- The comparison `time_list` (line 73), as a Boolean function. -/
def time_list (x y : PointType ℝ) : Bool := decide (x.curvature < y.curvature)

/-- The call `std::sort(points.begin(), points.end(), time_list)` (line 319):
the points in an order in which no point comes before one it is `time_list`
greater than, that is in ascending order of `curvature`. `std::sort` leaves the
relative order of points with equal `curvature` open; the model orders them as
insertion sort does. -/
def sort_by_time (points : List (PointType ℝ)) : List (PointType ℝ) :=
  points.insertionSort (fun x y => time_list y x = false)

/-- Lines 378-383 (and 444-449): the position of the point is replaced by
`Rie * (position - tie)` with `tie = (0, 0, 0)`; no other field is written. -/
def rotate_point (Rie : Matrix3d) (pt : PointType ℝ) : PointType ℝ :=
  let tie : Vector3d := ![0, 0, 0]
  let v_pt_comp_e : Vector3d := Matrix.mulVec Rie (![pt.x, pt.y, pt.z] - tie)
  { pt with x := v_pt_comp_e 0, y := v_pt_comp_e 1, z := v_pt_comp_e 2 }

/-- The fields of a point other than its position: intensity, normal and offset
time. -/
def non_position (pt : PointType ℝ) : ℝ × ℝ × ℝ × ℝ × ℝ :=
  (pt.intensity, pt.normal_x, pt.normal_y, pt.normal_z, pt.curvature)

/-- The inner point loop of `UndistortPcl`, lines 364-392 (FORWARD) and 430-459
(BACKWARD). The vector and the iterator `it_pcl` are held as two lists: `todo`
is the part of the vector from `it_pcl` to the end the walk moves towards,
listed in walking order (its head is `*it_pcl`), and `done` lists the points
`it_pcl` has left behind, the one left last first. The bound test
(`it_pcl != end() - 1`, resp. `it_pcl != begin()`) holds when `todo` has a
second element. `cont` is the test on `pt_time_abs`, `Rie` the rotation as a
function of the `pt_time_abs` recomputed in the body. The loop variable
`pt_time_abs` tested by `cont` is the value left by the previous pass. -/
def walk_points (pcl_beg_time : ℝ) (cont : ℝ → Bool) (Rie : ℝ → Matrix3d) :
    ℝ → List (PointType ℝ) → List (PointType ℝ) → List Matrix3d →
    List (PointType ℝ) × List (PointType ℝ) × List Matrix3d
  | _, [], done, v_rot_pcl => ([], done, v_rot_pcl)
  | pt_time_abs, it_pcl :: rest, done, v_rot_pcl =>
    match rest with
    | [] => ([it_pcl], done, v_rot_pcl)
    | _ :: _ =>
      if cont pt_time_abs then
        let pt_time_abs := it_pcl.curvature / 1000 + pcl_beg_time
        walk_points pcl_beg_time cont Rie pt_time_abs rest
          (rotate_point (Rie pt_time_abs) it_pcl :: done) (v_rot_pcl ++ [Rie pt_time_abs])
      else
        (it_pcl :: rest, done, v_rot_pcl)

/-- The variables the segment loops of `UndistortPcl` carry: `R_kp`, the cloud
with its iterator (see `walk_points`), `v_rot_pcl_` and `v_rot_kp_.pose6D`. -/
structure UndistortState where
  R_kp : Matrix3d
  todo : List (PointType ℝ)
  done : List (PointType ℝ)
  v_rot_pcl_ : List Matrix3d
  pose6D : List Pose6D

/-- The body of the segment loop of `UndistortPcl` for the segment
`(imu_seg_head, imu_seg_tail)`: lines 345-398 when `orientation == FORWARD`,
lines 409-464 otherwise. The value pushed on `v_rot_kp_.pose6D` is the variable
`rot_kp` of line 326: the result of the call of `set_pose6d` on lines 396
and 462 is not stored. `none` when `it_pcl` has no point to read on line 362
or 428. -/
def undistort_segment (zero_bias_gyr : Vector3d) (orientation : Bool) (pcl_beg_time : ℝ)
    (rot_kp : Pose6D) (st : UndistortState) (imu_seg_head imu_seg_tail : Imu ℝ) :
    Option UndistortState :=
  match st.todo with
  | [] => none
  | it_pcl :: _ =>
    let imu_seg_tail_time := imu_seg_tail.stamp
    let imu_seg_head_time := imu_seg_head.stamp
    let gyr_seg_end := imu_seg_tail.angular_velocity
    let gyr_seg_head := imu_seg_head.angular_velocity
    let ang_vel_avr : Vector3d :=
      fun i => 0.5 * (gyr_seg_end i + gyr_seg_head i) - zero_bias_gyr i
    let pt_time_abs := it_pcl.curvature / 1000 + pcl_beg_time
    if orientation = FORWARD then
      let r := walk_points pcl_beg_time
        (fun pt_time_abs => decide (pt_time_abs ≤ imu_seg_tail_time))
        (fun pt_time_abs => Exp ang_vel_avr (pt_time_abs - imu_seg_head_time) * st.R_kp)
        pt_time_abs st.todo st.done st.v_rot_pcl_
      some { R_kp := Exp ang_vel_avr (imu_seg_tail_time - imu_seg_head_time) * st.R_kp,
             todo := r.1, done := r.2.1, v_rot_pcl_ := r.2.2,
             pose6D := st.pose6D ++ [rot_kp] }
    else
      let r := walk_points pcl_beg_time
        (fun pt_time_abs => decide (pt_time_abs ≥ imu_seg_head_time))
        (fun pt_time_abs => Exp (-ang_vel_avr) (imu_seg_tail_time - pt_time_abs) * st.R_kp)
        pt_time_abs st.todo st.done st.v_rot_pcl_
      some { R_kp := Exp (-ang_vel_avr) (imu_seg_tail_time - imu_seg_head_time) * st.R_kp,
             todo := r.1, done := r.2.1, v_rot_pcl_ := r.2.2,
             pose6D := st.pose6D ++ [rot_kp] }

/-- The segment loop of `UndistortPcl` over the segments `(head, tail)` in the
order they are visited. -/
def undistort_segments (zero_bias_gyr : Vector3d) (orientation : Bool) (pcl_beg_time : ℝ)
    (rot_kp : Pose6D) : UndistortState → List (Imu ℝ × Imu ℝ) → Option UndistortState
  | st, [] => some st
  | st, seg :: segs =>
    match undistort_segment zero_bias_gyr orientation pcl_beg_time rot_kp st seg.1 seg.2 with
    | none => none
    | some st1 => undistort_segments zero_bias_gyr orientation pcl_beg_time rot_kp st1 segs

/-- The adjacent pairs `(*it_imu, *(it_imu + 1))` of the inertial sequence, in
sequence order: the segments the FORWARD loop (line 343) visits; the BACKWARD
loop (line 407) visits them last to first. -/
def imu_segments (v_imu : List (Imu ℝ)) : List (Imu ℝ × Imu ℝ) :=
  v_imu.zip v_imu.tail

/-- The method `ImuProcess::UndistortPcl` (lines 305-473). The result is the
object afterwards (`v_rot_kp_` and `v_rot_pcl_` are written) and the cloud left
in `pcl_in_out`. `none` for an empty inertial sequence (`back()`, `front()`), a
null scan, and an empty cloud where the code forms `end() - 1` (line 405) or
reads `*it_pcl` (line 362). -/
def UndistortPcl (s : ImuProcess) (meas : MeasureGroup ℝ) (orientation : Bool) :
    Option (ImuProcess × List (PointType ℝ)) :=
  let Eye3d : Matrix3d := 1
  let Zero3d : Vector3d := ![0, 0, 0]
  let v_imu := meas.imu
  match v_imu.getLast?, v_imu.head?, meas.lidar with
  | some v_imu_last, some v_imu_first, some lidar =>
    let imu_beg_time := v_imu_first.stamp
    let imu_end_time := v_imu_last.stamp
    let pcl_beg_time := lidar.stamp
    let points := sort_by_time lidar.points
    let max_offs_t := imu_end_time - imu_beg_time
    let R_kp : Matrix3d := Eye3d
    let rot_kp := set_pose6d max_offs_t v_imu_last.linear_acceleration
      v_imu_last.angular_velocity Zero3d s.zero_bias_gyr Zero3d R_kp
    if orientation = FORWARD then
      let st0 : UndistortState :=
        { R_kp := R_kp, todo := points, done := [], v_rot_pcl_ := [Eye3d], pose6D := [rot_kp] }
      match undistort_segments s.zero_bias_gyr orientation pcl_beg_time rot_kp st0
          (imu_segments v_imu) with
      | none => none
      | some st =>
        some ({ s with v_rot_kp_ := { header_stamp := v_imu_first.stamp, pose6D := st.pose6D },
                       v_rot_pcl_ := st.v_rot_pcl_ },
              st.done.reverse ++ st.todo)
    else
      if points.isEmpty then none
      else
        let st0 : UndistortState :=
          { R_kp := R_kp, todo := points.reverse, done := [], v_rot_pcl_ := [Eye3d],
            pose6D := [rot_kp] }
        match undistort_segments s.zero_bias_gyr orientation pcl_beg_time rot_kp st0
            (imu_segments v_imu).reverse with
        | none => none
        | some st =>
          some ({ s with v_rot_kp_ := { header_stamp := v_imu_first.stamp, pose6D := st.pose6D },
                         v_rot_pcl_ := st.v_rot_pcl_ },
                st.todo.reverse ++ st.done)
  | _, _, _ => none

/-- What one call of `Process` hands to its four publishers (lines 577-612):
the always-empty `laserCloudtmp`, the undistorted cloud, the cloud `cur_pcl_in_`
and the key poses. -/
structure Published where
  livox_first_point : List (PointType ℝ)
  livox_undistort : List (PointType ℝ)
  livox_distort : List (PointType ℝ)
  KeyPointPose6D : KeyPointPose

/-- One pass of the calibration loop of `Process` (lines 532-547) for the
sample `imu`. `N * N` is a product of two `int`s: it gives `none` when it does
not fit in 32 bits. -/
def init_step (s : ImuProcess) (imu : Imu ℝ) : Option ImuProcess :=
  let cur_acc := imu.linear_acceleration
  let cur_gyr := imu.angular_velocity
  let cur_norm := norm3 cur_acc
  let N : Int := s.init_iter_num
  if N * N > INT_MAX then none
  else
    let scale_gravity := s.scale_gravity + (cur_norm - s.scale_gravity) / (N : ℝ)
    let mean_acc : Vector3d := fun i => s.mean_acc i + (cur_acc i - s.mean_acc i) / (N : ℝ)
    let mean_gyr : Vector3d := fun i => s.mean_gyr i + (cur_gyr i - s.mean_gyr i) / (N : ℝ)
    let cov_acc : Vector3d := fun i =>
      s.cov_acc i * ((N : ℝ) - 1.0) / (N : ℝ) +
        (cur_acc i - mean_acc i) * (cur_acc i - mean_acc i) * ((N : ℝ) - 1.0) / ((N * N : Int) : ℝ)
    let cov_gyr : Vector3d := fun i =>
      s.cov_gyr i * ((N : ℝ) - 1.0) / (N : ℝ) +
        (cur_gyr i - mean_gyr i) * (cur_gyr i - mean_gyr i) * ((N : ℝ) - 1.0) / ((N * N : Int) : ℝ)
    some { s with scale_gravity := scale_gravity, mean_acc := mean_acc, mean_gyr := mean_gyr,
                  cov_acc := cov_acc, cov_gyr := cov_gyr, init_iter_num := s.init_iter_num + 1 }

/-- The calibration loop of `Process` (lines 530-549) over the samples of the
group. -/
def init_loop : ImuProcess → List (Imu ℝ) → Option ImuProcess
  | s, [] => some s
  | s, imu :: rest =>
    match init_step s imu with
    | none => none
    | some s1 => init_loop s1 rest

/-- Lines 551-560: once `init_iter_num` exceeds `MAX_INI_COUNT` the calibration
is closed. -/
def init_finish (s : ImuProcess) : ImuProcess :=
  if s.init_iter_num > MAX_INI_COUNT then
    { s with Need_init := false,
             scale_gravity := 1.0 / max s.scale_gravity 0.1,
             zero_bias_gyr := s.mean_gyr }
  else s

/-- The method `ImuProcess::Process` (lines 475-625). The result is the object
afterwards and what was published, if anything. `none` when a `ROS_ASSERT` of
lines 481-482 fails and wherever a callee has no result. `SO3_exp` stands for
`Sophus::SO3d::exp` (used by `IntegrateGyr`). -/
def Process (SO3_exp : Vector3d → Matrix3d) (s : ImuProcess) (meas : MeasureGroup ℝ) :
    Option (ImuProcess × Option Published) :=
  match meas.imu.getLast?, meas.lidar with
  | some imu_back, some pcl_in_msg =>
    if s.b_first_frame_ then
      let s := Reset { s with Need_init := true }
      let cur_acc := imu_back.linear_acceleration
      let cur_gyr := imu_back.angular_velocity
      let cur_norm := norm3 cur_acc
      some ({ s with last_lidar_ := some pcl_in_msg, last_imu_ := some imu_back,
                     init_iter_num := 1, scale_gravity := cur_norm,
                     mean_acc := cur_acc, mean_gyr := cur_gyr,
                     b_first_frame_ := false }, none)
    else if s.Need_init then
      match init_loop s meas.imu with
      | none => none
      | some s1 => some (init_finish s1, none)
    else
      match IntegrateGyr SO3_exp s meas.imu with
      | none => none
      | some s1 =>
        match s1.cur_pcl_un_, s1.cur_pcl_in_ with
        | some _, some cur_pcl_in =>
          match UndistortPcl s1 meas BACKWARD with
          | none => none
          | some (s2, cur_pcl_un) =>
            some ({ s2 with last_lidar_ := some pcl_in_msg, last_imu_ := some imu_back,
                            cur_pcl_in_ := some [], cur_pcl_un_ := some [] },
                  some { livox_first_point := [], livox_undistort := cur_pcl_un,
                         livox_distort := cur_pcl_in, KeyPointPose6D := s2.v_rot_kp_ })
        | _, _ => none
  | _, _ => none

/-- The calls of `Process` on a sequence of groups, one after the other, from
the object `s`; `none` as soon as one call has no result. -/
def Process_all (SO3_exp : Vector3d → Matrix3d) :
    ImuProcess → List (MeasureGroup ℝ) → Option ImuProcess
  | s, [] => some s
  | s, meas :: rest =>
    match Process SO3_exp s meas with
    | none => none
    | some r => Process_all SO3_exp r.1 rest

end Numeric

/-- The inertial samples of a sequence of groups, in the order `Process` meets
them. -/
def folded_samples : List (MeasureGroup ℝ) → List (Imu ℝ)
  | [] => []
  | meas :: rest => meas.imu ++ folded_samples rest

/-! ## `ProcessLoop` (lines 745-775) -/

/-- A message handed to one of the two subscriber callbacks. -/
inductive Submission where
  | imu (msg : Imu ℝ)
  | scan (msg : PointCloud2 ℝ)

/-- The callback a submission runs: `imu_cbk` or `pointcloud_cbk`. -/
noncomputable def submit (g : Globals ℝ) : Submission → Globals ℝ
  | Submission.imu msg => imu_cbk msg g
  | Submission.scan msg => pointcloud_cbk msg g

/-- The callbacks of a sequence of submissions, run one after the other. -/
noncomputable def submit_all (g : Globals ℝ) (msgs : List Submission) : Globals ℝ :=
  msgs.foldl submit g

/-- How one pass through the body of the `while` loop of `ProcessLoop` ends:
still inside `sig_buffer.wait` (its predicate was false), at the `break` of
line 762, at the `continue` of line 769, or after the call of `Process`. -/
inductive LoopStep where
  | waiting
  | exited
  | reset
  | processed
  deriving DecidableEq

/-- The state one pass through the loop body of `ProcessLoop` leaves: the object
`*p_imu`, the file-level variables, and what `Process` published. -/
structure LoopResult where
  step : LoopStep
  p_imu : ImuProcess
  g : Globals ℝ
  published : Option Published

/-- One pass through the body of the `while` loop of `ProcessLoop` (lines
753-773), with the predicate of `sig_buffer.wait` evaluated once, in the state
`g`: `SyncMeasure(meas) || b_exit` on a freshly constructed `meas`. When the
predicate is false the thread stays in `wait` and nothing has changed. The pass
is taken as one step: no callback runs in between. `none` where `SyncMeasure`
or `Process` has no result. -/
noncomputable def ProcessLoop_pass (SO3_exp : Vector3d → Matrix3d) (p_imu : ImuProcess)
    (g : Globals ℝ) : Option LoopResult :=
  let meas : MeasureGroup ℝ := { lidar := none, imu := [] }
  match SyncMeasure meas g with
  | none => none
  | some (ready, meas, g) =>
    if ready || g.b_exit then
      if g.b_exit then
        some { step := LoopStep.exited, p_imu := p_imu, g := g, published := none }
      else if g.b_reset then
        some { step := LoopStep.reset, p_imu := Reset p_imu, g := { g with b_reset := false },
               published := none }
      else
        match Process SO3_exp p_imu meas with
        | none => none
        | some (p_imu, published) =>
          some { step := LoopStep.processed, p_imu := p_imu, g := g, published := published }
    else
      some { step := LoopStep.waiting, p_imu := p_imu, g := g, published := none }

/-- The averaged, bias-corrected angular velocity of the segment
`(imu_seg_head, imu_seg_tail)`: the value of `ang_vel_avr` on lines 359 and 423. -/
noncomputable def segment_ang_vel (zero_bias_gyr : Vector3d) (imu_seg_head imu_seg_tail : Imu ℝ) :
    Vector3d :=
  fun i => 0.5 * (imu_seg_tail.angular_velocity i + imu_seg_head.angular_velocity i) -
    zero_bias_gyr i

/-- The rotation accumulated in `R_kp` once the segments `segs` have been
walked, in the order given, starting from the identity: each segment
`(head, tail)` multiplies on the left by
`Exp (± segment_ang_vel) (tail time - head time)`, with `+` in FORWARD and `-`
in BACKWARD mode (lines 394 and 460). -/
noncomputable def accumulated_rotation (zero_bias_gyr : Vector3d) (orientation : Bool) :
    List (Imu ℝ × Imu ℝ) → Matrix3d
  | [] => 1
  | seg :: segs =>
    accumulated_rotation zero_bias_gyr orientation segs *
      (if orientation = FORWARD then
        Exp (segment_ang_vel zero_bias_gyr seg.1 seg.2) (seg.2.stamp - seg.1.stamp)
      else
        Exp (-segment_ang_vel zero_bias_gyr seg.1 seg.2) (seg.2.stamp - seg.1.stamp))

/-- The rotation `Rie` applied to the point `pt` while the walk is in the
segment `(imu_seg_head, imu_seg_tail)` with `R_kp` accumulated so far: line 377
in FORWARD mode, line 443 in BACKWARD mode. -/
noncomputable def point_rotation (zero_bias_gyr : Vector3d) (orientation : Bool)
    (pcl_beg_time : ℝ) (imu_seg_head imu_seg_tail : Imu ℝ) (R_kp : Matrix3d)
    (pt : PointType ℝ) : Matrix3d :=
  if orientation = FORWARD then
    Exp (segment_ang_vel zero_bias_gyr imu_seg_head imu_seg_tail)
      (pt.curvature / 1000 + pcl_beg_time - imu_seg_head.stamp) * R_kp
  else
    Exp (-segment_ang_vel zero_bias_gyr imu_seg_head imu_seg_tail)
      (imu_seg_tail.stamp - (pt.curvature / 1000 + pcl_beg_time)) * R_kp

/-- The variables of the segment loop as `UndistortPcl` initialises them (lines
324-341 and 404-405): the identity in `R_kp`, the sorted cloud with `it_pcl` at
its first point (FORWARD) or its last point (BACKWARD), `Eye3d` on `v_rot_pcl_`
and the variable `rot_kp` on the key poses. -/
noncomputable def undistort_init (orientation : Bool) (points : List (PointType ℝ))
    (rot_kp : Pose6D) : UndistortState :=
  { R_kp := 1,
    todo := if orientation = FORWARD then sort_by_time points else (sort_by_time points).reverse,
    done := [], v_rot_pcl_ := [1], pose6D := [rot_kp] }

/-- The segments in the order the segment loop of `UndistortPcl` visits them:
first to last in FORWARD, last to first in BACKWARD mode. -/
noncomputable def visited_segments (orientation : Bool) (v_imu : List (Imu ℝ)) :
    List (Imu ℝ × Imu ℝ) :=
  if orientation = FORWARD then imu_segments v_imu else (imu_segments v_imu).reverse

/-- The cloud held by the two lists of the segment loop, in vector order. -/
noncomputable def undistort_cloud (orientation : Bool) (st : UndistortState) : List (PointType ℝ) :=
  if orientation = FORWARD then st.done.reverse ++ st.todo else st.todo.reverse ++ st.done

/-- The value of the variable `rot_kp` (line 326): the key pose at the time
span of the inertial sequence, with the readings of its last sample and the
identity rotation. -/
noncomputable def initial_rot_kp (zero_bias_gyr : Vector3d) (v_imu_first v_imu_last : Imu ℝ) :
    Pose6D :=
  set_pose6d (v_imu_last.stamp - v_imu_first.stamp) v_imu_last.linear_acceleration
    v_imu_last.angular_velocity ![0, 0, 0] zero_bias_gyr ![0, 0, 0] 1

/-- The arithmetic mean of a list of numbers, `(x_1 + ... + x_k) / k`. -/
noncomputable def arithmetic_mean (xs : List ℝ) : ℝ :=
  xs.sum / (xs.length : ℝ)

/-- The population variance of a list of numbers,
`(1 / k) * Σ (x_i - mean) * (x_i - mean)` with `mean` their arithmetic mean. -/
noncomputable def population_variance (xs : List ℝ) : ℝ :=
  (xs.map (fun x => (x - arithmetic_mean xs) * (x - arithmetic_mean xs))).sum / (xs.length : ℝ)

/-- An object past its first frame, with the working clouds as the first frame
and every later call of `Process` leave them (`reset(new PointCloudXYZI())`). -/
def Started (s : ImuProcess) : Prop :=
  s.b_first_frame_ = false ∧ s.cur_pcl_in_ = some [] ∧ s.cur_pcl_un_ = some []

/-- An object past its first frame that `IntegrateGyr` can run on: both anchors
are set, the orientation track holds as many rotations as samples, and while
the track is empty the anchor scan has a positive timestamp (the `ROS_ASSERT`
of line 242). -/
def Anchored (s : ImuProcess) : Prop :=
  Started s ∧ s.last_lidar_ ≠ none ∧ s.last_imu_ ≠ none ∧
    s.v_rot_.length = s.v_imu_.length ∧
    (s.v_rot_ = [] → ∃ last_lidar, s.last_lidar_ = some last_lidar ∧ 0 < last_lidar.stamp)

/-- A group the active branch of `Process` has a result on: a non-empty inertial
sequence with non-negative timestamps (the `assert` of line 283) and a non-empty
scan. -/
def ActiveReady (meas : MeasureGroup ℝ) : Prop :=
  meas.imu ≠ [] ∧ (∀ imu ∈ meas.imu, 0 ≤ imu.stamp) ∧
    ∃ lidar, meas.lidar = some lidar ∧ lidar.points ≠ []

/-- A call of one of the three functions that write the ingress buffers:
`imu_cbk(msg_in)`, `pointcloud_cbk(msg)` or `SyncMeasure(measgroup)`. -/
inductive IngressCall (T : Type) where
  | imu (msg_in : Imu T) : IngressCall T
  | pointcloud (msg : PointCloud2 T) : IngressCall T
  | sync (measgroup : MeasureGroup T) : IngressCall T

/-- The file-level variables after one call; `none` when the call is a
`SyncMeasure` without a result. -/
def ingress_call {T : Type} [LinearOrderedField T] (g : Globals T) :
    IngressCall T → Option (Globals T)
  | .imu msg_in => some (imu_cbk msg_in g)
  | .pointcloud msg => some (pointcloud_cbk msg g)
  | .sync measgroup => (SyncMeasure measgroup g).map (fun r => r.2.2)

/-- The file-level variables after a sequence of calls, one after the other
(the mutex serializes them); `none` as soon as one call has no result. -/
def ingress_calls {T : Type} [LinearOrderedField T] :
    Globals T → List (IngressCall T) → Option (Globals T)
  | g, [] => some g
  | g, call :: rest =>
    match ingress_call g call with
    | none => none
    | some g1 => ingress_calls g1 rest

/-- The running values of the calibration loop: the gravity scale, the two
means, the two variances and the sample counter. -/
def calibration_accumulator (s : ImuProcess) :
    ℝ × Vector3d × Vector3d × Vector3d × Vector3d × Int :=
  (s.scale_gravity, s.mean_acc, s.mean_gyr, s.cov_acc, s.cov_gyr, s.init_iter_num)

/-- A call of one of the four methods of `ImuProcess` that write the object. -/
inductive MethodCall where
  | Reset : MethodCall
  | Process (meas : MeasureGroup ℝ) : MethodCall
  | IntegrateGyr (v_imu : List (Imu ℝ)) : MethodCall
  | UndistortPcl (meas : MeasureGroup ℝ) (orientation : Bool) : MethodCall

/-- The object after one method call; `none` when the call has no result. -/
noncomputable def call_method (SO3_exp : Vector3d → Matrix3d) (s : ImuProcess) :
    MethodCall → Option ImuProcess
  | .Reset => some (Reset s)
  | .Process meas => (Process SO3_exp s meas).map Prod.fst
  | .IntegrateGyr v_imu => IntegrateGyr SO3_exp s v_imu
  | .UndistortPcl meas orientation => (UndistortPcl s meas orientation).map Prod.fst

/-- The object after a sequence of method calls, one after the other; `none` as
soon as one call has no result. -/
noncomputable def call_methods (SO3_exp : Vector3d → Matrix3d) :
    ImuProcess → List MethodCall → Option ImuProcess
  | s, [] => some s
  | s, call :: rest =>
    match call_method SO3_exp s call with
    | none => none
    | some s1 => call_methods SO3_exp s1 rest

/-! ## Concrete inputs -/

/-- A scan captured at `t = 9` whose only point has offset time 1000 ms: it
ends at `t = 10`. -/
def scan_9_to_10 : PointCloud2 ℚ := { stamp := 9, points := [pointAt 1000] }

/-- Buffers holding `scan_9_to_10` and one inertial sample, at `t = 9`. -/
def buffers_imu_upto_9 : Globals ℚ :=
  { b_exit := false, b_reset := false,
    last_timestamp_lidar := 9, lidar_buffer := [scan_9_to_10],
    last_timestamp_imu := 9, imu_buffer := [imuAt 9] }

/-- A scan captured at `t = 10` whose only point has offset time 0. -/
def scan_at_10 : PointCloud2 ℚ := { stamp := 10, points := [pointAt 0] }

/-- Buffers holding `scan_at_10` and inertial samples at `t = 8` and `t = 9`. -/
def buffers_before_capture : Globals ℚ :=
  { b_exit := false, b_reset := false,
    last_timestamp_lidar := 10, lidar_buffer := [scan_at_10],
    last_timestamp_imu := 9, imu_buffer := [imuAt 8, imuAt 9] }

/-- A scan captured at `t = 10` whose only point has offset time 100 ms: it
ends at `t = 10.1`. -/
noncomputable def scan_10_to_10_1 : PointCloud2 ℝ := { stamp := 10, points := [pointAt 100] }

/-- Buffers holding `scan_10_to_10_1` and one inertial sample, at `t = 20`,
later than the end of the scan. -/
noncomputable def buffers_imu_after_scan : Globals ℝ :=
  { b_exit := false, b_reset := false,
    last_timestamp_lidar := 10, lidar_buffer := [scan_10_to_10_1],
    last_timestamp_imu := 20, imu_buffer := [imuAt 20] }

/-- Buffers holding `scan_9_to_10`, a second scan, and inertial samples at
`t = 9`, `9.5`, `10` and `10.5`. -/
def buffers_covering : Globals ℚ :=
  { b_exit := false, b_reset := false,
    last_timestamp_lidar := 11, lidar_buffer := [scan_9_to_10, { stamp := 11, points := [] }],
    last_timestamp_imu := 10.5, imu_buffer := [imuAt 9, imuAt 9.5, imuAt 10, imuAt 10.5] }

/-- The rotation about the z-axis by the angle `θ` (counter-clockwise for
positive `θ`). -/
noncomputable def rot_z (θ : ℝ) : Matrix3d :=
  !![Real.cos θ, -Real.sin θ, 0; Real.sin θ, Real.cos θ, 0; 0, 0, 1]

/-- The point at position `(1, 0, 0)` with offset time `c` (milliseconds). -/
noncomputable def unit_x_point (c : ℝ) : PointType ℝ :=
  { x := 1, y := 0, z := 0, intensity := 0,
    normal_x := 0, normal_y := 0, normal_z := 0, curvature := c }

/-- An inertial sample at timestamp `t` turning about the z-axis at `π` rad/s. -/
noncomputable def imu_turning (t : ℝ) : Imu ℝ :=
  { stamp := t, angular_velocity := ![0, 0, Real.pi], linear_acceleration := ![0, 0, -9.81] }

/-- The end-to-end group of the specification: a scan captured at `t = 0` with
three points at offsets 0 ms, 5 ms and 10 ms, and two inertial samples at
`t = 0` and `t = 0.01` with angular velocity `(0, 0, π)`. -/
noncomputable def end_to_end_group : MeasureGroup ℝ :=
  { lidar := some { stamp := 0, points := [unit_x_point 0, unit_x_point 5, unit_x_point 10] },
    imu := [imu_turning 0, imu_turning 0.01] }

/-- A group captured at rest: a scan captured at `t = 0` with two points stored
out of time order (offsets 5 ms and 0 ms), and two inertial samples with zero
readings. -/
noncomputable def still_group : MeasureGroup ℝ :=
  { lidar := some { stamp := 0, points := [unit_x_point 5, unit_x_point 0] },
    imu := [imuAt 0, imuAt 0.01] }

/-- An inertial sample at timestamp `t` with acceleration `acc` and angular
velocity `gyr`. -/
def imu_reading (t : ℝ) (acc gyr : Vector3d) : Imu ℝ :=
  { stamp := t, angular_velocity := gyr, linear_acceleration := acc }

/-- A seeding group: an empty scan captured at `t = 0` and one inertial sample
with zero readings. -/
noncomputable def seeding_group : MeasureGroup ℝ :=
  { lidar := some { stamp := 0, points := [] }, imu := [imuAt 0] }

/-- A group of 25 stationary samples: acceleration `(0, 0, -9.81)`, angular
velocity `(0, 0, 0)`. -/
noncomputable def stationary_group : MeasureGroup ℝ :=
  { lidar := some { stamp := 1, points := [] },
    imu := List.replicate 25 (imu_reading 1 ![0, 0, -9.81] ![0, 0, 0]) }

/-- A group of 50 samples, 25 with acceleration `(0, 0, 1)` followed by 25 with
acceleration `(0, 0, -1)`, all with angular velocity `(0, 0, 0)`. -/
noncomputable def flipping_group : MeasureGroup ℝ :=
  { lidar := some { stamp := 1, points := [] },
    imu := List.replicate 25 (imu_reading 1 ![0, 0, 1] ![0, 0, 0]) ++
      List.replicate 25 (imu_reading 1 ![0, 0, -1] ![0, 0, 0]) }

/-- A scan captured at `t = 0` whose points are stored out of time order: the
first has offset time 100 ms, the last 50 ms. -/
def scan_unsorted : PointCloud2 ℚ := { stamp := 0, points := [pointAt 100, pointAt 50] }

/-- Buffers with the reset flag set, holding two scans (captured at `t = 1` and
`t = 2`, one point each with offset time 100 ms) and inertial samples at
`t = 1`, `t = 2` and `t = 3`. -/
noncomputable def buffers_reset_pending : Globals ℝ :=
  { b_exit := false, b_reset := true,
    last_timestamp_lidar := 2,
    lidar_buffer := [{ stamp := 1, points := [pointAt 100] }, { stamp := 2, points := [pointAt 100] }],
    last_timestamp_imu := 3, imu_buffer := [imuAt 1, imuAt 2, imuAt 3] }

/-- Buffers after a run up to `t = 5`: one scan captured at `t = 5` and inertial
samples at `t = 4` and `t = 5`. -/
noncomputable def buffers_at_5 : Globals ℝ :=
  { b_exit := false, b_reset := false,
    last_timestamp_lidar := 5, lidar_buffer := [{ stamp := 5, points := [pointAt 100] }],
    last_timestamp_imu := 5, imu_buffer := [imuAt 4, imuAt 5] }


/-- A group with three inertial samples, at `t = 0`, `1` and `2`, with angular
velocities `(0, 0, -1)`, `(0, 0, 1)` and `(0, 0, 1)` (so the averaged angular
velocity is `(0, 0, 0)` over the segment `(0, 1)` and `(0, 0, 1)` over the
segment `(1, 2)`), and a scan captured at `t = 0` with four points at position
`(1, 0, 0)` and offset times 200, 500, 1500 and 2000 ms. -/
noncomputable def three_sample_group : MeasureGroup ℝ :=
  { lidar := some { stamp := 0, points := [unit_x_point 200, unit_x_point 500,
      unit_x_point 1500, unit_x_point 2000] },
    imu := [imu_reading 0 ![0, 0, -9.81] ![0, 0, -1], imu_reading 1 ![0.1, 0, -9.81] ![0, 0, 1],
      imu_reading 2 ![0.2, 0, -9.81] ![0, 0, 1]] }

/-- A group of two samples with accelerations `(0, 0, 0)` and `(2, 0, 0)` and
zero angular velocity. -/
noncomputable def two_sample_group : MeasureGroup ℝ :=
  { lidar := some { stamp := 1, points := [] },
    imu := [imu_reading 1 ![0, 0, 0] ![0, 0, 0], imu_reading 1 ![2, 0, 0] ![0, 0, 0]] }

/-- A seeding group whose scan is captured at `t = 1`: an empty scan and one
inertial sample with zero readings. -/
noncomputable def first_scan_group : MeasureGroup ℝ :=
  { lidar := some { stamp := 1, points := [] }, imu := [imuAt 1] }

/-- A calibration group: an empty scan captured at `t = 2` and 50 stationary
samples. -/
noncomputable def calibration_group : MeasureGroup ℝ :=
  { lidar := some { stamp := 2, points := [] },
    imu := List.replicate 50 (imu_reading 2 ![0, 0, -9.81] ![0, 0, 0]) }

/-- A group for the active branch: a scan captured at `t` with two points, at
offset times 0 and 100 ms, and two inertial samples with zero readings, at `t`
and `t + 0.1`. -/
noncomputable def active_group (t : ℝ) : MeasureGroup ℝ :=
  { lidar := some { stamp := t, points := [pointAt 0, pointAt 100] },
    imu := [imuAt t, imuAt (t + 0.1)] }

/-- A run of the ingress functions: a sample at `t = 20`, a sample at `t = 8`
(a loop-back, which clears the buffer), a scan captured at `t = 8` with one point
at offset 0, a `SyncMeasure` (ready: it takes the scan and the sample at
`t = 8`), then samples at `t = 9`, `9.5`, `10` and `10.5` with the scan
`scan_9_to_10` arriving after the first of them. -/
def ingress_run : List (IngressCall ℚ) :=
  [.imu (imuAt 20), .imu (imuAt 8), .pointcloud { stamp := 8, points := [pointAt 0] },
   .sync { lidar := none, imu := [] }, .imu (imuAt 9), .pointcloud scan_9_to_10,
   .imu (imuAt 9.5), .imu (imuAt 10), .imu (imuAt 10.5)]

/-- The file-level variables after `ingress_run`. -/
def buffers_after_run : Globals ℚ :=
  { b_exit := false, b_reset := true,
    last_timestamp_lidar := 9, lidar_buffer := [scan_9_to_10],
    last_timestamp_imu := 10.5,
    imu_buffer := [imuAt 9, imuAt 9.5, imuAt 10, imuAt 10.5] }

/-- A seeding group with non-zero readings: an empty scan captured at `t = 0`
and one inertial sample with acceleration `(1, 2, 3)` and angular velocity
`(0.1, 0.2, 0.3)`. -/
noncomputable def seeding_group_moving : MeasureGroup ℝ :=
  { lidar := some { stamp := 0, points := [] },
    imu := [imu_reading 0 ![1, 2, 3] ![0.1, 0.2, 0.3]] }

/-- A run of method calls: a `Reset`, a seeding group, a calibration group of 50
samples, an active group of two samples, then a direct `IntegrateGyr` on one
sample and a direct `UndistortPcl` in FORWARD mode. -/
noncomputable def method_run : List MethodCall :=
  [.Reset, .Process first_scan_group, .Process calibration_group, .Process (active_group 3),
   .IntegrateGyr [imuAt 5], .UndistortPcl (active_group 3) FORWARD]

/-! # Theorems -/

/-! ## `SyncMeasure` -/

theorem pop_front_n_eq_drop {T : Type} (n : Nat) (buf : List (Imu T)) :
    pop_front_n n buf = buf.drop n := by
  induction n generalizing buf with
  | zero => rfl
  | succ n ih =>
    cases buf with
    | nil => rfl
    | cons a buf => simpa [pop_front_n] using ih buf

/-- On a buffer in non-decreasing timestamp order the collected samples are a
front part of the buffer, and what is left after popping as many is later than
the end time. -/
theorem collect_imu_sorted {T : Type} [LinearOrderedField T] (e : T) (buf : List (Imu T))
    (h : buf.Pairwise (fun a b => a.stamp ≤ b.stamp)) :
    collect_imu e buf ++ pop_front_n (collect_imu e buf).length buf = buf ∧
      ∀ i ∈ pop_front_n (collect_imu e buf).length buf, e < i.stamp := by
  induction buf with
  | nil => simp [collect_imu, pop_front_n]
  | cons a buf ih =>
    rw [List.pairwise_cons] at h
    obtain ⟨ha, hbuf⟩ := h
    by_cases hae : a.stamp ≤ e
    · have hc : collect_imu e (a :: buf) = a :: collect_imu e buf := by
        simp [collect_imu, hae]
      rw [hc]
      simpa [pop_front_n] using ih hbuf
    · have hlt : e < a.stamp := lt_of_not_le hae
      have hnone : collect_imu e (a :: buf) = [] := by
        simp only [collect_imu, List.filter_eq_nil_iff, List.mem_cons, decide_eq_true_eq, not_le]
        rintro i (rfl | hi)
        · exact hlt
        · exact lt_of_lt_of_le hlt (ha i hi)
      rw [hnone]
      simp only [List.length_nil, pop_front_n, List.nil_append, List.mem_cons, true_and]
      rintro i (rfl | hi)
      · exact hlt
      · exact lt_of_lt_of_le hlt (ha i hi)

/-- C1 (as amended): whenever both buffers are non-empty and the newest buffered
inertial timestamp is earlier than the CAPTURE timestamp of the oldest scan,
`SyncMeasure` returns not-ready and leaves the group and every buffer as they
were. -/
theorem C1_SyncMeasure_waits_before_capture_time {T : Type} [LinearOrderedField T]
    (measgroup : MeasureGroup T) (g : Globals T) (lidar : PointCloud2 T)
    (lidar_rest : List (PointCloud2 T)) (imu_back : Imu T)
    (hl : g.lidar_buffer = lidar :: lidar_rest)
    (hi : g.imu_buffer.getLast? = some imu_back)
    (hlt : imu_back.stamp < lidar.stamp) :
    SyncMeasure measgroup g = some (false, measgroup, g) := by
  simp [SyncMeasure, hl, hi, hlt]

/-- Witness for C1 (as amended): a scan captured at `t = 10` with inertial
samples only up to `t = 9` is not ready. -/
theorem C1_SyncMeasure_waits_before_capture_time_witness :
    (imuAt 9 : Imu ℚ).stamp < scan_at_10.stamp ∧
      SyncMeasure { lidar := none, imu := [] } buffers_before_capture =
        some (false, { lidar := none, imu := [] }, buffers_before_capture) :=
  ⟨by norm_num [imuAt, scan_at_10],
   C1_SyncMeasure_waits_before_capture_time _ buffers_before_capture scan_at_10 [] (imuAt 9)
     rfl rfl (by norm_num [imuAt, scan_at_10])⟩

/-- C1 (counterexample to the claim as stated): the scan `scan_9_to_10` ends at
`t = 10` (capture timestamp 9 plus its maximum offset of 1000 ms), the newest
buffered inertial timestamp is 9, earlier than that end, and yet `SyncMeasure`
returns ready and removes the scan and the sample from the buffers. -/
theorem C1_counterexample_ready_before_end_time :
    buffers_imu_upto_9.lidar_buffer = [scan_9_to_10] ∧
    spec_scan_end_time scan_9_to_10 = some 10 ∧
    buffers_imu_upto_9.imu_buffer.getLast? = some (imuAt 9) ∧
    (imuAt 9 : Imu ℚ).stamp < 10 ∧
    SyncMeasure { lidar := none, imu := [] } buffers_imu_upto_9 =
      some (true, { lidar := some scan_9_to_10, imu := [imuAt 9] },
        { buffers_imu_upto_9 with lidar_buffer := [], imu_buffer := [] }) := by
  refine ⟨rfl, ?_, rfl, ?_, ?_⟩
  · norm_num [spec_scan_end_time, scan_9_to_10, pointAt]
  · norm_num [imuAt]
  · simp [SyncMeasure, buffers_imu_upto_9, scan_9_to_10, lidar_end_time, collect_imu,
      pop_front_n, imuAt, pointAt]

/-- C3: when `SyncMeasure` returns ready from buffers whose inertial samples are
in non-decreasing timestamp order, the group holds the scan that was oldest in
the scan buffer, which has lost exactly that scan, and, in buffer order, exactly
the buffered samples with timestamp `≤ lidar_end_time`; the inertial buffer is
the group's samples followed by what is left in it, and everything left is
strictly later than that end time. -/
theorem C3_SyncMeasure_ready_group {T : Type} [LinearOrderedField T]
    (measgroup meas : MeasureGroup T) (g g1 : Globals T)
    (hsorted : g.imu_buffer.Pairwise (fun a b => a.stamp ≤ b.stamp))
    (hready : SyncMeasure measgroup g = some (true, meas, g1)) :
    ∃ lidar end_time,
      g.lidar_buffer = lidar :: g1.lidar_buffer ∧ meas.lidar = some lidar ∧
      lidar_end_time lidar = some end_time ∧
      meas.imu = g.imu_buffer.filter (fun i => decide (i.stamp ≤ end_time)) ∧
      g.imu_buffer = meas.imu ++ g1.imu_buffer ∧
      (∀ i ∈ g1.imu_buffer, end_time < i.stamp) := by
  unfold SyncMeasure at hready
  split at hready
  · simp at hready
  · simp at hready
  · rename_i lidar lidar_rest imu_back hl hi
    split_ifs at hready with hgate
    · simp at hready
    · split at hready
      · simp at hready
      · rename_i end_time hend
        simp only at hready
        split at hready
        · simp at hready
        · simp only [Option.some.injEq, Prod.mk.injEq, true_and] at hready
          obtain ⟨rfl, rfl⟩ := hready
          have hs := collect_imu_sorted end_time g.imu_buffer hsorted
          exact ⟨lidar, end_time, hl, rfl, hend, rfl, hs.1.symm, hs.2⟩

/-- Witness for C3: from `buffers_covering` the group is the scan ending at
`t = 10` with the samples at `9`, `9.5` and `10`; the sample at `10.5` stays. -/
theorem C3_SyncMeasure_ready_group_witness :
    buffers_covering.imu_buffer.Pairwise (fun a b => a.stamp ≤ b.stamp) ∧
    SyncMeasure { lidar := none, imu := [] } buffers_covering =
      some (true, { lidar := some scan_9_to_10, imu := [imuAt 9, imuAt 9.5, imuAt 10] },
        { buffers_covering with lidar_buffer := [{ stamp := 11, points := [] }],
                                imu_buffer := [imuAt 10.5] }) ∧
    ∃ lidar end_time,
      buffers_covering.lidar_buffer = lidar :: [{ stamp := 11, points := [] }] ∧
      some scan_9_to_10 = some lidar ∧
      lidar_end_time lidar = some end_time ∧
      [imuAt 9, imuAt 9.5, imuAt 10] =
        buffers_covering.imu_buffer.filter (fun i => decide (i.stamp ≤ end_time)) ∧
      buffers_covering.imu_buffer = [imuAt 9, imuAt 9.5, imuAt 10] ++ [imuAt 10.5] ∧
      (∀ i ∈ [(imuAt 10.5 : Imu ℚ)], end_time < i.stamp) := by
  have hsorted : buffers_covering.imu_buffer.Pairwise (fun a b => a.stamp ≤ b.stamp) := by
    norm_num [buffers_covering, imuAt]
  have hready : SyncMeasure { lidar := none, imu := [] } buffers_covering =
      some (true, { lidar := some scan_9_to_10, imu := [imuAt 9, imuAt 9.5, imuAt 10] },
        { buffers_covering with lidar_buffer := [{ stamp := 11, points := [] }],
                                imu_buffer := [imuAt 10.5] }) := by
    norm_num [SyncMeasure, buffers_covering, scan_9_to_10, lidar_end_time, collect_imu,
      pop_front_n, imuAt, pointAt, List.filter]
  exact ⟨hsorted, hready, C3_SyncMeasure_ready_group _ _ _ _ hsorted hready⟩

/-- A group with an empty inertial sequence fails the `ROS_ASSERT` on line 481:
`Process` has no result on it, whatever the object and the scan. -/
theorem Process_empty_imu (SO3_exp : Vector3d → Matrix3d) (s : ImuProcess)
    (lidar : Option (PointCloud2 ℝ)) :
    Process SO3_exp s { lidar := lidar, imu := [] } = none := by
  simp [Process]

/-- C2 (the code at the failing input): the buffers hold a scan captured at
`t = 10` that ends at `t = 10.1` and one inertial sample at `t = 20`. The gate of
line 705 does not hold the scan back (20 is not earlier than 10), no buffered
sample has a timestamp `≤ 10.1`, so the collected group is empty, and
`SyncMeasure` does not answer not-ready: after taking the scan it reads `back()`
of the empty group and has no defined result. `Process` in turn rejects the
empty group the buffers would hand over. -/
theorem C2_SyncMeasure_empty_group_not_discarded :
    buffers_imu_after_scan.lidar_buffer = [scan_10_to_10_1] ∧
    buffers_imu_after_scan.imu_buffer = [imuAt 20] ∧
    ¬ ((imuAt 20 : Imu ℝ).stamp < scan_10_to_10_1.stamp) ∧
    lidar_end_time scan_10_to_10_1 = some (10 + 100 / 1000) ∧
    collect_imu (10 + 100 / 1000) buffers_imu_after_scan.imu_buffer = [] ∧
    SyncMeasure { lidar := none, imu := [] } buffers_imu_after_scan = none ∧
    SyncMeasure { lidar := none, imu := [] } buffers_imu_after_scan ≠
      some (false, { lidar := none, imu := [] }, buffers_imu_after_scan) ∧
    ∀ (SO3_exp : Vector3d → Matrix3d) (s : ImuProcess),
      Process SO3_exp s { lidar := some scan_10_to_10_1, imu := [] } = none := by
  have hnone : SyncMeasure { lidar := none, imu := [] } buffers_imu_after_scan = none := by
    norm_num [SyncMeasure, buffers_imu_after_scan, scan_10_to_10_1, lidar_end_time,
      collect_imu, imuAt, pointAt]
  refine ⟨rfl, rfl, ?_, ?_, ?_, hnone, ?_, ?_⟩
  · norm_num [imuAt, scan_10_to_10_1]
  · simp [lidar_end_time, scan_10_to_10_1, pointAt]
  · norm_num [collect_imu, buffers_imu_after_scan, imuAt]
  · rw [hnone]; simp
  · intro SO3_exp s
    exact Process_empty_imu SO3_exp s _

/-! ## `Exp` -/

/-- The square of the cross-product matrix, entry by entry. -/
theorem skew_sq (v : Vector3d) :
    SKEW_SYM_MATRX v * SKEW_SYM_MATRX v =
      !![-(v 1 * v 1 + v 2 * v 2), v 0 * v 1, v 0 * v 2;
         v 0 * v 1, -(v 0 * v 0 + v 2 * v 2), v 1 * v 2;
         v 0 * v 2, v 1 * v 2, -(v 0 * v 0 + v 1 * v 1)] := by
  ext i j
  fin_cases i <;> fin_cases j <;>
    simp [SKEW_SYM_MATRX, Matrix.mul_apply, Fin.sum_univ_three] <;> ring

/-- The matrix of Rodrigues' formula, entry by entry. -/
theorem rodrigues_entries (v : Vector3d) (s t : ℝ) :
    1 + s • SKEW_SYM_MATRX v + t • SKEW_SYM_MATRX v * SKEW_SYM_MATRX v =
      !![1 - t * (v 1 * v 1 + v 2 * v 2), -(s * v 2) + t * (v 0 * v 1), s * v 1 + t * (v 0 * v 2);
         s * v 2 + t * (v 0 * v 1), 1 - t * (v 0 * v 0 + v 2 * v 2), -(s * v 0) + t * (v 1 * v 2);
         -(s * v 1) + t * (v 0 * v 2), s * v 0 + t * (v 1 * v 2), 1 - t * (v 0 * v 0 + v 1 * v 1)] := by
  rw [Matrix.smul_mul, skew_sq]
  ext i j
  fin_cases i <;> fin_cases j <;>
    simp [SKEW_SYM_MATRX, Matrix.one_apply] <;> ring



theorem mat3_congr {a b c d e f g h i a1 b1 c1 d1 e1 f1 g1 h1 i1 : ℝ}
    (ha : a = a1) (hb : b = b1) (hc : c = c1) (hd : d = d1) (he : e = e1) (hf : f = f1)
    (hg : g = g1) (hh : h = h1) (hi : i = i1) :
    (!![a, b, c; d, e, f; g, h, i] : Matrix3d) = !![a1, b1, c1; d1, e1, f1; g1, h1, i1] := by
  subst ha hb hc hd he hf hg hh hi
  rfl

theorem mat3_transpose_mul (a b c d e f g h i : ℝ) :
    Matrix.transpose (!![a, b, c; d, e, f; g, h, i] : Matrix3d) * !![a, b, c; d, e, f; g, h, i] =
      !![a * a + d * d + g * g, a * b + d * e + g * h, a * c + d * f + g * i;
         b * a + e * d + h * g, b * b + e * e + h * h, b * c + e * f + h * i;
         c * a + f * d + i * g, c * b + f * e + i * h, c * c + f * f + i * i] := by
  ext i j
  fin_cases i <;> fin_cases j <;>
    simp [Matrix.mul_apply, Fin.sum_univ_three, Matrix.transpose_apply, Matrix.vecHead,
      Matrix.vecTail]

theorem rodrigues_orthogonal (v : Vector3d) (s t : ℝ)
    (h1 : v 0 * v 0 + v 1 * v 1 + v 2 * v 2 = 1) (h2 : s ^ 2 + (1 - t) ^ 2 = 1) :
    Matrix.transpose (1 + s • SKEW_SYM_MATRX v + t • SKEW_SYM_MATRX v * SKEW_SYM_MATRX v) *
      (1 + s • SKEW_SYM_MATRX v + t • SKEW_SYM_MATRX v * SKEW_SYM_MATRX v) = 1 := by
  rw [rodrigues_entries, mat3_transpose_mul, Matrix.one_fin_three]
  apply mat3_congr
  · linear_combination (v 1 * v 1 + v 2 * v 2) * h2 + t ^ 2 * (v 1 * v 1 + v 2 * v 2) * h1
  · linear_combination (-(v 0 * v 1)) * h2 - t ^ 2 * (v 0 * v 1) * h1
  · linear_combination (-(v 0 * v 2)) * h2 - t ^ 2 * (v 0 * v 2) * h1
  · linear_combination (-(v 0 * v 1)) * h2 - t ^ 2 * (v 0 * v 1) * h1
  · linear_combination (v 0 * v 0 + v 2 * v 2) * h2 + t ^ 2 * (v 0 * v 0 + v 2 * v 2) * h1
  · linear_combination (-(v 1 * v 2)) * h2 - t ^ 2 * (v 1 * v 2) * h1
  · linear_combination (-(v 0 * v 2)) * h2 - t ^ 2 * (v 0 * v 2) * h1
  · linear_combination (-(v 1 * v 2)) * h2 - t ^ 2 * (v 1 * v 2) * h1
  · linear_combination (v 0 * v 0 + v 1 * v 1) * h2 + t ^ 2 * (v 0 * v 0 + v 1 * v 1) * h1

theorem mat3_det (a b c d e f g h i : ℝ) :
    (!![a, b, c; d, e, f; g, h, i] : Matrix3d).det =
      a * e * i - a * f * h - b * d * i + b * f * g + c * d * h - c * e * g := by
  rw [Matrix.det_fin_three]
  simp

theorem rodrigues_det (v : Vector3d) (s t : ℝ)
    (h1 : v 0 * v 0 + v 1 * v 1 + v 2 * v 2 = 1) (h2 : s ^ 2 + (1 - t) ^ 2 = 1) :
    (1 + s • SKEW_SYM_MATRX v + t • SKEW_SYM_MATRX v * SKEW_SYM_MATRX v).det = 1 := by
  rw [rodrigues_entries, mat3_det]
  linear_combination h2 +
    (-2 * t * (1 - t) + t ^ 2 * (v 0 * v 0 + v 1 * v 1 + v 2 * v 2 - 1) + s ^ 2) * h1


/-- The square of the Euclidean norm. -/
theorem norm3_mul_self (v : Vector3d) : norm3 v * norm3 v = v 0 * v 0 + v 1 * v 1 + v 2 * v 2 :=
  Real.mul_self_sqrt
    (add_nonneg (add_nonneg (mul_self_nonneg _) (mul_self_nonneg _)) (mul_self_nonneg _))

/-- C7: for every angular velocity and every `dt` (in particular every
`dt ≥ 0`) the matrix `Exp ang_vel dt` is a rotation over exact real arithmetic:
its transpose times itself is the identity and its determinant is 1. -/
theorem C7_Exp_rotation (ang_vel : Vector3d) (dt : ℝ) :
    Matrix.transpose (Exp ang_vel dt) * Exp ang_vel dt = 1 ∧ (Exp ang_vel dt).det = 1 := by
  unfold Exp
  simp only []
  split_ifs with h
  · have hpos : 0 < norm3 ang_vel := lt_trans (by norm_num) h
    have hne : norm3 ang_vel ≠ 0 := ne_of_gt hpos
    have h1 : (fun i => ang_vel i / norm3 ang_vel : Vector3d) 0 *
        (fun i => ang_vel i / norm3 ang_vel : Vector3d) 0 +
        (fun i => ang_vel i / norm3 ang_vel : Vector3d) 1 *
        (fun i => ang_vel i / norm3 ang_vel : Vector3d) 1 +
        (fun i => ang_vel i / norm3 ang_vel : Vector3d) 2 *
        (fun i => ang_vel i / norm3 ang_vel : Vector3d) 2 = 1 := by
      have := norm3_mul_self ang_vel
      field_simp
      linarith
    have h2 : Real.sin (norm3 ang_vel * dt) ^ 2 +
        (1 - (1.0 - Real.cos (norm3 ang_vel * dt))) ^ 2 = 1 := by
      rw [show (1 : ℝ) - (1.0 - Real.cos (norm3 ang_vel * dt)) = Real.cos (norm3 ang_vel * dt)
        by norm_num]
      exact Real.sin_sq_add_cos_sq (norm3 ang_vel * dt)
    exact ⟨rodrigues_orthogonal _ _ _ h1 h2, rodrigues_det _ _ _ h1 h2⟩
  · simp

/-- C8: `Exp ang_vel 0` is the identity matrix for every `ang_vel`, and
`Exp 0 dt` is the identity matrix for every `dt`. -/
theorem C8_Exp_identity :
    (∀ ang_vel : Vector3d, Exp ang_vel 0 = 1) ∧ (∀ dt : ℝ, Exp (0 : Vector3d) dt = 1) := by
  constructor
  · intro ang_vel
    unfold Exp
    norm_num
  · intro dt
    unfold Exp
    have h0 : norm3 (0 : Vector3d) = 0 := by simp [norm3]
    simp only [h0]
    norm_num


/-! ## `UndistortPcl` -/

/-- The point loop never empties the part of the cloud still to walk. -/
theorem walk_points_todo_ne_nil (pcl_beg_time : ℝ) (cont : ℝ → Bool) (Rie : ℝ → Matrix3d)
    (t : ℝ) (todo done : List (PointType ℝ)) (rots : List Matrix3d) (h : todo ≠ []) :
    (walk_points pcl_beg_time cont Rie t todo done rots).1 ≠ [] := by
  induction todo generalizing t done rots with
  | nil => exact absurd rfl h
  | cons p rest ih =>
    cases rest with
    | nil => simp [walk_points]
    | cons q rest =>
      unfold walk_points
      simp only
      split_ifs
      · exact ih _ _ _ (by simp)
      · simp

/-- Whatever a function `f` of a point does not see of the position is kept by
the point loop, point by point and in vector order. -/
theorem walk_points_map {β : Type} (f : PointType ℝ → β) (pcl_beg_time : ℝ) (cont : ℝ → Bool)
    (Rie : ℝ → Matrix3d) (hf : ∀ t p, f (rotate_point (Rie t) p) = f p)
    (t : ℝ) (todo done : List (PointType ℝ)) (rots : List Matrix3d) :
    ((walk_points pcl_beg_time cont Rie t todo done rots).2.1.reverse ++
      (walk_points pcl_beg_time cont Rie t todo done rots).1).map f =
      (done.reverse ++ todo).map f := by
  induction todo generalizing t done rots with
  | nil => simp [walk_points]
  | cons p rest ih =>
    cases rest with
    | nil => simp [walk_points]
    | cons q rest =>
      unfold walk_points
      simp only
      split_ifs
      · rw [ih]
        simp [hf]
      · rfl

/-- Rotating by the identity matrix leaves a point as it is. -/
theorem rotate_point_one (pt : PointType ℝ) : rotate_point 1 pt = pt := by
  simp [rotate_point]

/-- The matrix `Exp` gives for the zero angular velocity is the identity. -/
theorem Exp_zero_vel (dt : ℝ) : Exp (0 : Vector3d) dt = 1 := by
  unfold Exp
  have h0 : norm3 (0 : Vector3d) = 0 := by simp [norm3]
  simp only [h0]
  norm_num

/-- Over a segment whose two samples read exactly the bias, with the identity
accumulated so far, the segment body leaves the cloud and the accumulated
rotation as they are. -/
theorem undistort_segment_still (zero_bias_gyr : Vector3d) (orientation : Bool)
    (pcl_beg_time : ℝ) (rot_kp : Pose6D) (st : UndistortState) (head tail : Imu ℝ)
    (hR : st.R_kp = 1) (hh : head.angular_velocity = zero_bias_gyr)
    (ht : tail.angular_velocity = zero_bias_gyr) (hne : st.todo ≠ []) :
    ∃ st1, undistort_segment zero_bias_gyr orientation pcl_beg_time rot_kp st head tail = some st1 ∧
      st1.R_kp = 1 ∧ st1.todo ≠ [] ∧ st1.done.reverse ++ st1.todo = st.done.reverse ++ st.todo := by
  have hω : (fun i => 0.5 * (tail.angular_velocity i + head.angular_velocity i) -
      zero_bias_gyr i : Vector3d) = 0 := by
    funext i
    rw [hh, ht]
    simp only [Pi.zero_apply]
    ring
  unfold undistort_segment
  cases htodo : st.todo with
  | nil => exact absurd htodo hne
  | cons p rest =>
    simp only [hω, neg_zero, Exp_zero_vel, hR, mul_one]
    have hmap := fun cont t =>
      walk_points_map id pcl_beg_time cont (fun _ => (1 : Matrix3d))
        (fun _ q => by simp [rotate_point_one]) t (p :: rest) st.done st.v_rot_pcl_
    have hnil := fun cont t =>
      walk_points_todo_ne_nil pcl_beg_time cont (fun _ => (1 : Matrix3d)) t (p :: rest) st.done
        st.v_rot_pcl_ (by simp)
    simp only [List.map_id] at hmap
    split_ifs
    · exact ⟨_, rfl, rfl, hnil _ _, hmap _ _⟩
    · exact ⟨_, rfl, rfl, hnil _ _, hmap _ _⟩

/-- The segment loop over samples that all read exactly the bias leaves the
cloud as it is. -/
theorem undistort_segments_still (zero_bias_gyr : Vector3d) (orientation : Bool)
    (pcl_beg_time : ℝ) (rot_kp : Pose6D) (segs : List (Imu ℝ × Imu ℝ)) (st : UndistortState)
    (hR : st.R_kp = 1) (hne : st.todo ≠ [])
    (hsegs : ∀ seg ∈ segs, seg.1.angular_velocity = zero_bias_gyr ∧
      seg.2.angular_velocity = zero_bias_gyr) :
    ∃ st1, undistort_segments zero_bias_gyr orientation pcl_beg_time rot_kp st segs = some st1 ∧
      st1.done.reverse ++ st1.todo = st.done.reverse ++ st.todo := by
  induction segs generalizing st with
  | nil => exact ⟨st, rfl, rfl⟩
  | cons seg segs ih =>
    obtain ⟨st1, h1, hR1, hne1, hpts⟩ :=
      undistort_segment_still zero_bias_gyr orientation pcl_beg_time rot_kp st seg.1 seg.2 hR
        (hsegs seg (by simp)).1 (hsegs seg (by simp)).2 hne
    obtain ⟨st2, h2, hpts2⟩ := ih st1 hR1 hne1 (fun s hs => hsegs s (by simp [hs]))
    refine ⟨st2, ?_, hpts2.trans hpts⟩
    simp only [undistort_segments, h1]
    exact h2

/-- Both members of a segment are samples of the sequence. -/
theorem mem_of_mem_imu_segments (v_imu : List (Imu ℝ)) (seg : Imu ℝ × Imu ℝ)
    (h : seg ∈ imu_segments v_imu) : seg.1 ∈ v_imu ∧ seg.2 ∈ v_imu := by
  unfold imu_segments at h
  obtain ⟨a, b⟩ := seg
  have := List.of_mem_zip h
  exact ⟨this.1, List.mem_of_mem_tail this.2⟩

/-- Sorting keeps the points: the sorted cloud is a rearrangement of the input. -/
theorem sort_by_time_perm (points : List (PointType ℝ)) :
    (sort_by_time points).Perm points :=
  List.perm_insertionSort _ points

theorem sort_by_time_ne_nil (points : List (PointType ℝ)) (h : points ≠ []) :
    sort_by_time points ≠ [] := by
  intro h0
  have := (sort_by_time_perm points).length_eq
  rw [h0] at this
  exact h (List.length_eq_zero.mp this.symm)

/-- A non-empty list has a last and a first element. -/
theorem getLast_head_of_ne_nil {α : Type} (l : List α) (h : l ≠ []) :
    ∃ a b, l.getLast? = some a ∧ l.head? = some b := by
  cases l with
  | nil => exact absurd rfl h
  | cons x xs => exact ⟨(x :: xs).getLast (by simp), x, List.getLast?_eq_getLast _ _, rfl⟩

/-- C5: for every group with a non-empty scan and a non-empty inertial sequence
in which every sample's angular velocity equals the zero bias of the object,
`UndistortPcl` returns, in FORWARD and in BACKWARD mode alike, the input points
sorted by offset time, every one with the position (and every other field) it
had on input. -/
theorem C5_UndistortPcl_zero_angular_velocity (s : ImuProcess) (meas : MeasureGroup ℝ)
    (orientation : Bool) (lidar : PointCloud2 ℝ)
    (hl : meas.lidar = some lidar) (hpts : lidar.points ≠ []) (himu : meas.imu ≠ [])
    (hg : ∀ imu ∈ meas.imu, imu.angular_velocity = s.zero_bias_gyr) :
    (UndistortPcl s meas orientation).map Prod.snd = some (sort_by_time lidar.points) ∧
      (sort_by_time lidar.points).Perm lidar.points := by
  refine ⟨?_, sort_by_time_perm _⟩
  obtain ⟨v_imu_last, v_imu_first, hlast, hfirst⟩ := getLast_head_of_ne_nil meas.imu himu
  have hsne := sort_by_time_ne_nil lidar.points hpts
  have hsegs : ∀ seg ∈ imu_segments meas.imu, seg.1.angular_velocity = s.zero_bias_gyr ∧
      seg.2.angular_velocity = s.zero_bias_gyr := fun seg hseg =>
    ⟨hg _ (mem_of_mem_imu_segments _ _ hseg).1, hg _ (mem_of_mem_imu_segments _ _ hseg).2⟩
  unfold UndistortPcl
  simp only [hlast, hfirst, hl]
  split_ifs with ho hempty
  · obtain ⟨st1, h1, hp⟩ := undistort_segments_still s.zero_bias_gyr orientation lidar.stamp
      (set_pose6d (v_imu_last.stamp - v_imu_first.stamp) v_imu_last.linear_acceleration
        v_imu_last.angular_velocity ![0, 0, 0] s.zero_bias_gyr ![0, 0, 0] 1)
      (imu_segments meas.imu)
      { R_kp := 1, todo := sort_by_time lidar.points, done := [], v_rot_pcl_ := [1],
        pose6D := [set_pose6d (v_imu_last.stamp - v_imu_first.stamp)
          v_imu_last.linear_acceleration v_imu_last.angular_velocity ![0, 0, 0]
          s.zero_bias_gyr ![0, 0, 0] 1] }
      rfl hsne hsegs
    rw [h1]
    simp only [List.reverse_nil, List.nil_append] at hp
    simp only [Option.map_some', hp]
  · exact absurd (List.isEmpty_iff.mp hempty) hsne
  · obtain ⟨st1, h1, hp⟩ := undistort_segments_still s.zero_bias_gyr orientation lidar.stamp
      (set_pose6d (v_imu_last.stamp - v_imu_first.stamp) v_imu_last.linear_acceleration
        v_imu_last.angular_velocity ![0, 0, 0] s.zero_bias_gyr ![0, 0, 0] 1)
      (imu_segments meas.imu).reverse
      { R_kp := 1, todo := (sort_by_time lidar.points).reverse, done := [], v_rot_pcl_ := [1],
        pose6D := [set_pose6d (v_imu_last.stamp - v_imu_first.stamp)
          v_imu_last.linear_acceleration v_imu_last.angular_velocity ![0, 0, 0]
          s.zero_bias_gyr ![0, 0, 0] 1] }
      rfl (by simpa using hsne) (fun seg hseg => hsegs seg (List.mem_reverse.mp hseg))
    rw [h1]
    simp only [List.reverse_nil, List.nil_append] at hp
    have hrev : st1.todo.reverse ++ st1.done = sort_by_time lidar.points := by
      have := congrArg List.reverse hp
      simpa using this
    simp only [Option.map_some', hrev]

/-- The segment body keeps whatever a function `f` of a point does not see of
the position, and has a result whenever there is a point under `it_pcl`. -/
theorem undistort_segment_map {β : Type} (f : PointType ℝ → β)
    (hf : ∀ (R : Matrix3d) (p : PointType ℝ), f (rotate_point R p) = f p)
    (zero_bias_gyr : Vector3d) (orientation : Bool)
    (pcl_beg_time : ℝ) (rot_kp : Pose6D) (st : UndistortState) (head tail : Imu ℝ)
    (hne : st.todo ≠ []) :
    ∃ st1, undistort_segment zero_bias_gyr orientation pcl_beg_time rot_kp st head tail = some st1 ∧
      st1.todo ≠ [] ∧
      (st1.done.reverse ++ st1.todo).map f = (st.done.reverse ++ st.todo).map f := by
  unfold undistort_segment
  cases htodo : st.todo with
  | nil => exact absurd htodo hne
  | cons p rest =>
    simp only
    split_ifs
    · exact ⟨_, rfl, walk_points_todo_ne_nil _ _ _ _ _ _ _ (by simp),
        walk_points_map f _ _ _ (fun _ q => hf _ q) _ _ _ _⟩
    · exact ⟨_, rfl, walk_points_todo_ne_nil _ _ _ _ _ _ _ (by simp),
        walk_points_map f _ _ _ (fun _ q => hf _ q) _ _ _ _⟩

/-- The segment loop keeps whatever a function `f` of a point does not see of
the position, and has a result whenever the cloud is non-empty. -/
theorem undistort_segments_map {β : Type} (f : PointType ℝ → β)
    (hf : ∀ (R : Matrix3d) (p : PointType ℝ), f (rotate_point R p) = f p)
    (zero_bias_gyr : Vector3d) (orientation : Bool)
    (pcl_beg_time : ℝ) (rot_kp : Pose6D) (segs : List (Imu ℝ × Imu ℝ)) (st : UndistortState)
    (hne : st.todo ≠ []) :
    ∃ st1, undistort_segments zero_bias_gyr orientation pcl_beg_time rot_kp st segs = some st1 ∧
      (st1.done.reverse ++ st1.todo).map f = (st.done.reverse ++ st.todo).map f := by
  induction segs generalizing st with
  | nil => exact ⟨st, rfl, rfl⟩
  | cons seg segs ih =>
    obtain ⟨st1, h1, hne1, hpts⟩ :=
      undistort_segment_map f hf zero_bias_gyr orientation pcl_beg_time rot_kp st seg.1 seg.2 hne
    obtain ⟨st2, h2, hpts2⟩ := ih st1 hne1
    refine ⟨st2, ?_, hpts2.trans hpts⟩
    simp only [undistort_segments, h1]
    exact h2

/-- The sorted cloud is in ascending order of offset time. -/
theorem sort_by_time_sorted (points : List (PointType ℝ)) :
    (sort_by_time points).Pairwise (fun a b => a.curvature ≤ b.curvature) := by
  have hle : ∀ x y : PointType ℝ, time_list y x = false ↔ x.curvature ≤ y.curvature := by
    intro x y
    simp [time_list]
  have htotal : IsTotal (PointType ℝ) (fun x y => time_list y x = false) :=
    ⟨fun a b => by
      rw [hle, hle]
      exact le_total a.curvature b.curvature⟩
  have htrans : IsTrans (PointType ℝ) (fun x y => time_list y x = false) :=
    ⟨fun a b c hab hbc => by
      rw [hle] at hab hbc ⊢
      exact le_trans hab hbc⟩
  have hs := List.sorted_insertionSort (fun x y => time_list y x = false) points
  exact List.Pairwise.imp (fun {a b} h => (hle a b).mp h) hs

/-- The method `UndistortPcl` has a result on every group with a non-empty scan and a
non-empty inertial sequence, and the cloud it returns agrees with the sorted
input on whatever a function `f` of a point does not see of the position. -/
theorem UndistortPcl_map {β : Type} (f : PointType ℝ → β)
    (hf : ∀ (R : Matrix3d) (p : PointType ℝ), f (rotate_point R p) = f p)
    (s : ImuProcess) (meas : MeasureGroup ℝ)
    (orientation : Bool) (lidar : PointCloud2 ℝ)
    (hl : meas.lidar = some lidar) (hpts : lidar.points ≠ []) (himu : meas.imu ≠ []) :
    ∃ s1 out, UndistortPcl s meas orientation = some (s1, out) ∧
      out.map f = (sort_by_time lidar.points).map f := by
  obtain ⟨v_imu_last, v_imu_first, hlast, hfirst⟩ := getLast_head_of_ne_nil meas.imu himu
  have hsne := sort_by_time_ne_nil lidar.points hpts
  unfold UndistortPcl
  simp only [hlast, hfirst, hl]
  split_ifs with ho hempty
  · obtain ⟨st1, h1, hp⟩ := undistort_segments_map f hf s.zero_bias_gyr orientation lidar.stamp
      (set_pose6d (v_imu_last.stamp - v_imu_first.stamp) v_imu_last.linear_acceleration
        v_imu_last.angular_velocity ![0, 0, 0] s.zero_bias_gyr ![0, 0, 0] 1)
      (imu_segments meas.imu)
      { R_kp := 1, todo := sort_by_time lidar.points, done := [], v_rot_pcl_ := [1],
        pose6D := [set_pose6d (v_imu_last.stamp - v_imu_first.stamp)
          v_imu_last.linear_acceleration v_imu_last.angular_velocity ![0, 0, 0]
          s.zero_bias_gyr ![0, 0, 0] 1] }
      hsne
    rw [h1]
    simp only [List.reverse_nil, List.nil_append] at hp
    exact ⟨_, _, rfl, hp⟩
  · exact absurd (List.isEmpty_iff.mp hempty) hsne
  · obtain ⟨st1, h1, hp⟩ := undistort_segments_map f hf s.zero_bias_gyr orientation lidar.stamp
      (set_pose6d (v_imu_last.stamp - v_imu_first.stamp) v_imu_last.linear_acceleration
        v_imu_last.angular_velocity ![0, 0, 0] s.zero_bias_gyr ![0, 0, 0] 1)
      (imu_segments meas.imu).reverse
      { R_kp := 1, todo := (sort_by_time lidar.points).reverse, done := [], v_rot_pcl_ := [1],
        pose6D := [set_pose6d (v_imu_last.stamp - v_imu_first.stamp)
          v_imu_last.linear_acceleration v_imu_last.angular_velocity ![0, 0, 0]
          s.zero_bias_gyr ![0, 0, 0] 1] }
      (by simpa using hsne)
    rw [h1]
    simp only [List.reverse_nil, List.nil_append] at hp
    refine ⟨_, _, rfl, ?_⟩
    have := congrArg List.reverse hp
    simpa [List.map_reverse] using this

/-- C6: for every group with a non-empty scan and a non-empty inertial sequence
and for either direction, `UndistortPcl` returns a cloud with as many points as
the input scan, in ascending order of offset time, whose points carry, one by
one, the offset time, the intensity and the normal of the input scan sorted by
offset time: only the coordinates `x`, `y`, `z` can differ. -/
theorem C6_UndistortPcl_keeps_count_order_fields (s : ImuProcess) (meas : MeasureGroup ℝ)
    (orientation : Bool) (lidar : PointCloud2 ℝ)
    (hl : meas.lidar = some lidar) (hpts : lidar.points ≠ []) (himu : meas.imu ≠ []) :
    ∃ s1 out, UndistortPcl s meas orientation = some (s1, out) ∧
      out.length = lidar.points.length ∧
      out.Pairwise (fun a b => a.curvature ≤ b.curvature) ∧
      out.map non_position = (sort_by_time lidar.points).map non_position := by
  obtain ⟨s1, out, hout, hmap⟩ := UndistortPcl_map non_position (fun _ _ => rfl) s meas
    orientation lidar hl hpts himu
  refine ⟨s1, out, hout, ?_, ?_, hmap⟩
  · have h := congrArg List.length hmap
    simp only [List.length_map] at h
    rw [h]
    exact (sort_by_time_perm lidar.points).length_eq
  · have hc : out.map (fun p => p.curvature) =
        (sort_by_time lidar.points).map (fun p => p.curvature) := by
      have h := congrArg (List.map (fun q : ℝ × ℝ × ℝ × ℝ × ℝ => q.2.2.2.2)) hmap
      simpa [List.map_map, Function.comp_def, non_position] using h
    have hs := sort_by_time_sorted lidar.points
    have hs2 : ((sort_by_time lidar.points).map (fun p => p.curvature)).Pairwise (· ≤ ·) :=
      List.pairwise_map.mpr hs
    rw [← hc] at hs2
    exact List.pairwise_map.mp hs2

/-- The matrix `Exp` gives over a zero time span is the identity. -/
theorem Exp_zero_dt (ang_vel : Vector3d) : Exp ang_vel 0 = 1 := by
  unfold Exp
  norm_num

/-- About the negative z-axis `Exp` is the plane rotation by `-(w * dt)`. -/
theorem Exp_neg_z (w dt : ℝ) (hw : 0.0000001 < w) :
    Exp ![0, 0, -w] dt = rot_z (-(w * dt)) := by
  have hpos : 0 < w := lt_trans (by norm_num) hw
  have hn : norm3 ![0, 0, -w] = w := by
    unfold norm3
    simp only [Matrix.cons_val_zero, Matrix.cons_val_one, Matrix.head_cons, Matrix.cons_val_two,
      Matrix.tail_cons]
    rw [show (0 : ℝ) * 0 + 0 * 0 + -w * -w = w * w by ring]
    exact Real.sqrt_mul_self hpos.le
  unfold Exp
  simp only [hn, gt_iff_lt, hw, if_true]
  rw [show (1.0 : ℝ) = 1 by norm_num, rodrigues_entries]
  unfold rot_z
  apply mat3_congr <;> simp <;> field_simp

/-- The rotation about the z-axis by the angle 0 is the identity. -/
theorem rot_z_zero : rot_z 0 = 1 := by
  unfold rot_z
  rw [Matrix.one_fin_three]
  simp

/-- C4 (the code on the end-to-end group of the specification, zero gyro bias,
BACKWARD mode): the cloud returned holds the point at offset 10 ms at its input
position, the point at offset 5 ms rotated about the z-axis by `-(π * 0.005)`,
and the point at offset 0 ms at its INPUT position: the point loop stops when
`it_pcl` reaches `begin()`, before that point is rotated. A rotation about the
z-axis by an angle of magnitude `π * 0.01` would have moved it. -/
theorem C4_backward_earliest_point_not_rotated :
    (UndistortPcl (Reset (ImuProcess.ctor 0 0)) end_to_end_group BACKWARD).map Prod.snd =
      some [unit_x_point 0, rotate_point (rot_z (-(Real.pi * 0.005))) (unit_x_point 5),
        unit_x_point 10] ∧
    ∀ θ : ℝ, |θ| = Real.pi * 0.01 →
      rotate_point (rot_z θ) (unit_x_point 0) ≠ unit_x_point 0 := by
  constructor
  · have hsort : sort_by_time [unit_x_point 0, unit_x_point 5, unit_x_point 10] =
        [unit_x_point 0, unit_x_point 5, unit_x_point 10] := by
      norm_num [sort_by_time, time_list, List.insertionSort, List.orderedInsert, unit_x_point]
    have hω : (-fun i => 0.5 * ((imu_turning 0.01).angular_velocity i +
        (imu_turning 0).angular_velocity i) - (![0, 0, 0] : Vector3d) i : Vector3d) =
        ![0, 0, -Real.pi] := by
      funext i
      fin_cases i <;> simp [imu_turning]
      ring
    have hpi : (0.0000001 : ℝ) < Real.pi := lt_trans (by norm_num) Real.pi_gt_three
    have h10 : (imu_turning 0.01).stamp - ((unit_x_point 10).curvature / 1000 + 0) = 0 := by
      norm_num [imu_turning, unit_x_point]
    have h5 : (imu_turning 0.01).stamp - ((unit_x_point 5).curvature / 1000 + 0) = 0.005 := by
      norm_num [imu_turning, unit_x_point]
    have hc : ((unit_x_point 10).curvature / 1000 + 0 ≥ (imu_turning 0).stamp) := by
      norm_num [imu_turning, unit_x_point]
    simp only [UndistortPcl, end_to_end_group, hsort, Reset, imu_segments, undistort_segments,
      undistort_segment, walk_points, BACKWARD, FORWARD, List.getLast?, List.head?,
      List.reverse_cons, List.reverse_nil, List.nil_append, List.cons_append, List.tail_cons,
      List.zip_cons_cons, List.zip_nil_right, List.isEmpty_cons, List.getLast,
      Bool.true_eq_false, Bool.false_eq_true, if_false, hω, h10, h5, hc, decide_True, if_true,
      Exp_zero_dt, Exp_neg_z _ _ hpi, mul_one, rotate_point_one, Option.map_some', mul_zero,
      neg_zero, rot_z_zero]
  · intro θ hθ h
    have hy := congrArg PointType.y h
    simp [rotate_point, rot_z, unit_x_point, Matrix.mulVec, Matrix.dotProduct,
      Fin.sum_univ_three] at hy
    have hsin : 0 < Real.sin (Real.pi * 0.01) :=
      Real.sin_pos_of_pos_of_lt_pi (by positivity)
        (by nlinarith [Real.pi_pos])
    rcases abs_eq (by positivity : (0 : ℝ) ≤ Real.pi * 0.01) |>.mp hθ with h1 | h1
    · rw [h1] at hy; linarith
    · rw [h1, Real.sin_neg] at hy; linarith

/-- Witness for C5: the group `still_group` in BACKWARD mode, on an object whose
zero bias is `(0, 0, 0)`. -/
theorem C5_UndistortPcl_zero_angular_velocity_witness :
    (UndistortPcl (Reset (ImuProcess.ctor 0 0)) still_group BACKWARD).map Prod.snd =
        some (sort_by_time [unit_x_point 5, unit_x_point 0]) ∧
      (sort_by_time [unit_x_point 5, unit_x_point 0]).Perm [unit_x_point 5, unit_x_point 0] :=
  C5_UndistortPcl_zero_angular_velocity (Reset (ImuProcess.ctor 0 0)) still_group BACKWARD
    { stamp := 0, points := [unit_x_point 5, unit_x_point 0] } rfl (by simp)
    (by simp [still_group])
    (by
      intro imu himu
      simp only [still_group, List.mem_cons, List.mem_singleton, List.not_mem_nil, or_false]
        at himu
      rcases himu with rfl | rfl <;>
      · funext i
        fin_cases i <;> simp [imuAt, Reset])

/-- Witness for C6: the end-to-end group in FORWARD mode. -/
theorem C6_UndistortPcl_keeps_count_order_fields_witness :
    ∃ s1 out, UndistortPcl (Reset (ImuProcess.ctor 0 0)) end_to_end_group FORWARD =
        some (s1, out) ∧
      out.length = [unit_x_point 0, unit_x_point 5, unit_x_point 10].length ∧
      out.Pairwise (fun a b => a.curvature ≤ b.curvature) ∧
      out.map non_position =
        (sort_by_time [unit_x_point 0, unit_x_point 5, unit_x_point 10]).map non_position :=
  C6_UndistortPcl_keeps_count_order_fields (Reset (ImuProcess.ctor 0 0)) end_to_end_group FORWARD
    { stamp := 0, points := [unit_x_point 0, unit_x_point 5, unit_x_point 10] } rfl (by simp)
    (by simp [end_to_end_group])


/-! ## Calibration (`Process` while `Need_init`) -/

/-- One pass of the calibration loop has a result while the counter is between
1 and 46340 (then `N * N` fits an `int`), and it advances the running means by
one sample: `N * mean_after = (N - 1) * mean_before + x`. -/
theorem init_step_spec (s : ImuProcess) (imu : Imu ℝ)
    (h1 : 1 ≤ s.init_iter_num) (h2 : s.init_iter_num ≤ 46340) :
    ∃ s1, init_step s imu = some s1 ∧
      s1.init_iter_num = s.init_iter_num + 1 ∧
      s1.b_first_frame_ = s.b_first_frame_ ∧ s1.Need_init = s.Need_init ∧
      (s.init_iter_num : ℝ) * s1.scale_gravity =
        ((s.init_iter_num : ℝ) - 1) * s.scale_gravity + norm3 imu.linear_acceleration ∧
      (∀ i, (s.init_iter_num : ℝ) * s1.mean_acc i =
        ((s.init_iter_num : ℝ) - 1) * s.mean_acc i + imu.linear_acceleration i) ∧
      (∀ i, (s.init_iter_num : ℝ) * s1.mean_gyr i =
        ((s.init_iter_num : ℝ) - 1) * s.mean_gyr i + imu.angular_velocity i) := by
  have hN : ¬ (s.init_iter_num * s.init_iter_num > INT_MAX) := by
    unfold INT_MAX
    nlinarith
  have hpos : (0 : ℝ) < (s.init_iter_num : ℝ) := by
    have : (1 : ℝ) ≤ (s.init_iter_num : ℝ) := by exact_mod_cast h1
    linarith
  have hne : (s.init_iter_num : ℝ) ≠ 0 := ne_of_gt hpos
  unfold init_step
  simp only [hN, if_false]
  refine ⟨_, rfl, rfl, rfl, rfl, ?_, ?_, ?_⟩
  · field_simp
    ring
  · intro i
    field_simp
    ring
  · intro i
    field_simp
    ring

/-- The calibration loop over the samples `xs` has a result while the counter
stays within 46341, and it turns the running means into sums: with `n` the
counter before and `n1` the counter after,
`(n1 - 1) * mean_after = (n - 1) * mean_before + Σ x`. -/
theorem init_loop_spec (xs : List (Imu ℝ)) (s : ImuProcess)
    (h1 : 1 ≤ s.init_iter_num) (h2 : s.init_iter_num + xs.length ≤ 46341) :
    ∃ s1, init_loop s xs = some s1 ∧
      s1.init_iter_num = s.init_iter_num + xs.length ∧
      s1.b_first_frame_ = s.b_first_frame_ ∧ s1.Need_init = s.Need_init ∧
      ((s1.init_iter_num : ℝ) - 1) * s1.scale_gravity =
        ((s.init_iter_num : ℝ) - 1) * s.scale_gravity +
          (xs.map (fun imu => norm3 imu.linear_acceleration)).sum ∧
      (∀ i, ((s1.init_iter_num : ℝ) - 1) * s1.mean_acc i =
        ((s.init_iter_num : ℝ) - 1) * s.mean_acc i +
          (xs.map (fun imu => imu.linear_acceleration i)).sum) ∧
      (∀ i, ((s1.init_iter_num : ℝ) - 1) * s1.mean_gyr i =
        ((s.init_iter_num : ℝ) - 1) * s.mean_gyr i +
          (xs.map (fun imu => imu.angular_velocity i)).sum) := by
  induction xs generalizing s with
  | nil => exact ⟨s, rfl, by simp, rfl, rfl, by simp, by simp, by simp⟩
  | cons imu xs ih =>
    have hlen : ((imu :: xs).length : Int) = (xs.length : Int) + 1 := by simp
    rw [hlen] at h2
    obtain ⟨s1, hs1, hn1, hb1, hi1, hg1, ha1, hw1⟩ :=
      init_step_spec s imu h1 (by linarith [Int.natCast_nonneg xs.length])
    obtain ⟨s2, hs2, hn2, hb2, hi2, hg2, ha2, hw2⟩ :=
      ih s1 (by rw [hn1]; linarith) (by rw [hn1]; linarith)
    have hcast : (s1.init_iter_num : ℝ) - 1 = (s.init_iter_num : ℝ) := by
      rw [hn1]; push_cast; ring
    refine ⟨s2, ?_, ?_, hb2.trans hb1, hi2.trans hi1, ?_, ?_, ?_⟩
    · simp only [init_loop, hs1]
      exact hs2
    · rw [hn2, hn1, hlen]; ring
    · rw [hg2, hcast, hg1, List.map_cons, List.sum_cons]; ring
    · intro i
      rw [ha2 i, hcast, ha1 i, List.map_cons, List.sum_cons]; ring
    · intro i
      rw [hw2 i, hcast, hw1 i, List.map_cons, List.sum_cons]; ring

/-- The calibration loop over two runs of samples is the loop over the first
followed by the loop over the second. -/
theorem init_loop_append (xs ys : List (Imu ℝ)) (s : ImuProcess) :
    init_loop s (xs ++ ys) =
      match init_loop s xs with
      | none => none
      | some s1 => init_loop s1 ys := by
  induction xs generalizing s with
  | nil => rfl
  | cons imu xs ih =>
    simp only [List.cons_append, init_loop]
    cases init_step s imu with
    | none => rfl
    | some s1 => exact ih s1

/-- The first call of `Process` on an object (`b_first_frame_` set) only seeds:
it publishes nothing, and the object it leaves awaits calibration with the
counter at 1. -/
theorem Process_first_frame (SO3_exp : Vector3d → Matrix3d) (s : ImuProcess)
    (meas : MeasureGroup ℝ) (hb : s.b_first_frame_ = true)
    (himu : meas.imu ≠ []) (hl : meas.lidar ≠ none) :
    ∃ s1, Process SO3_exp s meas = some (s1, none) ∧
      s1.b_first_frame_ = false ∧ s1.Need_init = true ∧ s1.init_iter_num = 1 := by
  obtain ⟨imu_back, _, hlast, _⟩ := getLast_head_of_ne_nil meas.imu himu
  obtain ⟨lidar, hlidar⟩ := Option.ne_none_iff_exists'.mp hl
  unfold Process
  simp only [hlast, hlidar, hb, if_true]
  exact ⟨_, rfl, rfl, rfl, rfl⟩

/-- A call of `Process` on an object awaiting calibration runs the calibration
loop over the group, closes the calibration if the counter allows, and
publishes nothing. -/
theorem Process_calibrating (SO3_exp : Vector3d → Matrix3d) (s : ImuProcess)
    (meas : MeasureGroup ℝ) (hb : s.b_first_frame_ = false) (hi : s.Need_init = true)
    (himu : meas.imu ≠ []) (hl : meas.lidar ≠ none) :
    Process SO3_exp s meas =
      match init_loop s meas.imu with
      | none => none
      | some s1 => some (init_finish s1, none) := by
  obtain ⟨imu_back, _, hlast, _⟩ := getLast_head_of_ne_nil meas.imu himu
  obtain ⟨lidar, hlidar⟩ := Option.ne_none_iff_exists'.mp hl
  unfold Process
  simp only [hlast, hlidar, hb, hi, if_true, Bool.false_eq_true, if_false]

/-- Below the threshold `init_finish` changes nothing. -/
theorem init_finish_below (s : ImuProcess) (h : s.init_iter_num ≤ 50) : init_finish s = s := by
  unfold init_finish MAX_INI_COUNT
  rw [if_neg (by linarith)]

/-- Past the threshold `init_finish` closes the calibration. -/
theorem init_finish_above (s : ImuProcess) (h : 50 < s.init_iter_num) :
    (init_finish s).Need_init = false ∧
      (init_finish s).scale_gravity = 1 / max s.scale_gravity 0.1 ∧
      (init_finish s).zero_bias_gyr = s.mean_gyr ∧
      (init_finish s).mean_acc = s.mean_acc ∧ (init_finish s).mean_gyr = s.mean_gyr := by
  unfold init_finish MAX_INI_COUNT
  rw [if_pos (by linarith)]
  norm_num

/-- Groups handed to an object awaiting calibration, none of which but the last
brings the counter past the threshold: `Process` folds all their samples, in
order, in one run of the calibration loop, and `init_finish` acts once, after
the last sample. -/
theorem Process_all_calibrating (SO3_exp : Vector3d → Matrix3d) (gs : List (MeasureGroup ℝ))
    (s : ImuProcess) (hb : s.b_first_frame_ = false) (hi : s.Need_init = true)
    (h1 : 1 ≤ s.init_iter_num)
    (hwf : ∀ m ∈ gs, m.imu ≠ [] ∧ m.lidar ≠ none)
    (hfront : s.init_iter_num + (folded_samples gs.dropLast).length ≤ 50)
    (hbound : s.init_iter_num + (folded_samples gs).length ≤ 46341) :
    ∃ s1, init_loop s (folded_samples gs) = some s1 ∧
      Process_all SO3_exp s gs = some (init_finish s1) := by
  induction gs generalizing s with
  | nil =>
    refine ⟨s, rfl, ?_⟩
    have : s.init_iter_num ≤ 50 := by simpa [folded_samples] using hfront
    rw [init_finish_below s this]
    rfl
  | cons m rest ih =>
    have hm := hwf m (by simp)
    have hlen : ((folded_samples (m :: rest)).length : Int) =
        (m.imu.length : Int) + ((folded_samples rest).length : Int) := by
      simp [folded_samples]
    rw [hlen] at hbound
    obtain ⟨sm, hsm, hnm, hbm, him, -⟩ := init_loop_spec m.imu s h1
      (by linarith [Int.natCast_nonneg (folded_samples rest).length])
    have hP := Process_calibrating SO3_exp s m hb hi hm.1 hm.2
    rw [hsm] at hP
    cases rest with
    | nil =>
      refine ⟨sm, ?_, ?_⟩
      · simpa [folded_samples] using hsm
      · simp only [Process_all, hP]
    | cons r rest =>
      have hfront1 : s.init_iter_num + ((m.imu.length : Int) +
          ((folded_samples (r :: rest).dropLast).length : Int)) ≤ 50 := by
        have : (m :: r :: rest).dropLast = m :: (r :: rest).dropLast := rfl
        rw [this] at hfront
        simpa [folded_samples] using hfront
      have hsm50 : sm.init_iter_num ≤ 50 := by
        rw [hnm]
        linarith [Int.natCast_nonneg (folded_samples (r :: rest).dropLast).length]
      obtain ⟨s1, hs1, hP1⟩ := ih sm (hbm.trans hb) (him.trans hi) (by rw [hnm]; linarith)
        (fun x hx => hwf x (by simp [hx])) (by rw [hnm]; linarith) (by rw [hnm]; linarith)
      refine ⟨s1, ?_, ?_⟩
      · show init_loop s (m.imu ++ folded_samples (r :: rest)) = some s1
        rw [init_loop_append, hsm]
        exact hs1
      · simp only [Process_all, hP]
        rw [init_finish_below sm hsm50]
        exact hP1

/-- A freshly constructed object and an object after `Reset` both have
`b_first_frame_` set. -/
theorem fresh_or_reset_first_frame (za zg : Vector3d) (s : ImuProcess) :
    (ImuProcess.ctor za zg).b_first_frame_ = true ∧ (Reset s).b_first_frame_ = true :=
  ⟨rfl, rfl⟩

/-- What an object holds once the calibration has closed. From an object with
`b_first_frame_` set, a first group seeds; the groups `gs` after it are folded.
If the samples of `gs` before its last group are fewer than 50 and all of them
are at least 50 (and at most 46340), every call has a result, the calibration is
closed by the last group, and with `k` the number of folded samples:
`scale_gravity = 1 / max ((Σ ‖acc‖) / k) 0.1`, `zero_bias_gyr = mean_gyr`,
`mean_acc = (Σ acc) / k` and `mean_gyr = (Σ gyr) / k`. -/
theorem calibration_closed_form (SO3_exp : Vector3d → Matrix3d) (s0 : ImuProcess)
    (first : MeasureGroup ℝ) (gs : List (MeasureGroup ℝ))
    (hfresh : s0.b_first_frame_ = true)
    (hfirst : first.imu ≠ [] ∧ first.lidar ≠ none)
    (hwf : ∀ m ∈ gs, m.imu ≠ [] ∧ m.lidar ≠ none)
    (hfront : (folded_samples gs.dropLast).length < 50)
    (hreach : 50 ≤ (folded_samples gs).length)
    (hbound : (folded_samples gs).length ≤ 46340) :
    ∃ sf, Process_all SO3_exp s0 (first :: gs) = some sf ∧ sf.Need_init = false ∧
      sf.scale_gravity =
        1 / max (((folded_samples gs).map (fun imu => norm3 imu.linear_acceleration)).sum /
          ((folded_samples gs).length : ℝ)) 0.1 ∧
      sf.zero_bias_gyr = sf.mean_gyr ∧
      (∀ i, sf.mean_acc i =
        ((folded_samples gs).map (fun imu => imu.linear_acceleration i)).sum /
          ((folded_samples gs).length : ℝ)) ∧
      (∀ i, sf.mean_gyr i =
        ((folded_samples gs).map (fun imu => imu.angular_velocity i)).sum /
          ((folded_samples gs).length : ℝ)) := by
  obtain ⟨s1, hP1, hb1, hi1, hn1⟩ :=
    Process_first_frame SO3_exp s0 first hfresh hfirst.1 hfirst.2
  obtain ⟨s2, hloop, hPall⟩ := Process_all_calibrating SO3_exp gs s1 hb1 hi1 (by rw [hn1])
    hwf (by rw [hn1]; omega) (by rw [hn1]; omega)
  obtain ⟨s3, hloop3, hn3, -, -, hg, ha, hw⟩ :=
    init_loop_spec (folded_samples gs) s1 (by rw [hn1]) (by rw [hn1]; omega)
  have hs : s3 = s2 := Option.some.inj (hloop3.symm.trans hloop)
  subst hs
  have hk : (50 : ℝ) ≤ ((folded_samples gs).length : ℝ) := by exact_mod_cast hreach
  have hkpos : (0 : ℝ) < ((folded_samples gs).length : ℝ) := by linarith
  have hc : (s3.init_iter_num : ℝ) - 1 = ((folded_samples gs).length : ℝ) := by
    rw [hn3, hn1]; push_cast; ring
  have hc1 : (s1.init_iter_num : ℝ) - 1 = 0 := by rw [hn1]; norm_num
  rw [hc, hc1, zero_mul, zero_add] at hg
  have hsg : s3.scale_gravity =
      ((folded_samples gs).map (fun imu => norm3 imu.linear_acceleration)).sum /
        ((folded_samples gs).length : ℝ) := by
    rw [← hg]; field_simp
  have hacc : ∀ i, s3.mean_acc i =
      ((folded_samples gs).map (fun imu => imu.linear_acceleration i)).sum /
        ((folded_samples gs).length : ℝ) := by
    intro i
    have := ha i
    rw [hc, hc1, zero_mul, zero_add] at this
    rw [← this]; field_simp
  have hgyr : ∀ i, s3.mean_gyr i =
      ((folded_samples gs).map (fun imu => imu.angular_velocity i)).sum /
        ((folded_samples gs).length : ℝ) := by
    intro i
    have := hw i
    rw [hc, hc1, zero_mul, zero_add] at this
    rw [← this]; field_simp
  obtain ⟨f1, f2, f3, f4, f5⟩ := init_finish_above s3 (by rw [hn3, hn1]; omega)
  refine ⟨init_finish s3, ?_, f1, ?_, ?_, ?_, ?_⟩
  · simp only [Process_all, hP1]
    exact hPall
  · rw [f2, hsg]
  · rw [f3, f5]
  · intro i; rw [f4]; exact hacc i
  · intro i; rw [f5]; exact hgyr i

/-- When every group is non-empty, the groups before the last hold fewer
samples than all the groups together. -/
theorem folded_samples_dropLast_lt (gs : List (MeasureGroup ℝ)) (hne : gs ≠ [])
    (hwf : ∀ m ∈ gs, m.imu ≠ [] ∧ m.lidar ≠ none) :
    (folded_samples gs.dropLast).length < (folded_samples gs).length := by
  induction gs with
  | nil => exact absurd rfl hne
  | cons m rest ih =>
    cases rest with
    | nil =>
      have := List.length_pos.mpr (hwf m (by simp)).1
      simpa [folded_samples] using this
    | cons r rest =>
      have h := ih (by simp) (fun x hx => hwf x (by simp [hx]))
      have : (m :: r :: rest).dropLast = m :: (r :: rest).dropLast := rfl
      rw [this]
      simp only [folded_samples, List.length_append] at h ⊢
      omega

/-- The sum of a function that takes one value on the whole list. -/
theorem sum_map_const {α : Type} (f : α → ℝ) (c : ℝ) (xs : List α) (h : ∀ x ∈ xs, f x = c) :
    (xs.map f).sum = (xs.length : ℝ) * c := by
  induction xs with
  | nil => simp
  | cons x xs ih =>
    rw [List.map_cons, List.sum_cons, h x (by simp), ih (fun y hy => h y (by simp [hy]))]
    push_cast [List.length_cons]
    ring

/-- The norm of a vector along the z-axis. -/
theorem norm3_z (c : ℝ) : norm3 ![0, 0, c] = |c| := by
  unfold norm3
  simp only [Matrix.cons_val_zero, Matrix.cons_val_one, Matrix.head_cons, Matrix.cons_val_two,
    Matrix.tail_cons]
  rw [show (0 : ℝ) * 0 + 0 * 0 + c * c = c * c by ring]
  exact Real.sqrt_mul_self_eq_abs c

/-- C9: from an object with `b_first_frame_` set (a fresh or reset object), after
a first group, which only seeds, groups that together hold exactly 50 inertial
samples, all with acceleration `a`, `‖a‖ ≥ 0.1`, and angular velocity `g`, are
all processed, the calibration is closed, `zero_bias_gyr = g` and
`scale_gravity = 1 / ‖a‖`; for `a = (0, 0, -9.81)` that is `1 / 9.81`. -/
theorem C9_calibration_of_constant_samples (SO3_exp : Vector3d → Matrix3d) (s0 : ImuProcess)
    (first : MeasureGroup ℝ) (gs : List (MeasureGroup ℝ)) (a g : Vector3d)
    (hfresh : s0.b_first_frame_ = true)
    (hfirst : first.imu ≠ [] ∧ first.lidar ≠ none)
    (hwf : ∀ m ∈ gs, m.imu ≠ [] ∧ m.lidar ≠ none)
    (hconst : ∀ imu ∈ folded_samples gs, imu.linear_acceleration = a ∧ imu.angular_velocity = g)
    (hcount : (folded_samples gs).length = 50)
    (ha : 0.1 ≤ norm3 a) :
    ∃ sf, Process_all SO3_exp s0 (first :: gs) = some sf ∧ sf.Need_init = false ∧
      sf.zero_bias_gyr = g ∧ sf.scale_gravity = 1 / norm3 a ∧
      (a = ![0, 0, -9.81] → sf.scale_gravity = 1 / 9.81) := by
  have hne : gs ≠ [] := by
    rintro rfl
    simp [folded_samples] at hcount
  have hfront := folded_samples_dropLast_lt gs hne hwf
  obtain ⟨sf, hP, hN, hsg, hzb, -, hgyr⟩ := calibration_closed_form SO3_exp s0 first gs hfresh
    hfirst hwf (by omega) (by omega) (by omega)
  have hsum : ((folded_samples gs).map (fun imu => norm3 imu.linear_acceleration)).sum =
      ((folded_samples gs).length : ℝ) * norm3 a :=
    sum_map_const _ _ _ (fun x hx => by rw [(hconst x hx).1])
  have hk : ((folded_samples gs).length : ℝ) = 50 := by exact_mod_cast hcount
  have hscale : sf.scale_gravity = 1 / norm3 a := by
    rw [hsg, hsum, hk, mul_div_cancel_left₀ _ (by norm_num : (50 : ℝ) ≠ 0), max_eq_left ha]
  refine ⟨sf, hP, hN, ?_, hscale, ?_⟩
  · rw [hzb]
    funext i
    rw [hgyr i, sum_map_const _ (g i) _ (fun x hx => by rw [(hconst x hx).2]), hk]
    field_simp
  · intro h981
    rw [hscale, h981, norm3_z]
    norm_num [abs_of_neg]

/-- Witness for C9: a fresh object, a seeding group, then two groups of 25
stationary samples each. -/
theorem C9_calibration_of_constant_samples_witness :
    ∃ sf, Process_all (fun _ => 1) (ImuProcess.ctor 0 0)
        (seeding_group :: [stationary_group, stationary_group]) = some sf ∧
      sf.Need_init = false ∧
      sf.zero_bias_gyr = ![0, 0, 0] ∧ sf.scale_gravity = 1 / norm3 ![0, 0, -9.81] ∧
      ((![0, 0, -9.81] : Vector3d) = ![0, 0, -9.81] → sf.scale_gravity = 1 / 9.81) :=
  C9_calibration_of_constant_samples (fun _ => 1) (ImuProcess.ctor 0 0) seeding_group
    [stationary_group, stationary_group] ![0, 0, -9.81] ![0, 0, 0] rfl
    (by simp [seeding_group])
    (by simp [stationary_group])
    (by
      intro imu himu
      simp only [folded_samples, stationary_group, List.append_nil, List.mem_append,
        List.mem_replicate, or_self] at himu
      rw [himu.2]
      exact ⟨rfl, rfl⟩)
    (by simp [folded_samples, stationary_group])
    (by rw [norm3_z]; norm_num [abs_of_neg])

/-- C10 (as amended): when the calibration closes, `scale_gravity` is
`1 / max m 0.1` with `m` the arithmetic mean of the NORMS `‖acc‖` of the folded
samples (the running value of `scale_gravity`), `zero_bias_gyr` equals
`mean_gyr`, and `mean_acc`, `mean_gyr` are the arithmetic means of the folded
accelerations and angular velocities; for every sequence of folded samples
(at least 50 for the calibration to close, fewer than 50 before the last group,
at most 46340). -/
theorem C10_finalize_scale_is_mean_of_norms (SO3_exp : Vector3d → Matrix3d)
    (s0 : ImuProcess) (first : MeasureGroup ℝ) (gs : List (MeasureGroup ℝ))
    (hfresh : s0.b_first_frame_ = true)
    (hfirst : first.imu ≠ [] ∧ first.lidar ≠ none)
    (hwf : ∀ m ∈ gs, m.imu ≠ [] ∧ m.lidar ≠ none)
    (hfront : (folded_samples gs.dropLast).length < 50)
    (hreach : 50 ≤ (folded_samples gs).length)
    (hbound : (folded_samples gs).length ≤ 46340) :
    ∃ sf, Process_all SO3_exp s0 (first :: gs) = some sf ∧ sf.Need_init = false ∧
      sf.scale_gravity =
        1 / max (((folded_samples gs).map (fun imu => norm3 imu.linear_acceleration)).sum /
          ((folded_samples gs).length : ℝ)) 0.1 ∧
      sf.zero_bias_gyr = sf.mean_gyr ∧
      (∀ i, sf.mean_acc i =
        ((folded_samples gs).map (fun imu => imu.linear_acceleration i)).sum /
          ((folded_samples gs).length : ℝ)) ∧
      (∀ i, sf.mean_gyr i =
        ((folded_samples gs).map (fun imu => imu.angular_velocity i)).sum /
          ((folded_samples gs).length : ℝ)) :=
  calibration_closed_form SO3_exp s0 first gs hfresh hfirst hwf hfront hreach hbound

/-- Witness for C10 (as amended): a fresh object, a seeding group, then two
groups of 25 stationary samples each. -/
theorem C10_finalize_scale_is_mean_of_norms_witness :
    ∃ sf, Process_all (fun _ => 1) (ImuProcess.ctor 0 0)
        (seeding_group :: [stationary_group, stationary_group]) = some sf ∧
      sf.Need_init = false ∧
      sf.scale_gravity =
        1 / max (((folded_samples [stationary_group, stationary_group]).map
          (fun imu => norm3 imu.linear_acceleration)).sum /
          ((folded_samples [stationary_group, stationary_group]).length : ℝ)) 0.1 ∧
      sf.zero_bias_gyr = sf.mean_gyr ∧
      (∀ i, sf.mean_acc i =
        ((folded_samples [stationary_group, stationary_group]).map
          (fun imu => imu.linear_acceleration i)).sum /
          ((folded_samples [stationary_group, stationary_group]).length : ℝ)) ∧
      (∀ i, sf.mean_gyr i =
        ((folded_samples [stationary_group, stationary_group]).map
          (fun imu => imu.angular_velocity i)).sum /
          ((folded_samples [stationary_group, stationary_group]).length : ℝ)) :=
  C10_finalize_scale_is_mean_of_norms (fun _ => 1) (ImuProcess.ctor 0 0) seeding_group
    [stationary_group, stationary_group] rfl
    (by simp [seeding_group])
    (by simp [stationary_group])
    (by simp [folded_samples, stationary_group])
    (by simp [folded_samples, stationary_group])
    (by simp [folded_samples, stationary_group])

/-- C10 (counterexample to the claim as stated): a fresh object, a seeding
group, then one group of 50 samples, 25 with acceleration `(0, 0, 1)` and 25
with `(0, 0, -1)`. The calibration closes with `mean_acc = (0, 0, 0)`, so
`1 / max ‖mean_acc‖ 0.1` is 10, while `scale_gravity` is 1. -/
theorem C10_counterexample_scale_not_norm_of_mean :
    ∃ sf, Process_all (fun _ => 1) (ImuProcess.ctor 0 0) [seeding_group, flipping_group] =
        some sf ∧
      sf.Need_init = false ∧ sf.mean_acc = ![0, 0, 0] ∧
      1 / max (norm3 sf.mean_acc) 0.1 = 10 ∧ sf.scale_gravity = 1 ∧
      sf.scale_gravity ≠ 1 / max (norm3 sf.mean_acc) 0.1 := by
  obtain ⟨sf, hP, hN, hsg, -, hacc, -⟩ := calibration_closed_form (fun _ => 1)
    (ImuProcess.ctor 0 0) seeding_group [flipping_group] rfl
    (by simp [seeding_group])
    (by simp [flipping_group])
    (by simp [folded_samples])
    (by simp [folded_samples, flipping_group])
    (by simp [folded_samples, flipping_group])
  have hmean : sf.mean_acc = ![0, 0, 0] := by
    funext i
    rw [hacc i]
    fin_cases i <;>
      simp [folded_samples, flipping_group, imu_reading, List.sum_replicate]
  have hscale : sf.scale_gravity = 1 := by
    rw [hsg]
    simp only [folded_samples, flipping_group, imu_reading, List.append_nil, List.map_append,
      List.map_replicate, List.sum_append, List.sum_replicate, List.length_append,
      List.length_replicate, norm3_z, smul_eq_mul]
    norm_num
  have hnorm : 1 / max (norm3 sf.mean_acc) 0.1 = 10 := by
    rw [hmean, norm3_z]
    norm_num
  refine ⟨sf, hP, hN, hmean, hnorm, hscale, ?_⟩
  rw [hscale, hnorm]
  norm_num


/-! ## The scan end-time of `SyncMeasure` -/

/-- C17 (the code at the failing input): the scan `scan_unsorted`, captured at
`t = 0`, stores a point with offset time 100 ms before one with offset time
50 ms. Its capture timestamp plus its maximum offset time is `0.1`; the end-time
`SyncMeasure` computes is `0.05`, from the point stored last. -/
theorem C17_end_time_from_last_stored_point :
    scan_unsorted.points ≠ [] ∧
    spec_scan_end_time scan_unsorted = some (1 / 10) ∧
    lidar_end_time scan_unsorted = some (1 / 20) ∧
    lidar_end_time scan_unsorted ≠ spec_scan_end_time scan_unsorted := by
  have h1 : spec_scan_end_time scan_unsorted = some (1 / 10) := by
    norm_num [spec_scan_end_time, scan_unsorted, pointAt]
  have h2 : lidar_end_time scan_unsorted = some (1 / 20) := by
    norm_num [lidar_end_time, scan_unsorted, pointAt]
  refine ⟨by simp [scan_unsorted], h1, h2, ?_⟩
  rw [h1, h2]
  norm_num

/-- What a ready answer of `SyncMeasure` says about its arguments: the scan
buffer had an oldest scan, with an end-time, the group is that scan with the
collected samples, and the buffers have lost that scan and as many samples from
the front as were collected. -/
theorem SyncMeasure_ready_inv {T : Type} [LinearOrderedField T]
    (measgroup : MeasureGroup T) (g : Globals T) (meas : MeasureGroup T) (g1 : Globals T)
    (hready : SyncMeasure measgroup g = some (true, meas, g1)) :
    ∃ lidar lidar_rest end_time,
      g.lidar_buffer = lidar :: lidar_rest ∧ lidar_end_time lidar = some end_time ∧
      meas = { lidar := some lidar, imu := collect_imu end_time g.imu_buffer } ∧
      g1 = { g with lidar_buffer := lidar_rest,
                    imu_buffer := pop_front_n (collect_imu end_time g.imu_buffer).length
                      g.imu_buffer } := by
  unfold SyncMeasure at hready
  split at hready
  · simp at hready
  · simp at hready
  · rename_i lidar lidar_rest imu_back hl hi
    split_ifs at hready with hgate
    · simp at hready
    · split at hready
      · simp at hready
      · rename_i end_time hend
        simp only at hready
        split at hready
        · simp at hready
        · simp only [Option.some.injEq, Prod.mk.injEq, true_and] at hready
          obtain ⟨rfl, rfl⟩ := hready
          exact ⟨lidar, lidar_rest, end_time, hl, hend, rfl, rfl⟩

/-! ## `ProcessLoop` -/

/-- No callback clears the reset flag or touches `b_exit`. -/
theorem submit_all_flags (msgs : List Submission) (g : Globals ℝ) :
    (g.b_reset = true → (submit_all g msgs).b_reset = true) ∧
      (submit_all g msgs).b_exit = g.b_exit := by
  induction msgs generalizing g with
  | nil => exact ⟨fun h => h, rfl⟩
  | cons m msgs ih =>
    have hstep : (g.b_reset = true → (submit g m).b_reset = true) ∧
        (submit g m).b_exit = g.b_exit := by
      cases m with
      | imu msg =>
        refine ⟨fun h => ?_, rfl⟩
        simp [submit, imu_cbk, h]
      | scan msg => exact ⟨fun h => h, rfl⟩
    obtain ⟨h1, h2⟩ := ih (submit g m)
    exact ⟨fun h => h1 (hstep.1 h), h2.trans hstep.2⟩

/-- A pass of `ProcessLoop` that finds the reset flag set, `b_exit` clear and a
group ready calls `Reset`, clears the flag, and neither processes the group nor
publishes; the buffers are as `SyncMeasure` left them. -/
theorem ProcessLoop_pass_reset (SO3_exp : Vector3d → Matrix3d) (p_imu : ImuProcess)
    (g g1 : Globals ℝ) (meas : MeasureGroup ℝ)
    (hexit : g.b_exit = false) (hreset : g.b_reset = true)
    (hready : SyncMeasure { lidar := none, imu := [] } g = some (true, meas, g1)) :
    ProcessLoop_pass SO3_exp p_imu g =
      some { step := LoopStep.reset, p_imu := Reset p_imu, g := { g1 with b_reset := false },
             published := none } ∧
      g1.b_exit = false := by
  obtain ⟨lidar, lidar_rest, end_time, -, -, -, rfl⟩ := SyncMeasure_ready_inv _ g meas g1 hready
  unfold ProcessLoop_pass
  simp only [hready, Bool.true_or, if_true, hexit, hreset, Bool.false_eq_true, if_false,
    and_self]

/-- C11: an inertial submission whose timestamp is earlier than the previously
submitted inertial timestamp leaves the inertial buffer holding only the new
sample, sets the reset flag and leaves the scan buffer as it was. Whatever is
submitted afterwards, the next pass of `ProcessLoop` that gets a synchronized
group (with `b_exit` clear) calls `Reset` instead of `Process`: the object then
has `b_first_frame_` and `Need_init` set, nothing is published, and the flag is
cleared. -/
theorem C11_imu_loop_back_forces_reset (SO3_exp : Vector3d → Matrix3d) (p_imu : ImuProcess)
    (g g1 : Globals ℝ) (msg_in : Imu ℝ) (later : List Submission) (meas : MeasureGroup ℝ)
    (hback : msg_in.stamp < g.last_timestamp_imu)
    (hexit : g.b_exit = false)
    (hready : SyncMeasure { lidar := none, imu := [] } (submit_all (imu_cbk msg_in g) later) =
      some (true, meas, g1)) :
    (imu_cbk msg_in g).imu_buffer = [msg_in] ∧ (imu_cbk msg_in g).b_reset = true ∧
    (imu_cbk msg_in g).lidar_buffer = g.lidar_buffer ∧
    ProcessLoop_pass SO3_exp p_imu (submit_all (imu_cbk msg_in g) later) =
      some { step := LoopStep.reset, p_imu := Reset p_imu, g := { g1 with b_reset := false },
             published := none } ∧
    (Reset p_imu).b_first_frame_ = true ∧ (Reset p_imu).Need_init = true := by
  have hbuf : (imu_cbk msg_in g).imu_buffer = [msg_in] := by simp [imu_cbk, hback]
  have hflag : (imu_cbk msg_in g).b_reset = true := by simp [imu_cbk, hback]
  have hflags := submit_all_flags later (imu_cbk msg_in g)
  have hexit1 : (submit_all (imu_cbk msg_in g) later).b_exit = false := by
    rw [hflags.2]
    exact hexit
  exact ⟨hbuf, hflag, rfl,
    (ProcessLoop_pass_reset SO3_exp p_imu _ g1 meas hexit1 (hflags.1 hflag) hready).1, rfl, rfl⟩

/-- Witness for C11: the buffers `buffers_at_5` have seen inertial samples up to
`t = 5`; a sample at `t = 1` is submitted, then a scan captured at `t = 1` and a
sample at `t = 1.2`, after which a group is ready. -/
theorem C11_imu_loop_back_forces_reset_witness :
    (imuAt 1 : Imu ℝ).stamp < buffers_at_5.last_timestamp_imu ∧
    (imu_cbk (imuAt 1) buffers_at_5).imu_buffer = [imuAt 1] ∧
    (imu_cbk (imuAt 1) buffers_at_5).b_reset = true ∧
    (imu_cbk (imuAt 1) buffers_at_5).lidar_buffer = buffers_at_5.lidar_buffer ∧
    ProcessLoop_pass (fun _ => 1) (ImuProcess.ctor 0 0)
        (submit_all (imu_cbk (imuAt 1) buffers_at_5)
          [Submission.scan { stamp := 1, points := [pointAt 100] },
           Submission.imu (imuAt 1.2)]) =
      some { step := LoopStep.reset, p_imu := Reset (ImuProcess.ctor 0 0),
             g := { b_exit := false, b_reset := false, last_timestamp_lidar := 1,
                    lidar_buffer := [], last_timestamp_imu := 1.2,
                    imu_buffer := [imuAt 1.2] },
             published := none } ∧
    (Reset (ImuProcess.ctor 0 0)).b_first_frame_ = true ∧
    (Reset (ImuProcess.ctor 0 0)).Need_init = true := by
  have hback : (imuAt 1 : Imu ℝ).stamp < buffers_at_5.last_timestamp_imu := by
    norm_num [imuAt, buffers_at_5]
  have hready : SyncMeasure { lidar := none, imu := [] }
      (submit_all (imu_cbk (imuAt 1) buffers_at_5)
        [Submission.scan { stamp := 1, points := [pointAt 100] },
         Submission.imu (imuAt 1.2)]) =
      some (true, { lidar := some { stamp := 1, points := [pointAt 100] }, imu := [imuAt 1] },
        { b_exit := false, b_reset := true, last_timestamp_lidar := 1,
          lidar_buffer := [], last_timestamp_imu := 1.2, imu_buffer := [imuAt 1.2] }) := by
    norm_num [submit_all, submit, imu_cbk, pointcloud_cbk, buffers_at_5, SyncMeasure,
      lidar_end_time, collect_imu, pop_front_n, imuAt, pointAt, List.filter]
  exact ⟨hback, C11_imu_loop_back_forces_reset (fun _ => 1) (ImuProcess.ctor 0 0) buffers_at_5
    _ (imuAt 1) _ _ hback rfl hready⟩

/-- C14 (counterexample to the claim as stated): from `buffers_reset_pending`
the pass of `ProcessLoop` takes the RESET transition, and afterwards the scan
buffer still holds the scan captured at `t = 2` and the inertial buffer the
samples at `t = 2` and `t = 3`: neither ingress buffer is empty. -/
theorem C14_counterexample_ingress_buffers_kept :
    buffers_reset_pending.b_reset = true ∧
    ∃ r, ProcessLoop_pass (fun _ => 1) (ImuProcess.ctor 0 0) buffers_reset_pending = some r ∧
      r.step = LoopStep.reset ∧ r.p_imu = Reset (ImuProcess.ctor 0 0) ∧
      r.g.lidar_buffer = [{ stamp := 2, points := [pointAt 100] }] ∧
      r.g.imu_buffer = [imuAt 2, imuAt 3] ∧
      r.g.lidar_buffer ≠ [] ∧ r.g.imu_buffer ≠ [] := by
  have hready : SyncMeasure { lidar := none, imu := [] } buffers_reset_pending =
      some (true, { lidar := some { stamp := 1, points := [pointAt 100] }, imu := [imuAt 1] },
        { buffers_reset_pending with
          lidar_buffer := [{ stamp := 2, points := [pointAt 100] }],
          imu_buffer := [imuAt 2, imuAt 3] }) := by
    norm_num [buffers_reset_pending, SyncMeasure, lidar_end_time, collect_imu, pop_front_n,
      imuAt, pointAt, List.filter]
  have h := (ProcessLoop_pass_reset (fun _ => 1) (ImuProcess.ctor 0 0) buffers_reset_pending
    _ _ rfl rfl hready).1
  exact ⟨rfl, _, h, rfl, rfl, rfl, rfl, by simp, by simp⟩

/-- C14 (as amended): the RESET transition, a pass of `ProcessLoop` that finds
the reset flag set (with `b_exit` clear and a group ready), calls
`ImuProcess::Reset` and clears the flag. The object is back at its initial
values: gravity scale 1, zero biases `(0, 0, 0)`, variances `(0.1, 0.1, 0.1)`,
means `(0, 0, -1)` and `(0, 0, 0)`, sample counter 1, no anchors, an empty
orientation track, an empty key-pose sequence, empty working clouds, and
`b_first_frame_` and `Need_init` set. The ingress buffers are not cleared: they
are as `SyncMeasure` left them, without the scan and the samples of the group
that was dropped. -/
theorem C14_reset_transition (SO3_exp : Vector3d → Matrix3d) (p_imu : ImuProcess)
    (g g1 : Globals ℝ) (meas : MeasureGroup ℝ)
    (hexit : g.b_exit = false) (hreset : g.b_reset = true)
    (hready : SyncMeasure { lidar := none, imu := [] } g = some (true, meas, g1)) :
    ∃ r, ProcessLoop_pass SO3_exp p_imu g = some r ∧ r.step = LoopStep.reset ∧
      r.published = none ∧ r.g = { g1 with b_reset := false } ∧
      r.g.lidar_buffer = g1.lidar_buffer ∧ r.g.imu_buffer = g1.imu_buffer ∧
      r.p_imu = Reset p_imu ∧
      r.p_imu.scale_gravity = 1 ∧
      r.p_imu.zero_bias_acc = ![0, 0, 0] ∧ r.p_imu.zero_bias_gyr = ![0, 0, 0] ∧
      r.p_imu.cov_acc = ![0.1, 0.1, 0.1] ∧ r.p_imu.cov_gyr = ![0.1, 0.1, 0.1] ∧
      r.p_imu.mean_acc = ![0, 0, -1] ∧ r.p_imu.mean_gyr = ![0, 0, 0] ∧
      r.p_imu.init_iter_num = 1 ∧
      r.p_imu.last_lidar_ = none ∧ r.p_imu.last_imu_ = none ∧
      r.p_imu.v_rot_ = [] ∧ r.p_imu.v_imu_ = [] ∧ r.p_imu.v_rot_pcl_ = [] ∧
      r.p_imu.v_rot_kp_.pose6D = [] ∧
      r.p_imu.cur_pcl_in_ = some [] ∧ r.p_imu.cur_pcl_un_ = some [] ∧
      r.p_imu.b_first_frame_ = true ∧ r.p_imu.Need_init = true := by
  refine ⟨_, (ProcessLoop_pass_reset SO3_exp p_imu g g1 meas hexit hreset hready).1,
    rfl, rfl, rfl, rfl, rfl, rfl, ?_, rfl, rfl, rfl, rfl, ?_, rfl, rfl, rfl, rfl, rfl, rfl, rfl,
    rfl, rfl, rfl, rfl, rfl⟩
  · norm_num [Reset]
  · norm_num [Reset]

/-- Witness for C14 (as amended): the pass from `buffers_reset_pending`. -/
theorem C14_reset_transition_witness :
    ∃ r, ProcessLoop_pass (fun _ => 1) (ImuProcess.ctor 0 0) buffers_reset_pending = some r ∧
      r.step = LoopStep.reset ∧ r.published = none ∧
      r.g.lidar_buffer = [{ stamp := 2, points := [pointAt 100] }] ∧
      r.g.imu_buffer = [imuAt 2, imuAt 3] ∧
      r.p_imu = Reset (ImuProcess.ctor 0 0) ∧ r.p_imu.init_iter_num = 1 ∧
      r.p_imu.b_first_frame_ = true ∧ r.p_imu.Need_init = true := by
  have hready : SyncMeasure { lidar := none, imu := [] } buffers_reset_pending =
      some (true, { lidar := some { stamp := 1, points := [pointAt 100] }, imu := [imuAt 1] },
        { buffers_reset_pending with
          lidar_buffer := [{ stamp := 2, points := [pointAt 100] }],
          imu_buffer := [imuAt 2, imuAt 3] }) := by
    norm_num [buffers_reset_pending, SyncMeasure, lidar_end_time, collect_imu, pop_front_n,
      imuAt, pointAt, List.filter]
  obtain ⟨r, h1, h2, h3, -, h5, h6, h7, -, -, -, -, -, -, -, h15, -, -, -, -, -, -, -, -,
    h24, h25⟩ := C14_reset_transition (fun _ => 1) (ImuProcess.ctor 0 0) buffers_reset_pending
      _ _ rfl rfl hready
  exact ⟨r, h1, h2, h3, h5, h6, h7, h15, h24, h25⟩


/-! ## The point loop and the key poses of `UndistortPcl` -/

/-- What the point loop does: it takes a front part `moved` of the points still
to walk, replaces the position of each by `Rie t` times it, with `t` the
absolute time of that very point, and pushes those rotations on `v_rot_pcl_`. -/
theorem walk_points_spec (pcl_beg_time : ℝ) (cont : ℝ → Bool) (Rie : ℝ → Matrix3d)
    (t : ℝ) (todo done : List (PointType ℝ)) (rots : List Matrix3d) :
    ∃ moved,
      todo = moved ++ (walk_points pcl_beg_time cont Rie t todo done rots).1 ∧
      (walk_points pcl_beg_time cont Rie t todo done rots).2.1 =
        (moved.map (fun p => rotate_point (Rie (p.curvature / 1000 + pcl_beg_time)) p)).reverse
          ++ done ∧
      (walk_points pcl_beg_time cont Rie t todo done rots).2.2 =
        rots ++ moved.map (fun p => Rie (p.curvature / 1000 + pcl_beg_time)) := by
  induction todo generalizing t done rots with
  | nil => exact ⟨[], by simp [walk_points]⟩
  | cons p rest ih =>
    cases rest with
    | nil => exact ⟨[], by simp [walk_points]⟩
    | cons q rest =>
      unfold walk_points
      simp only
      split_ifs
      · obtain ⟨moved, h1, h2, h3⟩ := ih (p.curvature / 1000 + pcl_beg_time)
          (rotate_point (Rie (p.curvature / 1000 + pcl_beg_time)) p :: done)
          (rots ++ [Rie (p.curvature / 1000 + pcl_beg_time)])
        refine ⟨p :: moved, ?_, ?_, ?_⟩
        · rw [List.cons_append, ← h1]
        · rw [h2]; simp
        · rw [h3]; simp
      · exact ⟨[], by simp⟩

/-- What the body of the segment loop does to its variables: a front part
`moved` of the points still to walk is rotated, each by `point_rotation` with the
`R_kp` the segment started with; `R_kp` is multiplied by the rotation of the
whole segment; the variable `rot_kp` is pushed on the key poses. -/
theorem undistort_segment_spec (zero_bias_gyr : Vector3d) (orientation : Bool)
    (pcl_beg_time : ℝ) (rot_kp : Pose6D) (st st1 : UndistortState) (head tail : Imu ℝ)
    (h : undistort_segment zero_bias_gyr orientation pcl_beg_time rot_kp st head tail = some st1) :
    ∃ moved,
      st.todo = moved ++ st1.todo ∧
      st1.done = (moved.map (fun p => rotate_point
        (point_rotation zero_bias_gyr orientation pcl_beg_time head tail st.R_kp p) p)).reverse
          ++ st.done ∧
      st1.v_rot_pcl_ = st.v_rot_pcl_ ++ moved.map (fun p =>
        point_rotation zero_bias_gyr orientation pcl_beg_time head tail st.R_kp p) ∧
      st1.R_kp = accumulated_rotation zero_bias_gyr orientation [(head, tail)] * st.R_kp ∧
      st1.pose6D = st.pose6D ++ [rot_kp] := by
  unfold undistort_segment at h
  cases htodo : st.todo with
  | nil => simp [htodo] at h
  | cons p rest =>
    simp only [htodo] at h
    split_ifs at h with ho
    · obtain ⟨moved, h1, h2, h3⟩ := walk_points_spec pcl_beg_time
        (fun pt_time_abs => decide (pt_time_abs ≤ tail.stamp))
        (fun pt_time_abs => Exp (fun i => 0.5 * (tail.angular_velocity i +
          head.angular_velocity i) - zero_bias_gyr i) (pt_time_abs - head.stamp) * st.R_kp)
        (p.curvature / 1000 + pcl_beg_time) (p :: rest) st.done st.v_rot_pcl_
      simp only [Option.some.injEq] at h
      subst h
      refine ⟨moved, h1, ?_, ?_, ?_, rfl⟩
      · simp only [h2, point_rotation, ho, if_true]
        rfl
      · simp only [h3, point_rotation, ho, if_true]
        rfl
      · simp only [accumulated_rotation, ho, if_true, one_mul]
        rfl
    · obtain ⟨moved, h1, h2, h3⟩ := walk_points_spec pcl_beg_time
        (fun pt_time_abs => decide (pt_time_abs ≥ head.stamp))
        (fun pt_time_abs => Exp (-fun i => 0.5 * (tail.angular_velocity i +
          head.angular_velocity i) - zero_bias_gyr i) (tail.stamp - pt_time_abs) * st.R_kp)
        (p.curvature / 1000 + pcl_beg_time) (p :: rest) st.done st.v_rot_pcl_
      simp only [Option.some.injEq] at h
      subst h
      refine ⟨moved, h1, ?_, ?_, ?_, rfl⟩
      · simp only [h2, point_rotation, ho, if_false]
        rfl
      · simp only [h3, point_rotation, ho, if_false]
        rfl
      · simp only [accumulated_rotation, ho, if_false, one_mul]
        rfl

/-- The segment loop leaves in `R_kp` the rotation accumulated over the segments
it walked, times the `R_kp` it started with, and has pushed the variable
`rot_kp` once per segment. -/
theorem undistort_segments_R_kp (zero_bias_gyr : Vector3d) (orientation : Bool)
    (pcl_beg_time : ℝ) (rot_kp : Pose6D) (segs : List (Imu ℝ × Imu ℝ))
    (st st1 : UndistortState)
    (h : undistort_segments zero_bias_gyr orientation pcl_beg_time rot_kp st segs = some st1) :
    st1.R_kp = accumulated_rotation zero_bias_gyr orientation segs * st.R_kp ∧
      st1.pose6D = st.pose6D ++ List.replicate segs.length rot_kp := by
  induction segs generalizing st with
  | nil =>
    simp only [undistort_segments, Option.some.injEq] at h
    subst h
    simp [accumulated_rotation]
  | cons seg segs ih =>
    simp only [undistort_segments] at h
    cases hseg : undistort_segment zero_bias_gyr orientation pcl_beg_time rot_kp st seg.1 seg.2 with
    | none => simp [hseg] at h
    | some st2 =>
      simp only [hseg] at h
      obtain ⟨-, -, -, -, hR, hP⟩ := undistort_segment_spec _ _ _ _ _ _ _ _ hseg
      obtain ⟨hR1, hP1⟩ := ih st2 h
      constructor
      · rw [hR1, hR]
        simp only [accumulated_rotation, one_mul, mul_assoc]
      · rw [hP1, hP, List.append_assoc]
        simp [List.replicate_succ]

/-- The method `UndistortPcl` on a group with a non-empty scan and a non-empty
inertial sequence, in terms of its segment loop: the loop has a result `st`, and
the method returns the object with the key poses and `v_rot_pcl_` of `st`,
together with the cloud of `st`. -/
theorem UndistortPcl_eq (s : ImuProcess) (meas : MeasureGroup ℝ) (orientation : Bool)
    (lidar : PointCloud2 ℝ) (v_imu_last v_imu_first : Imu ℝ)
    (hl : meas.lidar = some lidar) (hpts : lidar.points ≠ [])
    (hlast : meas.imu.getLast? = some v_imu_last) (hfirst : meas.imu.head? = some v_imu_first) :
    ∃ st, undistort_segments s.zero_bias_gyr orientation lidar.stamp
        (initial_rot_kp s.zero_bias_gyr v_imu_first v_imu_last)
        (undistort_init orientation lidar.points
          (initial_rot_kp s.zero_bias_gyr v_imu_first v_imu_last))
        (visited_segments orientation meas.imu) = some st ∧
      UndistortPcl s meas orientation =
        some ({ s with v_rot_kp_ := { header_stamp := v_imu_first.stamp, pose6D := st.pose6D },
                       v_rot_pcl_ := st.v_rot_pcl_ },
              undistort_cloud orientation st) := by
  have hsne := sort_by_time_ne_nil lidar.points hpts
  have hne : (undistort_init orientation lidar.points
      (initial_rot_kp s.zero_bias_gyr v_imu_first v_imu_last)).todo ≠ [] := by
    unfold undistort_init
    simp only
    split_ifs
    · exact hsne
    · simpa using hsne
  obtain ⟨st, hst, -⟩ := undistort_segments_map (fun _ => ()) (fun _ _ => rfl) s.zero_bias_gyr
    orientation lidar.stamp (initial_rot_kp s.zero_bias_gyr v_imu_first v_imu_last)
    (visited_segments orientation meas.imu) _ hne
  refine ⟨st, hst, ?_⟩
  unfold UndistortPcl
  simp only [hlast, hfirst, hl]
  unfold undistort_init visited_segments initial_rot_kp at hst
  split_ifs with ho hempty
  · subst ho
    simp only [if_true] at hst
    simp only [hst, undistort_cloud, if_true]
  · exact absurd (List.isEmpty_iff.mp hempty) hsne
  · simp only [ho, if_false] at hst
    simp only [hst, undistort_cloud, ho, if_false]

/-- About the positive z-axis `Exp` is the plane rotation by `w * dt`. -/
theorem Exp_pos_z (w dt : ℝ) (hw : 0.0000001 < w) :
    Exp ![0, 0, w] dt = rot_z (w * dt) := by
  have hpos : 0 < w := lt_trans (by norm_num) hw
  have hn : norm3 ![0, 0, w] = w := by
    rw [norm3_z, abs_of_pos hpos]
  unfold Exp
  simp only [hn, gt_iff_lt, hw, if_true]
  rw [show (1.0 : ℝ) = 1 by norm_num, rodrigues_entries]
  unfold rot_z
  apply mat3_congr <;> simp <;> field_simp

/-- The averaged angular velocities of the two segments of `three_sample_group`
with zero bias, negated as the BACKWARD walk uses them. -/
theorem three_sample_ang_vel :
    (-fun i => 0.5 * ((imu_reading 2 ![0.2, 0, -9.81] ![0, 0, 1]).angular_velocity i +
        (imu_reading 1 ![0.1, 0, -9.81] ![0, 0, 1]).angular_velocity i) -
        (![0, 0, 0] : Vector3d) i : Vector3d) = ![0, 0, -1] ∧
    (-fun i => 0.5 * ((imu_reading 1 ![0.1, 0, -9.81] ![0, 0, 1]).angular_velocity i +
        (imu_reading 0 ![0, 0, -9.81] ![0, 0, -1]).angular_velocity i) -
        (![0, 0, 0] : Vector3d) i : Vector3d) = 0 := by
  constructor
  · funext i
    fin_cases i <;> simp [imu_reading]
    norm_num
  · funext i
    fin_cases i <;> simp [imu_reading]

/-- The cloud `UndistortPcl` returns for `three_sample_group` in BACKWARD mode
with zero bias: the points at 200 ms and 2000 ms keep their positions, the point
at 1500 ms is rotated about z by `-0.5` and the point at 500 ms by `-1.5`. -/
theorem three_sample_backward_cloud :
    (UndistortPcl (Reset (ImuProcess.ctor 0 0)) three_sample_group BACKWARD).map Prod.snd =
      some [unit_x_point 200, rotate_point (rot_z (-(1 * 1.5))) (unit_x_point 500),
        rotate_point (rot_z (-(1 * 0.5))) (unit_x_point 1500), unit_x_point 2000] := by
  have hsort : sort_by_time [unit_x_point 200, unit_x_point 500, unit_x_point 1500,
      unit_x_point 2000] =
      [unit_x_point 200, unit_x_point 500, unit_x_point 1500, unit_x_point 2000] := by
    norm_num [sort_by_time, time_list, List.insertionSort, List.orderedInsert, unit_x_point]
  obtain ⟨hω12, hω01⟩ := three_sample_ang_vel
  have h1 : (0.0000001 : ℝ) < 1 := by norm_num
  have ht2000 : (imu_reading 2 ![0.2, 0, -9.81] ![0, 0, 1]).stamp -
      ((unit_x_point 2000).curvature / 1000 + 0) = 0 := by
    norm_num [imu_reading, unit_x_point]
  have ht1500 : (imu_reading 2 ![0.2, 0, -9.81] ![0, 0, 1]).stamp -
      ((unit_x_point 1500).curvature / 1000 + 0) = 0.5 := by
    norm_num [imu_reading, unit_x_point]
  have ht500 : (imu_reading 2 ![0.2, 0, -9.81] ![0, 0, 1]).stamp -
      ((unit_x_point 500).curvature / 1000 + 0) = 1.5 := by
    norm_num [imu_reading, unit_x_point]
  have hc2000 : (unit_x_point 2000).curvature / 1000 + 0 ≥
      (imu_reading 1 ![0.1, 0, -9.81] ![0, 0, 1]).stamp := by
    norm_num [imu_reading, unit_x_point]
  have hc1500 : (unit_x_point 1500).curvature / 1000 + 0 ≥
      (imu_reading 1 ![0.1, 0, -9.81] ![0, 0, 1]).stamp := by
    norm_num [imu_reading, unit_x_point]
  have hc500 : ¬ ((unit_x_point 500).curvature / 1000 + 0 ≥
      (imu_reading 1 ![0.1, 0, -9.81] ![0, 0, 1]).stamp) := by
    norm_num [imu_reading, unit_x_point]
  simp only [UndistortPcl, three_sample_group, hsort, Reset, imu_segments, undistort_segments,
    undistort_segment, walk_points, BACKWARD, FORWARD, List.getLast?, List.head?,
    List.reverse_cons, List.reverse_nil, List.nil_append, List.cons_append, List.tail_cons,
    List.zip_cons_cons, List.zip_nil_right, List.isEmpty_cons, List.getLast,
    Bool.true_eq_false, Bool.false_eq_true, if_false, hω12, hω01, ht2000, ht1500, ht500,
    hc2000, hc1500, hc500, decide_True, decide_False, if_true,
    Exp_zero_dt, Exp_neg_z _ _ h1, Exp_zero_vel, mul_one, one_mul, rotate_point_one,
    Option.map_some', mul_zero, neg_zero, rot_z_zero]

/-- C15 (the code at the failing input): `three_sample_group`, zero bias,
BACKWARD mode. While the walk is in the segment from the sample at `t = 1`
(head) to the sample at `t = 2` (tail), the first segment it visits, three
points are rotated and only the point at 200 ms is left to walk. One of the
three is the point at 500 ms, whose absolute time `0.5` is earlier than the head
time 1: the loop test reads the `pt_time_abs` of the point handled before. It is
rotated with that segment's angular velocity, by `-(1 * 1.5)` about z, and that
is the position it has in the cloud returned. -/
theorem C15_point_before_head_time_rotated :
    (undistort_segment ![0, 0, 0] BACKWARD 0
        (initial_rot_kp ![0, 0, 0] (imu_reading 0 ![0, 0, -9.81] ![0, 0, -1])
          (imu_reading 2 ![0.2, 0, -9.81] ![0, 0, 1]))
        (undistort_init BACKWARD
          [unit_x_point 200, unit_x_point 500, unit_x_point 1500, unit_x_point 2000]
          (initial_rot_kp ![0, 0, 0] (imu_reading 0 ![0, 0, -9.81] ![0, 0, -1])
            (imu_reading 2 ![0.2, 0, -9.81] ![0, 0, 1])))
        (imu_reading 1 ![0.1, 0, -9.81] ![0, 0, 1])
        (imu_reading 2 ![0.2, 0, -9.81] ![0, 0, 1])).map (fun st => (st.todo, st.done)) =
      some ([unit_x_point 200],
        [rotate_point (rot_z (-(1 * 1.5))) (unit_x_point 500),
         rotate_point (rot_z (-(1 * 0.5))) (unit_x_point 1500), unit_x_point 2000]) ∧
    (unit_x_point 500).curvature / 1000 + 0 <
      (imu_reading 1 ![0.1, 0, -9.81] ![0, 0, 1]).stamp ∧
    (UndistortPcl (Reset (ImuProcess.ctor 0 0)) three_sample_group BACKWARD).map Prod.snd =
      some [unit_x_point 200, rotate_point (rot_z (-(1 * 1.5))) (unit_x_point 500),
        rotate_point (rot_z (-(1 * 0.5))) (unit_x_point 1500), unit_x_point 2000] ∧
    rotate_point (rot_z (-(1 * 1.5))) (unit_x_point 500) ≠ unit_x_point 500 := by
  refine ⟨?_, ?_, three_sample_backward_cloud, ?_⟩
  · have hsort : sort_by_time [unit_x_point 200, unit_x_point 500, unit_x_point 1500,
        unit_x_point 2000] =
        [unit_x_point 200, unit_x_point 500, unit_x_point 1500, unit_x_point 2000] := by
      norm_num [sort_by_time, time_list, List.insertionSort, List.orderedInsert, unit_x_point]
    obtain ⟨hω12, -⟩ := three_sample_ang_vel
    have h1 : (0.0000001 : ℝ) < 1 := by norm_num
    have ht2000 : (imu_reading 2 ![0.2, 0, -9.81] ![0, 0, 1]).stamp -
        ((unit_x_point 2000).curvature / 1000 + 0) = 0 := by
      norm_num [imu_reading, unit_x_point]
    have ht1500 : (imu_reading 2 ![0.2, 0, -9.81] ![0, 0, 1]).stamp -
        ((unit_x_point 1500).curvature / 1000 + 0) = 0.5 := by
      norm_num [imu_reading, unit_x_point]
    have ht500 : (imu_reading 2 ![0.2, 0, -9.81] ![0, 0, 1]).stamp -
        ((unit_x_point 500).curvature / 1000 + 0) = 1.5 := by
      norm_num [imu_reading, unit_x_point]
    have hc2000 : (unit_x_point 2000).curvature / 1000 + 0 ≥
        (imu_reading 1 ![0.1, 0, -9.81] ![0, 0, 1]).stamp := by
      norm_num [imu_reading, unit_x_point]
    have hc1500 : (unit_x_point 1500).curvature / 1000 + 0 ≥
        (imu_reading 1 ![0.1, 0, -9.81] ![0, 0, 1]).stamp := by
      norm_num [imu_reading, unit_x_point]
    have hc500 : ¬ ((unit_x_point 500).curvature / 1000 + 0 ≥
        (imu_reading 1 ![0.1, 0, -9.81] ![0, 0, 1]).stamp) := by
      norm_num [imu_reading, unit_x_point]
    simp only [undistort_init, hsort, undistort_segment, walk_points, BACKWARD, FORWARD,
      List.reverse_cons, List.reverse_nil, List.nil_append, List.cons_append,
      Bool.true_eq_false, if_false, hω12, ht2000, ht1500, ht500,
      hc2000, hc1500, hc500, decide_True, decide_False, if_true, Bool.false_eq_true,
      Exp_zero_dt, Exp_neg_z _ _ h1, mul_one, one_mul, rotate_point_one,
      Option.map_some', mul_zero, neg_zero, rot_z_zero]
  · norm_num [imu_reading, unit_x_point]
  · intro h
    have hy := congrArg PointType.y h
    simp [rotate_point, rot_z, unit_x_point, Matrix.mulVec, Matrix.dotProduct,
      Fin.sum_univ_three] at hy
    have hsin : 0 < Real.sin 1.5 :=
      Real.sin_pos_of_pos_of_lt_pi (by norm_num) (by linarith [Real.pi_gt_three])
    linarith

/-- A sequence of `n` samples has `n - 1` segments. -/
theorem imu_segments_length (v_imu : List (Imu ℝ)) :
    (imu_segments v_imu).length = v_imu.length - 1 := by
  unfold imu_segments
  simp

/-- The key poses `UndistortPcl` leaves, in either direction, for a group with a
non-empty scan and `n ≥ 1` inertial samples: `n` copies of the variable `rot_kp`
of line 326, since the records built on lines 396 and 462 are not stored. -/
theorem UndistortPcl_pose6D (s : ImuProcess) (meas : MeasureGroup ℝ) (orientation : Bool)
    (lidar : PointCloud2 ℝ) (v_imu_last v_imu_first : Imu ℝ)
    (hl : meas.lidar = some lidar) (hpts : lidar.points ≠ [])
    (hlast : meas.imu.getLast? = some v_imu_last) (hfirst : meas.imu.head? = some v_imu_first) :
    (UndistortPcl s meas orientation).map (fun r => r.1.v_rot_kp_.pose6D) =
      some (List.replicate meas.imu.length
        (initial_rot_kp s.zero_bias_gyr v_imu_first v_imu_last)) := by
  obtain ⟨st, hst, hU⟩ := UndistortPcl_eq s meas orientation lidar v_imu_last v_imu_first hl hpts
    hlast hfirst
  obtain ⟨-, hP⟩ := undistort_segments_R_kp _ _ _ _ _ _ _ hst
  have hlen : (visited_segments orientation meas.imu).length = meas.imu.length - 1 := by
    unfold visited_segments
    split_ifs
    · exact imu_segments_length _
    · rw [List.length_reverse]; exact imu_segments_length _
  have hpos : 0 < meas.imu.length := by
    cases hm : meas.imu with
    | nil => simp [hm] at hlast
    | cons a l => simp
  rw [hU]
  simp only [Option.map_some', hP, undistort_init, hlen]
  congr 1
  rw [show [initial_rot_kp s.zero_bias_gyr v_imu_first v_imu_last] =
    List.replicate 1 (initial_rot_kp s.zero_bias_gyr v_imu_first v_imu_last) from rfl,
    ← List.replicate_add]
  congr 1
  omega

/-- C12 (the code at the failing input): `three_sample_group`, zero bias,
BACKWARD mode. The key-pose sequence has three records, as many as inertial
samples, but all three are the record built before the walk: offset time 2 (the
span of the inertial sequence), the readings of the LAST sample, and the
identity rotation. For the segment with head at `t = 1` the claim expects offset
time `1 - 0 = 1`, the head's acceleration `(0.1, 0, -9.81)`, and the rotation
accumulated after that segment, which is the rotation by `-1` about z, not the
identity. -/
theorem C12_key_poses_all_initial_record :
    (UndistortPcl (Reset (ImuProcess.ctor 0 0)) three_sample_group BACKWARD).map
        (fun r => r.1.v_rot_kp_.pose6D) =
      some [initial_rot_kp ![0, 0, 0] (imu_reading 0 ![0, 0, -9.81] ![0, 0, -1])
              (imu_reading 2 ![0.2, 0, -9.81] ![0, 0, 1]),
            initial_rot_kp ![0, 0, 0] (imu_reading 0 ![0, 0, -9.81] ![0, 0, -1])
              (imu_reading 2 ![0.2, 0, -9.81] ![0, 0, 1]),
            initial_rot_kp ![0, 0, 0] (imu_reading 0 ![0, 0, -9.81] ![0, 0, -1])
              (imu_reading 2 ![0.2, 0, -9.81] ![0, 0, 1])] ∧
    (initial_rot_kp ![0, 0, 0] (imu_reading 0 ![0, 0, -9.81] ![0, 0, -1])
      (imu_reading 2 ![0.2, 0, -9.81] ![0, 0, 1])).offset_time = 2 ∧
    (initial_rot_kp ![0, 0, 0] (imu_reading 0 ![0, 0, -9.81] ![0, 0, -1])
      (imu_reading 2 ![0.2, 0, -9.81] ![0, 0, 1])).acc = ![0.2, 0, -9.81] ∧
    (initial_rot_kp ![0, 0, 0] (imu_reading 0 ![0, 0, -9.81] ![0, 0, -1])
      (imu_reading 2 ![0.2, 0, -9.81] ![0, 0, 1])).rot = 1 ∧
    (imu_reading 1 ![0.1, 0, -9.81] ![0, 0, 1]).stamp -
      (imu_reading 0 ![0, 0, -9.81] ![0, 0, -1]).stamp = 1 ∧
    (imu_reading 1 ![0.1, 0, -9.81] ![0, 0, 1]).linear_acceleration ≠ ![0.2, 0, -9.81] ∧
    accumulated_rotation ![0, 0, 0] BACKWARD
      [(imu_reading 1 ![0.1, 0, -9.81] ![0, 0, 1], imu_reading 2 ![0.2, 0, -9.81] ![0, 0, 1])] =
      rot_z (-(1 * 1)) ∧
    rot_z (-(1 * 1)) ≠ 1 := by
  refine ⟨?_, ?_, rfl, rfl, ?_, ?_, ?_, ?_⟩
  · have h := UndistortPcl_pose6D (Reset (ImuProcess.ctor 0 0)) three_sample_group BACKWARD
      { stamp := 0, points := [unit_x_point 200, unit_x_point 500, unit_x_point 1500,
        unit_x_point 2000] }
      (imu_reading 2 ![0.2, 0, -9.81] ![0, 0, 1]) (imu_reading 0 ![0, 0, -9.81] ![0, 0, -1])
      rfl (by simp) rfl rfl
    rw [h]
    rfl
  · norm_num [initial_rot_kp, set_pose6d, imu_reading]
  · norm_num [imu_reading]
  · intro h
    have h0 := congrFun h 0
    norm_num [imu_reading] at h0
  · obtain ⟨hω12, -⟩ := three_sample_ang_vel
    have h1 : (0.0000001 : ℝ) < 1 := by norm_num
    have hdt : (imu_reading 2 ![0.2, 0, -9.81] ![0, 0, 1]).stamp -
        (imu_reading 1 ![0.1, 0, -9.81] ![0, 0, 1]).stamp = 1 := by
      norm_num [imu_reading]
    have hω : -segment_ang_vel ![0, 0, 0] (imu_reading 1 ![0.1, 0, -9.81] ![0, 0, 1])
        (imu_reading 2 ![0.2, 0, -9.81] ![0, 0, 1]) = ![0, 0, -1] := hω12
    simp only [accumulated_rotation, BACKWARD, FORWARD, Bool.true_eq_false, if_false, one_mul,
      hω, hdt, Exp_neg_z _ _ h1]
  · intro h
    have h10 := congrFun (congrFun h 1) 0
    simp [rot_z] at h10
    have hsin : 0 < Real.sin 1 :=
      Real.sin_pos_of_pos_of_lt_pi (by norm_num) (by linarith [Real.pi_gt_three])
    linarith

/-- C16 (as amended): let the segment loop start with the identity in `R_kp`
(as `UndistortPcl` starts it), walk the segments `walked`, and then walk the
segment `(head, tail)`. With `ω_avg` the mean of the head and tail angular
velocities minus `zero_bias_gyr`, and `R` the rotation accumulated over
`walked` (the identity when `walked` is empty), every point rotated within
`(head, tail)` has its position replaced by `R_point · p` where, in BACKWARD
mode, `R_point = Exp (-ω_avg) dt · R` with `dt = tail_time - point_time`, and, in
FORWARD mode, `R_point = Exp ω_avg dt · R` with `dt = point_time - head_time`. -/
theorem C16_point_rotation_signs (zero_bias_gyr : Vector3d) (orientation : Bool)
    (pcl_beg_time : ℝ) (rot_kp : Pose6D) (st0 st st1 : UndistortState)
    (walked : List (Imu ℝ × Imu ℝ)) (head tail : Imu ℝ)
    (h0 : st0.R_kp = 1)
    (hwalked : undistort_segments zero_bias_gyr orientation pcl_beg_time rot_kp st0 walked =
      some st)
    (hseg : undistort_segment zero_bias_gyr orientation pcl_beg_time rot_kp st head tail =
      some st1) :
    st.R_kp = accumulated_rotation zero_bias_gyr orientation walked ∧
    accumulated_rotation zero_bias_gyr orientation [] = 1 ∧
    ∃ moved, st.todo = moved ++ st1.todo ∧
      (orientation = BACKWARD →
        st1.done = (moved.map (fun p => rotate_point
          (Exp (-segment_ang_vel zero_bias_gyr head tail)
            (tail.stamp - (p.curvature / 1000 + pcl_beg_time)) *
              accumulated_rotation zero_bias_gyr orientation walked) p)).reverse ++ st.done) ∧
      (orientation = FORWARD →
        st1.done = (moved.map (fun p => rotate_point
          (Exp (segment_ang_vel zero_bias_gyr head tail)
            (p.curvature / 1000 + pcl_beg_time - head.stamp) *
              accumulated_rotation zero_bias_gyr orientation walked) p)).reverse ++ st.done) := by
  have hR : st.R_kp = accumulated_rotation zero_bias_gyr orientation walked := by
    rw [(undistort_segments_R_kp _ _ _ _ _ _ _ hwalked).1, h0, mul_one]
  obtain ⟨moved, h1, h2, -⟩ := undistort_segment_spec _ _ _ _ _ _ _ _ hseg
  refine ⟨hR, rfl, moved, h1, ?_, ?_⟩
  · intro ho
    rw [h2, hR]
    simp [point_rotation, ho, BACKWARD, FORWARD]
  · intro ho
    rw [h2, hR]
    simp [point_rotation, ho]

/-- Witness for C16 (as amended): the first segment the BACKWARD walk visits in
`three_sample_group`, with zero bias. -/
theorem C16_point_rotation_signs_witness :
    ∃ st1, undistort_segment ![0, 0, 0] BACKWARD 0
        (initial_rot_kp ![0, 0, 0] (imu_reading 0 ![0, 0, -9.81] ![0, 0, -1])
          (imu_reading 2 ![0.2, 0, -9.81] ![0, 0, 1]))
        (undistort_init BACKWARD
          [unit_x_point 200, unit_x_point 500, unit_x_point 1500, unit_x_point 2000]
          (initial_rot_kp ![0, 0, 0] (imu_reading 0 ![0, 0, -9.81] ![0, 0, -1])
            (imu_reading 2 ![0.2, 0, -9.81] ![0, 0, 1])))
        (imu_reading 1 ![0.1, 0, -9.81] ![0, 0, 1])
        (imu_reading 2 ![0.2, 0, -9.81] ![0, 0, 1]) = some st1 ∧
      ∃ moved, (undistort_init BACKWARD
          [unit_x_point 200, unit_x_point 500, unit_x_point 1500, unit_x_point 2000]
          (initial_rot_kp ![0, 0, 0] (imu_reading 0 ![0, 0, -9.81] ![0, 0, -1])
            (imu_reading 2 ![0.2, 0, -9.81] ![0, 0, 1]))).todo = moved ++ st1.todo ∧
        st1.done = (moved.map (fun p => rotate_point
          (Exp (-segment_ang_vel ![0, 0, 0] (imu_reading 1 ![0.1, 0, -9.81] ![0, 0, 1])
              (imu_reading 2 ![0.2, 0, -9.81] ![0, 0, 1]))
            ((imu_reading 2 ![0.2, 0, -9.81] ![0, 0, 1]).stamp - (p.curvature / 1000 + 0)) *
              accumulated_rotation ![0, 0, 0] BACKWARD []) p)).reverse ++ [] := by
  have hne : (undistort_init BACKWARD
      [unit_x_point 200, unit_x_point 500, unit_x_point 1500, unit_x_point 2000]
      (initial_rot_kp ![0, 0, 0] (imu_reading 0 ![0, 0, -9.81] ![0, 0, -1])
        (imu_reading 2 ![0.2, 0, -9.81] ![0, 0, 1]))).todo ≠ [] := by
    have := sort_by_time_ne_nil
      [unit_x_point 200, unit_x_point 500, unit_x_point 1500, unit_x_point 2000] (by simp)
    simpa [undistort_init, BACKWARD, FORWARD] using this
  obtain ⟨st1, hst1, -⟩ := undistort_segment_map (fun _ => ()) (fun _ _ => rfl) ![0, 0, 0]
    BACKWARD 0 (initial_rot_kp ![0, 0, 0] (imu_reading 0 ![0, 0, -9.81] ![0, 0, -1])
      (imu_reading 2 ![0.2, 0, -9.81] ![0, 0, 1])) _
    (imu_reading 1 ![0.1, 0, -9.81] ![0, 0, 1]) (imu_reading 2 ![0.2, 0, -9.81] ![0, 0, 1]) hne
  obtain ⟨-, -, moved, hm, hb, -⟩ := C16_point_rotation_signs ![0, 0, 0] BACKWARD 0 _ _ _ st1 []
    (imu_reading 1 ![0.1, 0, -9.81] ![0, 0, 1]) (imu_reading 2 ![0.2, 0, -9.81] ![0, 0, 1])
    rfl rfl hst1
  exact ⟨st1, hst1, moved, hm, hb rfl⟩

/-- The cloud `UndistortPcl` returns for the end-to-end group in BACKWARD mode
with zero bias. -/
theorem end_to_end_backward_cloud :
    (UndistortPcl (Reset (ImuProcess.ctor 0 0)) end_to_end_group BACKWARD).map Prod.snd =
      some [unit_x_point 0, rotate_point (rot_z (-(Real.pi * 0.005))) (unit_x_point 5),
        unit_x_point 10] := by
  have hsort : sort_by_time [unit_x_point 0, unit_x_point 5, unit_x_point 10] =
      [unit_x_point 0, unit_x_point 5, unit_x_point 10] := by
    norm_num [sort_by_time, time_list, List.insertionSort, List.orderedInsert, unit_x_point]
  have hω : (-fun i => 0.5 * ((imu_turning 0.01).angular_velocity i +
      (imu_turning 0).angular_velocity i) - (![0, 0, 0] : Vector3d) i : Vector3d) =
      ![0, 0, -Real.pi] := by
    funext i
    fin_cases i <;> simp [imu_turning]
    ring
  have hpi : (0.0000001 : ℝ) < Real.pi := lt_trans (by norm_num) Real.pi_gt_three
  have h10 : (imu_turning 0.01).stamp - ((unit_x_point 10).curvature / 1000 + 0) = 0 := by
    norm_num [imu_turning, unit_x_point]
  have h5 : (imu_turning 0.01).stamp - ((unit_x_point 5).curvature / 1000 + 0) = 0.005 := by
    norm_num [imu_turning, unit_x_point]
  have hc : ((unit_x_point 10).curvature / 1000 + 0 ≥ (imu_turning 0).stamp) := by
    norm_num [imu_turning, unit_x_point]
  simp only [UndistortPcl, end_to_end_group, hsort, Reset, imu_segments, undistort_segments,
    undistort_segment, walk_points, BACKWARD, FORWARD, List.getLast?, List.head?,
    List.reverse_cons, List.reverse_nil, List.nil_append, List.cons_append, List.tail_cons,
    List.zip_cons_cons, List.zip_nil_right, List.isEmpty_cons, List.getLast,
    Bool.true_eq_false, Bool.false_eq_true, if_false, hω, h10, h5, hc, decide_True, if_true,
    Exp_zero_dt, Exp_neg_z _ _ hpi, mul_one, rotate_point_one, Option.map_some', mul_zero,
    neg_zero, rot_z_zero]

/-- C16 (counterexample to the claim as stated): the end-to-end group, zero
bias, BACKWARD mode. The point at offset 5 ms is rotated within the only
segment, with `ω_avg = (0, 0, π)`, `dt = 0.01 - 0.005` and `R` the identity. The
claim's `R_point = Exp ω_avg dt · R` is the rotation by `π * 0.005` about z and
takes the point to `y = sin (π * 0.005)`; the cloud returned holds it rotated by
`-(π * 0.005)`, at `y = -sin (π * 0.005)`. -/
theorem C16_counterexample_backward_sign :
    (UndistortPcl (Reset (ImuProcess.ctor 0 0)) end_to_end_group BACKWARD).map Prod.snd =
      some [unit_x_point 0, rotate_point (rot_z (-(Real.pi * 0.005))) (unit_x_point 5),
        unit_x_point 10] ∧
    segment_ang_vel ![0, 0, 0] (imu_turning 0) (imu_turning 0.01) = ![0, 0, Real.pi] ∧
    (imu_turning 0.01).stamp - ((unit_x_point 5).curvature / 1000 + 0) = 0.005 ∧
    Exp (segment_ang_vel ![0, 0, 0] (imu_turning 0) (imu_turning 0.01)) 0.005 * 1 =
      rot_z (Real.pi * 0.005) ∧
    rotate_point (rot_z (Real.pi * 0.005)) (unit_x_point 5) ≠
      rotate_point (rot_z (-(Real.pi * 0.005))) (unit_x_point 5) := by
  have hω : segment_ang_vel ![0, 0, 0] (imu_turning 0) (imu_turning 0.01) = ![0, 0, Real.pi] := by
    funext i
    fin_cases i <;> simp [segment_ang_vel, imu_turning]
    ring
  have hpi : (0.0000001 : ℝ) < Real.pi := lt_trans (by norm_num) Real.pi_gt_three
  refine ⟨end_to_end_backward_cloud, hω, ?_, ?_, ?_⟩
  · norm_num [imu_turning, unit_x_point]
  · rw [hω, Exp_pos_z _ _ hpi, mul_one]
  · intro h
    have hy := congrArg PointType.y h
    simp [rotate_point, rot_z, unit_x_point, Matrix.mulVec, Matrix.dotProduct,
      Fin.sum_univ_three] at hy
    have hsin : 0 < Real.sin (Real.pi * 0.005) :=
      Real.sin_pos_of_pos_of_lt_pi (by positivity) (by nlinarith [Real.pi_pos])
    linarith


/-! ## Running means and variances of the calibration -/

/-- Closing the calibration leaves the means and the variances as they are. -/
theorem init_finish_keeps (s : ImuProcess) :
    (init_finish s).mean_acc = s.mean_acc ∧ (init_finish s).mean_gyr = s.mean_gyr ∧
      (init_finish s).cov_acc = s.cov_acc ∧ (init_finish s).cov_gyr = s.cov_gyr := by
  unfold init_finish
  split_ifs <;> exact ⟨rfl, rfl, rfl, rfl⟩

/-- The running means after a first group and the groups `gs`, all of them
folded while the calibration is open (fewer than 50 samples before the last
group of `gs`): every call has a result, and the means are the arithmetic means
of the folded samples. -/
theorem calibration_means (SO3_exp : Vector3d → Matrix3d) (s0 : ImuProcess)
    (first : MeasureGroup ℝ) (gs : List (MeasureGroup ℝ))
    (hfresh : s0.b_first_frame_ = true)
    (hfirst : first.imu ≠ [] ∧ first.lidar ≠ none)
    (hwf : ∀ m ∈ gs, m.imu ≠ [] ∧ m.lidar ≠ none)
    (hfront : (folded_samples gs.dropLast).length < 50)
    (hk : 1 ≤ (folded_samples gs).length)
    (hbound : (folded_samples gs).length ≤ 46340) :
    ∃ sf, Process_all SO3_exp s0 (first :: gs) = some sf ∧
      (∀ i, sf.mean_acc i =
        arithmetic_mean ((folded_samples gs).map (fun imu => imu.linear_acceleration i))) ∧
      (∀ i, sf.mean_gyr i =
        arithmetic_mean ((folded_samples gs).map (fun imu => imu.angular_velocity i))) := by
  obtain ⟨s1, hP1, hb1, hi1, hn1⟩ :=
    Process_first_frame SO3_exp s0 first hfresh hfirst.1 hfirst.2
  obtain ⟨s2, hloop, hPall⟩ := Process_all_calibrating SO3_exp gs s1 hb1 hi1 (by rw [hn1])
    hwf (by rw [hn1]; omega) (by rw [hn1]; omega)
  obtain ⟨s3, hloop3, hn3, -, -, -, ha, hw⟩ :=
    init_loop_spec (folded_samples gs) s1 (by rw [hn1]) (by rw [hn1]; omega)
  have hs : s3 = s2 := Option.some.inj (hloop3.symm.trans hloop)
  subst hs
  have hkr : (1 : ℝ) ≤ ((folded_samples gs).length : ℝ) := by exact_mod_cast hk
  have hkpos : (0 : ℝ) < ((folded_samples gs).length : ℝ) := by linarith
  have hc : (s3.init_iter_num : ℝ) - 1 = ((folded_samples gs).length : ℝ) := by
    rw [hn3, hn1]; push_cast; ring
  have hc1 : (s1.init_iter_num : ℝ) - 1 = 0 := by rw [hn1]; norm_num
  obtain ⟨f1, f2, -, -⟩ := init_finish_keeps s3
  refine ⟨init_finish s3, ?_, ?_, ?_⟩
  · simp only [Process_all, hP1]
    exact hPall
  · intro i
    have := ha i
    rw [hc, hc1, zero_mul, zero_add] at this
    rw [f1, arithmetic_mean, List.length_map, ← this]
    field_simp
  · intro i
    have := hw i
    rw [hc, hc1, zero_mul, zero_add] at this
    rw [f2, arithmetic_mean, List.length_map, ← this]
    field_simp

/-- C18: from an object with `b_first_frame_` set (a fresh or reset object),
after the first group, which only seeds, once `k ≥ 1` inertial samples have been
folded while the calibration is open, `mean_acc` is the arithmetic mean of their
accelerations and `mean_gyr` the arithmetic mean of their angular velocities,
component by component (`k` at most 46340, so that every call has a result). -/
theorem C18_running_means (SO3_exp : Vector3d → Matrix3d) (s0 : ImuProcess)
    (first : MeasureGroup ℝ) (gs : List (MeasureGroup ℝ))
    (hfresh : s0.b_first_frame_ = true)
    (hfirst : first.imu ≠ [] ∧ first.lidar ≠ none)
    (hwf : ∀ m ∈ gs, m.imu ≠ [] ∧ m.lidar ≠ none)
    (hfront : (folded_samples gs.dropLast).length < 50)
    (hk : 1 ≤ (folded_samples gs).length)
    (hbound : (folded_samples gs).length ≤ 46340) :
    ∃ sf, Process_all SO3_exp s0 (first :: gs) = some sf ∧
      (∀ i, sf.mean_acc i =
        ((folded_samples gs).map (fun imu => imu.linear_acceleration i)).sum /
          ((folded_samples gs).length : ℝ)) ∧
      (∀ i, sf.mean_gyr i =
        ((folded_samples gs).map (fun imu => imu.angular_velocity i)).sum /
          ((folded_samples gs).length : ℝ)) := by
  obtain ⟨sf, hP, ha, hg⟩ := calibration_means SO3_exp s0 first gs hfresh hfirst hwf hfront hk
    hbound
  refine ⟨sf, hP, ?_, ?_⟩
  · intro i
    rw [ha i, arithmetic_mean, List.length_map]
  · intro i
    rw [hg i, arithmetic_mean, List.length_map]

/-- Witness for C18: a fresh object, a seeding group, then the two samples of
`two_sample_group`. -/
theorem C18_running_means_witness :
    ∃ sf, Process_all (fun _ => 1) (ImuProcess.ctor 0 0) (seeding_group :: [two_sample_group]) =
        some sf ∧
      (∀ i, sf.mean_acc i =
        ((folded_samples [two_sample_group]).map (fun imu => imu.linear_acceleration i)).sum /
          ((folded_samples [two_sample_group]).length : ℝ)) ∧
      (∀ i, sf.mean_gyr i =
        ((folded_samples [two_sample_group]).map (fun imu => imu.angular_velocity i)).sum /
          ((folded_samples [two_sample_group]).length : ℝ)) :=
  C18_running_means (fun _ => 1) (ImuProcess.ctor 0 0) seeding_group [two_sample_group] rfl
    (by simp [seeding_group])
    (by simp [two_sample_group])
    (by simp [folded_samples])
    (by simp [folded_samples, two_sample_group])
    (by simp [folded_samples, two_sample_group])

/-- The means and variances the calibration loop holds after the first two
samples `x1`, `x2` folded from a seeded object (counter at 1): the means are
`(x1 + x2) / 2` and the variances `(x2 - x1)² / 16`, component by component,
whatever the variances were before. -/
theorem init_loop_two_cov (s : ImuProcess) (x1 x2 : Imu ℝ) (hn : s.init_iter_num = 1) :
    ∃ s2, init_loop s [x1, x2] = some s2 ∧ s2.init_iter_num = 3 ∧
      s2.Need_init = s.Need_init ∧
      (∀ i, s2.mean_acc i = (x1.linear_acceleration i + x2.linear_acceleration i) / 2) ∧
      (∀ i, s2.cov_acc i =
        (x2.linear_acceleration i - x1.linear_acceleration i) ^ 2 / 16) ∧
      (∀ i, s2.cov_gyr i =
        (x2.angular_velocity i - x1.angular_velocity i) ^ 2 / 16) := by
  have h1 : ¬ ((1 : Int) * 1 > INT_MAX) := by unfold INT_MAX; norm_num
  have h2 : ¬ (((1 : Int) + 1) * (1 + 1) > INT_MAX) := by unfold INT_MAX; norm_num
  simp only [init_loop, init_step, hn, h1, h2, if_false]
  refine ⟨_, rfl, by norm_num, rfl, ?_, ?_, ?_⟩
  · intro i
    simp only
    push_cast
    ring
  · intro i
    simp only
    push_cast
    ring
  · intro i
    simp only
    push_cast
    ring

/-- C19 (the code at the failing input): a fresh object, a seeding group, then
one group of two samples with accelerations `(0, 0, 0)` and `(2, 0, 0)`. Both
calls have a result and the calibration is still open. The x-components 0 and 2
have arithmetic mean 1 and population variance 1; `mean_acc` has x-component 1
but `cov_acc` has x-component `1 / 4`: line 544 uses the mean already updated on
line 541. -/
theorem C19_cov_is_not_population_variance :
    ∃ sf, Process_all (fun _ => 1) (ImuProcess.ctor 0 0) [seeding_group, two_sample_group] =
        some sf ∧
      sf.Need_init = true ∧
      (folded_samples [two_sample_group]).map (fun imu => imu.linear_acceleration 0) = [0, 2] ∧
      arithmetic_mean [0, 2] = 1 ∧
      population_variance [0, 2] = 1 ∧
      sf.mean_acc 0 = 1 ∧
      sf.cov_acc 0 = 1 / 4 ∧
      sf.cov_acc 0 ≠ population_variance [0, 2] := by
  obtain ⟨s1, hP1, hb1, hi1, hn1⟩ := Process_first_frame (fun _ => 1) (ImuProcess.ctor 0 0)
    seeding_group rfl (by simp [seeding_group]) (by simp [seeding_group])
  obtain ⟨s2, hloop, hPall⟩ := Process_all_calibrating (fun _ => 1) [two_sample_group] s1 hb1 hi1
    (by rw [hn1]) (by simp [two_sample_group]) (by rw [hn1]; simp [folded_samples])
    (by rw [hn1]; simp [folded_samples, two_sample_group])
  obtain ⟨s3, hloop3, hn3, hneed, hmean, hcov, -⟩ := init_loop_two_cov s1
    (imu_reading 1 ![0, 0, 0] ![0, 0, 0]) (imu_reading 1 ![2, 0, 0] ![0, 0, 0]) hn1
  have hs : s3 = s2 := by
    have h : init_loop s1 (folded_samples [two_sample_group]) = some s3 := by
      simpa [folded_samples, two_sample_group] using hloop3
    exact Option.some.inj (h.symm.trans hloop)
  subst hs
  have hfin : init_finish s3 = s3 := init_finish_below s3 (by rw [hn3]; norm_num)
  rw [hfin] at hPall
  have hmean0 : arithmetic_mean [0, 2] = 1 := by norm_num [arithmetic_mean]
  have hvar : population_variance [0, 2] = 1 := by
    norm_num [population_variance, arithmetic_mean]
  have hc0 : s3.cov_acc 0 = 1 / 4 := by
    rw [hcov 0]
    norm_num [imu_reading]
  refine ⟨s3, ?_, hneed.trans hi1, ?_, hmean0, hvar, ?_, hc0, ?_⟩
  · simp only [Process_all, hP1]
    exact hPall
  · simp [folded_samples, two_sample_group, imu_reading]
  · rw [hmean 0]
    norm_num [imu_reading]
  · rw [hc0, hvar]
    norm_num


/-! ## The pipeline: seeding, calibration, active processing -/

/-- One pass of the calibration loop writes only the calibration accumulator. -/
theorem init_step_frame (s s1 : ImuProcess) (imu : Imu ℝ) (h : init_step s imu = some s1) :
    s1 = { s with scale_gravity := s1.scale_gravity, mean_acc := s1.mean_acc,
                  mean_gyr := s1.mean_gyr, cov_acc := s1.cov_acc, cov_gyr := s1.cov_gyr,
                  init_iter_num := s1.init_iter_num } := by
  unfold init_step at h
  simp only at h
  split_ifs at h
  simp only [Option.some.injEq] at h
  subst h
  rfl

/-- The calibration loop writes only the calibration accumulator. -/
theorem init_loop_frame (xs : List (Imu ℝ)) (s s1 : ImuProcess)
    (h : init_loop s xs = some s1) :
    s1 = { s with scale_gravity := s1.scale_gravity, mean_acc := s1.mean_acc,
                  mean_gyr := s1.mean_gyr, cov_acc := s1.cov_acc, cov_gyr := s1.cov_gyr,
                  init_iter_num := s1.init_iter_num } := by
  induction xs generalizing s with
  | nil =>
    simp only [init_loop, Option.some.injEq] at h
    subst h
    rfl
  | cons imu xs ih =>
    simp only [init_loop] at h
    cases hstep : init_step s imu with
    | none => simp [hstep] at h
    | some s2 =>
      simp only [hstep] at h
      have h1 := ih s2 h
      have h2 := init_step_frame s s2 imu hstep
      rw [h1, h2]

/-- Closing the calibration writes only `Need_init`, `scale_gravity` and
`zero_bias_gyr`. -/
theorem init_finish_frame (s : ImuProcess) :
    init_finish s = { s with Need_init := (init_finish s).Need_init,
                             scale_gravity := (init_finish s).scale_gravity,
                             zero_bias_gyr := (init_finish s).zero_bias_gyr } := by
  unfold init_finish
  split_ifs <;> rfl

/-- One pass of the loop of `IntegrateGyr` on an object whose track holds as
many rotations as samples, with what the seeding needs when the track is empty
(an anchor sample and a positive start timestamp), for a sample with a
non-negative timestamp: the pass has a result, writes only the track, and
either seeds it with the identity at a sample synthesized at the start
timestamp and appends one entry, or appends one entry. -/
theorem IntegrateGyr_step_spec (SO3_exp : Vector3d → Matrix3d) (s : ImuProcess) (imu : Imu ℝ)
    (hlen : s.v_rot_.length = s.v_imu_.length)
    (hseed : s.v_rot_ = [] → s.last_imu_ ≠ none ∧ 0 < s.start_timestamp_)
    (ht : 0 ≤ imu.stamp) :
    ∃ s1, IntegrateGyr_step SO3_exp s imu = some s1 ∧
      s1 = { s with v_rot_ := s1.v_rot_, v_imu_ := s1.v_imu_ } ∧
      s1.v_rot_.length = s1.v_imu_.length ∧
      (s.v_rot_ = [] → ∃ inter rot, inter.stamp = s.start_timestamp_ ∧
        s1.v_rot_ = [1, rot] ∧ s1.v_imu_ = [inter, imu]) ∧
      (s.v_rot_ ≠ [] → ∃ rot, s1.v_rot_ = s.v_rot_ ++ [rot] ∧ s1.v_imu_ = s.v_imu_ ++ [imu]) := by
  by_cases hv : s.v_rot_ = []
  · have hi : s.v_imu_ = [] := by
      rw [hv] at hlen
      exact List.length_eq_zero.mp hlen.symm
    obtain ⟨hlast, hpos⟩ := hseed hv
    obtain ⟨last_imu, hlast_imu⟩ := Option.ne_none_iff_exists'.mp hlast
    unfold IntegrateGyr_step
    simp only [hv, hi, hlast_imu, List.isEmpty_nil, if_true, gt_iff_lt, hpos, List.nil_append,
      List.getLast?_singleton, ge_iff_le, ht]
    exact ⟨_, rfl, rfl, rfl, fun _ => ⟨_, _, rfl, rfl, rfl⟩, fun h => absurd rfl h⟩
  · have hi : s.v_imu_ ≠ [] := by
      intro h0
      rw [h0] at hlen
      exact hv (List.length_eq_zero.mp hlen)
    obtain ⟨rot_last, _, hrl, _⟩ := getLast_head_of_ne_nil s.v_rot_ hv
    obtain ⟨imumsg_last, _, hil, _⟩ := getLast_head_of_ne_nil s.v_imu_ hi
    have hemp : s.v_rot_.isEmpty = false := by
      cases hc : s.v_rot_ with
      | nil => exact absurd hc hv
      | cons a l => rfl
    unfold IntegrateGyr_step
    simp only [hemp, Bool.false_eq_true, if_false, hrl, hil, ge_iff_le, ht, if_true]
    refine ⟨_, rfl, rfl, ?_, fun h => absurd h hv, fun _ => ⟨_, rfl, rfl⟩⟩
    simp [hlen]

/-- The loop of `IntegrateGyr` under the conditions of `IntegrateGyr_step_spec`:
it has a result, writes only the track, and APPENDS to the track it finds: one
entry per sample, after one more entry (the identity, at a sample synthesized at
the start timestamp) when the track was empty. -/
theorem IntegrateGyr_loop_spec (SO3_exp : Vector3d → Matrix3d) (v_imu : List (Imu ℝ))
    (s : ImuProcess)
    (hlen : s.v_rot_.length = s.v_imu_.length)
    (hseed : s.v_rot_ = [] → s.last_imu_ ≠ none ∧ 0 < s.start_timestamp_)
    (ht : ∀ imu ∈ v_imu, 0 ≤ imu.stamp) :
    ∃ s1, IntegrateGyr_loop SO3_exp s v_imu = some s1 ∧
      s1 = { s with v_rot_ := s1.v_rot_, v_imu_ := s1.v_imu_ } ∧
      s1.v_rot_.length = s1.v_imu_.length ∧
      (∃ tl, s1.v_rot_ = s.v_rot_ ++ tl ∧
        (s.v_rot_ ≠ [] → tl.length = v_imu.length) ∧
        (s.v_rot_ = [] → v_imu ≠ [] → tl.length = v_imu.length + 1)) ∧
      (∃ tli, s1.v_imu_ = s.v_imu_ ++ tli) ∧
      (s.v_rot_ = [] → v_imu ≠ [] → s1.v_rot_.head? = some 1 ∧
        ∃ inter, s1.v_imu_.head? = some inter ∧ inter.stamp = s.start_timestamp_) := by
  induction v_imu generalizing s with
  | nil =>
    exact ⟨s, rfl, rfl, hlen, ⟨[], by simp, fun _ => rfl, fun _ h => absurd rfl h⟩,
      ⟨[], by simp⟩, fun _ h => absurd rfl h⟩
  | cons imu v_imu ih =>
    obtain ⟨s2, hstep, hframe2, hlen2, hempty2, hfull2⟩ :=
      IntegrateGyr_step_spec SO3_exp s imu hlen hseed (ht imu (by simp))
    have hne2 : s2.v_rot_ ≠ [] := by
      by_cases hv : s.v_rot_ = []
      · obtain ⟨_, _, _, h, _⟩ := hempty2 hv
        rw [h]; simp
      · obtain ⟨_, h, _⟩ := hfull2 hv
        rw [h]; simp
    obtain ⟨s1, hloop, hframe1, hlen1, ⟨tl, htl, htlen, -⟩, ⟨tli, htli⟩, -⟩ :=
      ih s2 hlen2 (fun h => absurd h hne2) (fun x hx => ht x (by simp [hx]))
    have himu2 : ∃ tl2, s2.v_imu_ = s.v_imu_ ++ tl2 := by
      by_cases hv : s.v_rot_ = []
      · obtain ⟨inter, _, _, _, h⟩ := hempty2 hv
        have hi : s.v_imu_ = [] := by
          rw [hv] at hlen
          exact List.length_eq_zero.mp hlen.symm
        exact ⟨[inter, imu], by rw [h, hi]; rfl⟩
      · obtain ⟨_, _, h⟩ := hfull2 hv
        exact ⟨[imu], h⟩
    obtain ⟨tl2, htl2⟩ := himu2
    refine ⟨s1, ?_, ?_, hlen1, ?_, ⟨tl2 ++ tli, by rw [htli, htl2, List.append_assoc]⟩, ?_⟩
    · simp only [IntegrateGyr_loop, hstep]
      exact hloop
    · rw [hframe1, hframe2]
    · by_cases hv : s.v_rot_ = []
      · obtain ⟨_, rot, _, h, _⟩ := hempty2 hv
        refine ⟨[1, rot] ++ tl, ?_, fun h' => absurd hv h', fun _ _ => ?_⟩
        · rw [htl, h, hv]; rfl
        · simp [htlen hne2]
      · obtain ⟨rot, h, _⟩ := hfull2 hv
        refine ⟨[rot] ++ tl, ?_, fun _ => ?_, fun h' => absurd h' hv⟩
        · rw [htl, h, List.append_assoc]
        · simp [htlen hne2]
    · intro hv _
      obtain ⟨inter, rot, hstamp, h, hi⟩ := hempty2 hv
      refine ⟨?_, inter, ?_, hstamp⟩
      · rw [htl, h]; rfl
      · rw [htli, hi]; rfl

/-- Whenever one pass of the loop of `IntegrateGyr` has a result, it has written
only the track. -/
theorem IntegrateGyr_step_frame (SO3_exp : Vector3d → Matrix3d) (s s1 : ImuProcess)
    (imu : Imu ℝ) (h : IntegrateGyr_step SO3_exp s imu = some s1) :
    s1 = { s with v_rot_ := s1.v_rot_, v_imu_ := s1.v_imu_ } := by
  have hsecond : ∀ s2 : ImuProcess,
      (match s2.v_rot_.getLast?, s2.v_imu_.getLast? with
        | some rot_last, some imumsg_last =>
          if imu.stamp ≥ 0 then
            some { s2 with v_imu_ := s2.v_imu_ ++ [imu],
                           v_rot_ := s2.v_rot_ ++ [rot_last * SO3_exp (fun i =>
                             (imu.stamp - imumsg_last.stamp) *
                               (0.5 * (imu.angular_velocity i + imumsg_last.angular_velocity i)))] }
          else none
        | _, _ => none) = some s1 →
      s1 = { s2 with v_rot_ := s1.v_rot_, v_imu_ := s1.v_imu_ } := by
    intro s2 h2
    split at h2
    · split_ifs at h2
      simp only [Option.some.injEq] at h2
      subst h2
      rfl
    · simp at h2
  unfold IntegrateGyr_step at h
  by_cases he : s.v_rot_.isEmpty = true
  · cases hl : s.last_imu_ with
    | none => simp [he, hl] at h
    | some last_imu =>
      by_cases hp : s.start_timestamp_ > 0
      · simp only [he, hl, hp, if_true] at h
        split at h
        · split_ifs at h
          simp only [Option.some.injEq] at h
          subst h
          simp only [hl]
        · simp at h
      · simp [he, hl, hp] at h
  · simp only [he, Bool.false_eq_true, if_false] at h
    exact hsecond s h

/-- Whenever the loop of `IntegrateGyr` has a result, it has written only the
track. -/
theorem IntegrateGyr_loop_frame (SO3_exp : Vector3d → Matrix3d) (v_imu : List (Imu ℝ))
    (s s1 : ImuProcess) (h : IntegrateGyr_loop SO3_exp s v_imu = some s1) :
    s1 = { s with v_rot_ := s1.v_rot_, v_imu_ := s1.v_imu_ } := by
  induction v_imu generalizing s with
  | nil =>
    simp only [IntegrateGyr_loop, Option.some.injEq] at h
    subst h
    rfl
  | cons imu v_imu ih =>
    simp only [IntegrateGyr_loop] at h
    cases hstep : IntegrateGyr_step SO3_exp s imu with
    | none => simp [hstep] at h
    | some s2 =>
      simp only [hstep] at h
      rw [ih s2 h, IntegrateGyr_step_frame SO3_exp s s2 imu hstep]

/-- Whenever `IntegrateGyr` has a result, it has written only the start
timestamp and the track. -/
theorem IntegrateGyr_frame (SO3_exp : Vector3d → Matrix3d) (v_imu : List (Imu ℝ))
    (s s1 : ImuProcess) (h : IntegrateGyr SO3_exp s v_imu = some s1) :
    s1 = { s with start_timestamp_ := s1.start_timestamp_, v_rot_ := s1.v_rot_,
                  v_imu_ := s1.v_imu_ } := by
  unfold IntegrateGyr at h
  split at h
  · simp at h
  · rw [IntegrateGyr_loop_frame SO3_exp v_imu _ s1 h]

/-- The method `IntegrateGyr` on an anchored object, for samples with
non-negative timestamps: it has a result, writes only the start timestamp (the
timestamp of `last_lidar_`) and the track, and APPENDS to the track it finds:
one entry per sample, after one more entry (the identity, at a sample
synthesized at the timestamp of `last_lidar_`) when the track was empty. -/
theorem IntegrateGyr_spec (SO3_exp : Vector3d → Matrix3d) (v_imu : List (Imu ℝ))
    (s : ImuProcess) (hA : Anchored s) (ht : ∀ imu ∈ v_imu, 0 ≤ imu.stamp) :
    ∃ s1 last_lidar, IntegrateGyr SO3_exp s v_imu = some s1 ∧
      s.last_lidar_ = some last_lidar ∧
      s1 = { s with start_timestamp_ := last_lidar.stamp, v_rot_ := s1.v_rot_,
                    v_imu_ := s1.v_imu_ } ∧
      s1.v_rot_.length = s1.v_imu_.length ∧
      (∃ tl, s1.v_rot_ = s.v_rot_ ++ tl ∧
        (s.v_rot_ ≠ [] → tl.length = v_imu.length) ∧
        (s.v_rot_ = [] → v_imu ≠ [] → tl.length = v_imu.length + 1)) ∧
      (∃ tli, s1.v_imu_ = s.v_imu_ ++ tli) ∧
      (s.v_rot_ = [] → v_imu ≠ [] → s1.v_rot_.head? = some 1 ∧
        ∃ inter, s1.v_imu_.head? = some inter ∧ inter.stamp = last_lidar.stamp) := by
  obtain ⟨-, hll, hli, hlen, hpos⟩ := hA
  obtain ⟨last_lidar, hlast⟩ := Option.ne_none_iff_exists'.mp hll
  obtain ⟨s1, hloop, hframe, hlen1, htl, htli, hhead⟩ :=
    IntegrateGyr_loop_spec SO3_exp v_imu { s with start_timestamp_ := last_lidar.stamp } hlen
      (fun hv => by
        obtain ⟨ll, h1, h2⟩ := hpos hv
        rw [hlast] at h1
        cases h1
        exact ⟨hli, h2⟩) ht
  refine ⟨s1, last_lidar, ?_, hlast, hframe, hlen1, htl, htli, hhead⟩
  unfold IntegrateGyr
  split
  · rename_i h
    rw [hlast] at h
    cases h
  · rename_i ll h
    rw [hlast] at h
    cases h
    exact hloop

/-- The first call of `Process` on an object (`b_first_frame_` set), spelled
out: the object is reset, the anchors are the scan and the last sample of the
group, the counter is 1 and the accumulator is seeded from the last sample;
nothing is published. -/
theorem Process_first_frame_eq (SO3_exp : Vector3d → Matrix3d) (s : ImuProcess)
    (meas : MeasureGroup ℝ) (imu_back : Imu ℝ) (lidar : PointCloud2 ℝ)
    (hb : s.b_first_frame_ = true)
    (hlast : meas.imu.getLast? = some imu_back) (hl : meas.lidar = some lidar) :
    Process SO3_exp s meas =
      some ({ Reset { s with Need_init := true } with
                last_lidar_ := some lidar, last_imu_ := some imu_back,
                init_iter_num := 1, scale_gravity := norm3 imu_back.linear_acceleration,
                mean_acc := imu_back.linear_acceleration, mean_gyr := imu_back.angular_velocity,
                b_first_frame_ := false }, none) := by
  unfold Process
  simp only [hlast, hl, hb, if_true]

/-- Whenever `UndistortPcl` has a result, it has written only the key poses and
`v_rot_pcl_` of the object. -/
theorem UndistortPcl_frame (s s2 : ImuProcess) (meas : MeasureGroup ℝ) (orientation : Bool)
    (out : List (PointType ℝ)) (h : UndistortPcl s meas orientation = some (s2, out)) :
    s2 = { s with v_rot_kp_ := s2.v_rot_kp_, v_rot_pcl_ := s2.v_rot_pcl_ } := by
  unfold UndistortPcl at h
  simp only at h
  split at h
  · split_ifs at h
    · split at h
      · simp at h
      · simp only [Option.some.injEq, Prod.mk.injEq] at h
        obtain ⟨rfl, -⟩ := h
        rfl
    · split at h
      · simp at h
      · simp only [Option.some.injEq, Prod.mk.injEq] at h
        obtain ⟨rfl, -⟩ := h
        rfl
  · simp at h

/-- A call of `Process` on a started object whose calibration is closed is the
active branch: `IntegrateGyr` on the samples, then `UndistortPcl` in BACKWARD
mode on the group; the undistorted cloud and the key poses are published, the
group becomes the anchor, and the working clouds are renewed. It has a result
exactly when both methods have one. -/
theorem Process_active_eq (SO3_exp : Vector3d → Matrix3d) (s : ImuProcess)
    (meas : MeasureGroup ℝ) (imu_back : Imu ℝ) (lidar : PointCloud2 ℝ)
    (hS : Started s) (hN : s.Need_init = false)
    (hlast : meas.imu.getLast? = some imu_back) (hl : meas.lidar = some lidar) :
    Process SO3_exp s meas =
      match IntegrateGyr SO3_exp s meas.imu with
      | none => none
      | some s1 =>
        match UndistortPcl s1 meas BACKWARD with
        | none => none
        | some (s2, cur_pcl_un) =>
          some ({ s2 with last_lidar_ := some lidar, last_imu_ := some imu_back,
                          cur_pcl_in_ := some [], cur_pcl_un_ := some [] },
                some { livox_first_point := [], livox_undistort := cur_pcl_un,
                       livox_distort := [], KeyPointPose6D := s2.v_rot_kp_ }) := by
  obtain ⟨hb, hin, hun⟩ := hS
  unfold Process
  simp only [hlast, hl, hb, hN, Bool.false_eq_true, if_false]
  cases hI : IntegrateGyr SO3_exp s meas.imu with
  | none => rfl
  | some s1 =>
    have hf := IntegrateGyr_frame SO3_exp meas.imu s s1 hI
    have h1 : s1.cur_pcl_un_ = some [] := by rw [hf]; exact hun
    have h2 : s1.cur_pcl_in_ = some [] := by rw [hf]; exact hin
    simp only [h1, h2]

/-- The calls of `Process` on two runs of groups are the calls on the first run
followed by the calls on the second. -/
theorem Process_all_append (SO3_exp : Vector3d → Matrix3d) (xs ys : List (MeasureGroup ℝ))
    (s : ImuProcess) :
    Process_all SO3_exp s (xs ++ ys) =
      match Process_all SO3_exp s xs with
      | none => none
      | some s1 => Process_all SO3_exp s1 ys := by
  induction xs generalizing s with
  | nil => rfl
  | cons m xs ih =>
    simp only [List.cons_append, Process_all]
    cases Process SO3_exp s m with
    | none => rfl
    | some r => exact ih r.1

/-- A call of `Process` that has a result on a started object leaves a started
object, and leaves the calibration closed if it was. -/
theorem Process_keeps_started (SO3_exp : Vector3d → Matrix3d) (s s1 : ImuProcess)
    (meas : MeasureGroup ℝ) (pub : Option Published) (hS : Started s)
    (h : Process SO3_exp s meas = some (s1, pub)) :
    Started s1 ∧ (s.Need_init = false → s1.Need_init = false) := by
  obtain ⟨hb, hin, hun⟩ := hS
  cases hlast : meas.imu.getLast? with
  | none => simp [Process, hlast] at h
  | some imu_back =>
    cases hl : meas.lidar with
    | none => simp [Process, hlast, hl] at h
    | some lidar =>
      cases hN : s.Need_init with
      | true =>
        have hne : meas.imu ≠ [] := by
          intro h0
          simp [h0] at hlast
        rw [Process_calibrating SO3_exp s meas hb hN hne (by simp [hl])] at h
        cases hloop : init_loop s meas.imu with
        | none => simp [hloop] at h
        | some s2 =>
          simp only [hloop, Option.some.injEq, Prod.mk.injEq] at h
          obtain ⟨rfl, -⟩ := h
          have hf := init_loop_frame meas.imu s s2 hloop
          have hff := init_finish_frame s2
          refine ⟨⟨?_, ?_, ?_⟩, fun h' => by simp at h'⟩
          · rw [hff, hf]; exact hb
          · rw [hff, hf]; exact hin
          · rw [hff, hf]; exact hun
      | false =>
        rw [Process_active_eq SO3_exp s meas imu_back lidar ⟨hb, hin, hun⟩ hN hlast hl] at h
        cases hI : IntegrateGyr SO3_exp s meas.imu with
        | none => simp [hI] at h
        | some s2 =>
          simp only [hI] at h
          cases hU : UndistortPcl s2 meas BACKWARD with
          | none => simp [hU] at h
          | some r =>
            obtain ⟨s3, out⟩ := r
            simp only [hU, Option.some.injEq, Prod.mk.injEq] at h
            obtain ⟨rfl, -⟩ := h
            have hf2 := IntegrateGyr_frame SO3_exp meas.imu s s2 hI
            have hf3 := UndistortPcl_frame s2 s3 meas BACKWARD out hU
            refine ⟨⟨?_, rfl, rfl⟩, fun _ => ?_⟩
            · show s3.b_first_frame_ = false
              rw [hf3, hf2]; exact hb
            · show s3.Need_init = false
              rw [hf3, hf2]; exact hN

/-- Calls of `Process` that all have a result, from a started object whose
calibration is closed, leave a started object whose calibration is closed. -/
theorem Process_all_keeps_active (SO3_exp : Vector3d → Matrix3d) (gs : List (MeasureGroup ℝ))
    (s s1 : ImuProcess) (hS : Started s) (hN : s.Need_init = false)
    (h : Process_all SO3_exp s gs = some s1) :
    Started s1 ∧ s1.Need_init = false := by
  induction gs generalizing s with
  | nil =>
    simp only [Process_all, Option.some.injEq] at h
    subst h
    exact ⟨hS, hN⟩
  | cons m gs ih =>
    simp only [Process_all] at h
    cases hP : Process SO3_exp s m with
    | none => simp [hP] at h
    | some r =>
      obtain ⟨s2, pub⟩ := r
      simp only [hP] at h
      obtain ⟨hS2, hN2⟩ := Process_keeps_started SO3_exp s s2 m pub hS hP
      exact ih s2 hS2 (hN2 hN) h

/-- The active branch of `Process` on an anchored object whose calibration is
closed, for a ready group: the call has a result and publishes; the object stays
anchored with the calibration closed, the scan of the group is the new anchor,
and the orientation track has been APPENDED to, as `IntegrateGyr_spec` says. -/
theorem Process_active_spec (SO3_exp : Vector3d → Matrix3d) (s : ImuProcess)
    (meas : MeasureGroup ℝ) (hA : Anchored s) (hN : s.Need_init = false)
    (hR : ActiveReady meas) :
    ∃ s1 pub, Process SO3_exp s meas = some (s1, some pub) ∧
      Anchored s1 ∧ s1.Need_init = false ∧ s1.last_lidar_ = meas.lidar ∧
      (∃ tl, s1.v_rot_ = s.v_rot_ ++ tl ∧
        (s.v_rot_ ≠ [] → tl.length = meas.imu.length) ∧
        (s.v_rot_ = [] → tl.length = meas.imu.length + 1)) ∧
      (∃ tli, s1.v_imu_ = s.v_imu_ ++ tli) ∧
      (s.v_rot_ = [] → s1.v_rot_.head? = some 1 ∧
        ∃ inter last_lidar, s.last_lidar_ = some last_lidar ∧
          s1.v_imu_.head? = some inter ∧ inter.stamp = last_lidar.stamp) := by
  obtain ⟨himu, ht, lidar, hl, hpts⟩ := hR
  obtain ⟨imu_back, _, hlast, _⟩ := getLast_head_of_ne_nil meas.imu himu
  obtain ⟨s2, last_lidar, hI, hll, hf2, hlen2, ⟨tl, htl, htl1, htl2⟩, htli, hhead⟩ :=
    IntegrateGyr_spec SO3_exp meas.imu s hA ht
  obtain ⟨s3, out, hU, -⟩ := UndistortPcl_map (fun _ => ()) (fun _ _ => rfl) s2 meas BACKWARD
    lidar hl hpts himu
  have hf3 := UndistortPcl_frame s2 s3 meas BACKWARD out hU
  have hP := Process_active_eq SO3_exp s meas imu_back lidar hA.1 hN hlast hl
  simp only [hI, hU] at hP
  have hrot : s3.v_rot_ = s2.v_rot_ := by rw [hf3]
  have himu3 : s3.v_imu_ = s2.v_imu_ := by rw [hf3]
  have hb3 : s3.b_first_frame_ = false := by rw [hf3, hf2]; exact hA.1.1
  have hN3 : s3.Need_init = false := by rw [hf3, hf2]; exact hN
  have hpos : 0 < meas.imu.length := List.length_pos.mpr himu
  have hne : s3.v_rot_ ≠ [] := by
    rw [hrot, htl]
    intro h0
    have hl0 := congrArg List.length h0
    simp only [List.length_append, List.length_nil] at hl0
    by_cases hv : s.v_rot_ = []
    · have := htl2 hv himu
      omega
    · have := htl1 hv
      omega
  refine ⟨_, _, hP, ⟨⟨hb3, rfl, rfl⟩, by simp, by simp, ?_, fun h => absurd h hne⟩, hN3, hl.symm,
    ⟨tl, ?_, htl1, fun hv => htl2 hv himu⟩, ?_, ?_⟩
  · show s3.v_rot_.length = s3.v_imu_.length
    rw [hrot, himu3]; exact hlen2
  · show s3.v_rot_ = s.v_rot_ ++ tl
    rw [hrot]; exact htl
  · show ∃ tli, s3.v_imu_ = s.v_imu_ ++ tli
    rw [himu3]; exact htli
  · intro hv
    obtain ⟨h1, inter, h2, h3⟩ := hhead hv himu
    refine ⟨?_, inter, last_lidar, hll, ?_, h3⟩
    · show s3.v_rot_.head? = some 1
      rw [hrot]; exact h1
    · show s3.v_imu_.head? = some inter
      rw [himu3]; exact h2

/-- The calibration loop followed by `init_finish` keeps an anchored object
anchored and leaves the anchors and the orientation track as they are. -/
theorem calibration_keeps_anchored (xs : List (Imu ℝ)) (s s2 : ImuProcess) (hA : Anchored s)
    (h : init_loop s xs = some s2) :
    Anchored (init_finish s2) ∧ (init_finish s2).v_rot_ = s.v_rot_ ∧
      (init_finish s2).v_imu_ = s.v_imu_ ∧ (init_finish s2).last_lidar_ = s.last_lidar_ ∧
      (init_finish s2).v_rot_kp_ = s.v_rot_kp_ ∧ (init_finish s2).v_rot_pcl_ = s.v_rot_pcl_ := by
  have hf := init_loop_frame xs s s2 h
  have hff := init_finish_frame s2
  obtain ⟨⟨hb, hin, hun⟩, hll, hli, hlen, hpos⟩ := hA
  have e1 : (init_finish s2).v_rot_ = s.v_rot_ := by rw [hff, hf]
  have e2 : (init_finish s2).v_imu_ = s.v_imu_ := by rw [hff, hf]
  have e3 : (init_finish s2).last_lidar_ = s.last_lidar_ := by rw [hff, hf]
  have e4 : (init_finish s2).last_imu_ = s.last_imu_ := by rw [hff, hf]
  have e5 : (init_finish s2).b_first_frame_ = s.b_first_frame_ := by rw [hff, hf]
  have e6 : (init_finish s2).cur_pcl_in_ = s.cur_pcl_in_ := by rw [hff, hf]
  have e7 : (init_finish s2).cur_pcl_un_ = s.cur_pcl_un_ := by rw [hff, hf]
  have e8 : (init_finish s2).v_rot_kp_ = s.v_rot_kp_ := by rw [hff, hf]
  have e9 : (init_finish s2).v_rot_pcl_ = s.v_rot_pcl_ := by rw [hff, hf]
  refine ⟨⟨⟨e5.trans hb, e6.trans hin, e7.trans hun⟩, ?_, ?_, ?_, ?_⟩, e1, e2, e3, e8, e9⟩
  · rw [e3]; exact hll
  · rw [e4]; exact hli
  · rw [e1, e2]; exact hlen
  · rw [e1, e3]; exact hpos

/-- The first call of `Process` on an object (`b_first_frame_` set) leaves a
started object that awaits calibration: the counter is 1, the accumulator holds
the last sample of the group, the anchors are the scan and that sample, and the
orientation track and the key poses are empty. Nothing is published. -/
theorem Process_first_frame_spec (SO3_exp : Vector3d → Matrix3d) (s : ImuProcess)
    (meas : MeasureGroup ℝ) (imu_back : Imu ℝ) (lidar : PointCloud2 ℝ)
    (hb : s.b_first_frame_ = true)
    (hlast : meas.imu.getLast? = some imu_back) (hl : meas.lidar = some lidar) :
    ∃ s1, Process SO3_exp s meas = some (s1, none) ∧ Started s1 ∧
      s1.Need_init = true ∧ s1.init_iter_num = 1 ∧
      s1.scale_gravity = norm3 imu_back.linear_acceleration ∧
      s1.mean_acc = imu_back.linear_acceleration ∧
      s1.mean_gyr = imu_back.angular_velocity ∧
      s1.last_lidar_ = some lidar ∧ s1.last_imu_ = some imu_back ∧
      s1.v_rot_ = [] ∧ s1.v_imu_ = [] ∧ s1.v_rot_kp_.pose6D = [] :=
  ⟨_, Process_first_frame_eq SO3_exp s meas imu_back lidar hb hlast hl, ⟨rfl, rfl, rfl⟩,
    rfl, rfl, rfl, rfl, rfl, rfl, rfl, rfl, rfl, rfl⟩

/-- Calls of `Process` that all have a result, from a started object, leave a
started object. -/
theorem Process_all_keeps_started (SO3_exp : Vector3d → Matrix3d) (gs : List (MeasureGroup ℝ))
    (s s1 : ImuProcess) (hS : Started s) (h : Process_all SO3_exp s gs = some s1) :
    Started s1 := by
  induction gs generalizing s with
  | nil =>
    simp only [Process_all, Option.some.injEq] at h
    subst h
    exact hS
  | cons m gs ih =>
    simp only [Process_all] at h
    cases hP : Process SO3_exp s m with
    | none => simp [hP] at h
    | some r =>
      obtain ⟨s2, pub⟩ := r
      simp only [hP] at h
      exact ih s2 (Process_keeps_started SO3_exp s s2 m pub hS hP).1 h

/-- The samples of two runs of groups. -/
theorem folded_samples_append (xs ys : List (MeasureGroup ℝ)) :
    folded_samples (xs ++ ys) = folded_samples xs ++ folded_samples ys := by
  induction xs with
  | nil => rfl
  | cons m xs ih =>
    show m.imu ++ folded_samples (xs ++ ys) = m.imu ++ folded_samples xs ++ folded_samples ys
    rw [ih, List.append_assoc]

/-- One group `m` of a calibration run `pre ++ m :: post`, on an object awaiting
calibration with counter `n`, when the samples before the last group of the run
leave the counter at 50 or less: the groups before `m` are all folded and leave
the object awaiting calibration, with the counter advanced by their samples; the
call on `m` is one run of the calibration loop over the samples of `m` followed
by `init_finish`; it publishes nothing; and it closes the calibration exactly
when the counter has passed 50, which it has not when a group follows `m`. -/
theorem Process_calibrating_group (SO3_exp : Vector3d → Matrix3d)
    (pre post : List (MeasureGroup ℝ)) (m : MeasureGroup ℝ) (s : ImuProcess)
    (hb : s.b_first_frame_ = false) (hi : s.Need_init = true) (h1 : 1 ≤ s.init_iter_num)
    (hwf : ∀ x ∈ pre ++ m :: post, x.imu ≠ [] ∧ x.lidar ≠ none)
    (hfront : s.init_iter_num + (folded_samples (pre ++ m :: post).dropLast).length ≤ 50)
    (hbound : s.init_iter_num + (folded_samples (pre ++ m :: post)).length ≤ 46341) :
    ∃ sp sm, Process_all SO3_exp s pre = some sp ∧
      init_loop s (folded_samples pre) = some sp ∧
      sp.b_first_frame_ = false ∧ sp.Need_init = true ∧
      sp.init_iter_num = s.init_iter_num + (folded_samples pre).length ∧
      init_loop sp m.imu = some sm ∧
      sm.init_iter_num = sp.init_iter_num + m.imu.length ∧
      Process SO3_exp sp m = some (init_finish sm, none) ∧
      ((init_finish sm).Need_init = false ↔ 50 < sm.init_iter_num) ∧
      (post ≠ [] → (init_finish sm).Need_init = true) := by
  have hdrop : (pre ++ m :: post).dropLast = pre ++ (m :: post).dropLast :=
    List.dropLast_append_cons
  have hm := hwf m (by simp)
  have hmpos : 0 < m.imu.length := List.length_pos.mpr hm.1
  have hall : (folded_samples (pre ++ m :: post)).length =
      (folded_samples pre).length + (m.imu.length + (folded_samples post).length) := by
    simp [folded_samples_append, folded_samples]
  have hfr : (folded_samples (pre ++ m :: post).dropLast).length =
      (folded_samples pre).length + (folded_samples (m :: post).dropLast).length := by
    rw [hdrop, folded_samples_append, List.length_append]
  rw [hfr] at hfront
  rw [hall] at hbound
  push_cast at hfront hbound
  have hpre_drop : (folded_samples pre.dropLast).length ≤ (folded_samples pre).length := by
    rcases List.eq_nil_or_concat pre with hnil | ⟨l, b, hlb⟩
    · rw [hnil]; rfl
    · rw [hlb, List.concat_eq_append, List.dropLast_concat, folded_samples_append]
      simp
  obtain ⟨sp, hloop, hPall⟩ := Process_all_calibrating SO3_exp pre s hb hi h1
    (fun x hx => hwf x (by simp [hx])) (by omega) (by omega)
  obtain ⟨sp1, hloop1, hn, hbp, hip, -⟩ := init_loop_spec (folded_samples pre) s h1 (by omega)
  have hs : sp1 = sp := Option.some.inj (hloop1.symm.trans hloop)
  subst hs
  have hsp50 : sp1.init_iter_num ≤ 50 := by rw [hn]; omega
  rw [init_finish_below sp1 hsp50] at hPall
  obtain ⟨sm, hsm, hnm, -, him, -⟩ := init_loop_spec m.imu sp1 (by rw [hn]; omega)
    (by rw [hn]; omega)
  have hP := Process_calibrating SO3_exp sp1 m (hbp.trans hb) (hip.trans hi) hm.1 hm.2
  rw [hsm] at hP
  have hopen : sm.init_iter_num ≤ 50 → (init_finish sm).Need_init = true := by
    intro h50
    rw [init_finish_below sm h50, him, hip, hi]
  refine ⟨sp1, sm, hPall, hloop, hbp.trans hb, hip.trans hi, hn, hsm, hnm, hP, ⟨?_, ?_⟩, ?_⟩
  · intro hclosed
    by_contra h50
    rw [hopen (by omega)] at hclosed
    cases hclosed
  · intro h50
    exact (init_finish_above sm h50).1
  · intro hpost
    obtain ⟨r, rest, hr⟩ := List.exists_cons_of_ne_nil hpost
    have hd : (m :: post).dropLast = m :: post.dropLast := by rw [hr]; rfl
    rw [hd] at hfront
    simp only [folded_samples, List.length_append] at hfront
    push_cast at hfront
    exact hopen (by rw [hnm, hn]; omega)

/-- Ready groups handed, one after the other, to an anchored object whose
calibration is closed: every call has a result, the object stays anchored with
the calibration closed, and the orientation track only grows: what it held
stays in front, and each sample of each group adds one entry, after one entry
more (the identity, at a sample synthesized at the timestamp of the anchor scan
the run started from) if the track was empty. -/
theorem Process_all_active_spec (SO3_exp : Vector3d → Matrix3d) (act : List (MeasureGroup ℝ))
    (s : ImuProcess) (hA : Anchored s) (hN : s.Need_init = false)
    (hR : ∀ m ∈ act, ActiveReady m) :
    ∃ sf, Process_all SO3_exp s act = some sf ∧ Anchored sf ∧ sf.Need_init = false ∧
      (∃ tl, sf.v_rot_ = s.v_rot_ ++ tl ∧
        (s.v_rot_ ≠ [] → tl.length = (folded_samples act).length) ∧
        (s.v_rot_ = [] → act ≠ [] → tl.length = (folded_samples act).length + 1)) ∧
      (∃ tli, sf.v_imu_ = s.v_imu_ ++ tli) ∧
      (s.v_rot_ = [] → act ≠ [] → sf.v_rot_.head? = some 1 ∧
        ∃ inter last_lidar, s.last_lidar_ = some last_lidar ∧
          sf.v_imu_.head? = some inter ∧ inter.stamp = last_lidar.stamp) := by
  induction act generalizing s with
  | nil =>
    exact ⟨s, rfl, hA, hN, ⟨[], by simp, fun _ => rfl, fun _ h => absurd rfl h⟩, ⟨[], by simp⟩,
      fun _ h => absurd rfl h⟩
  | cons m rest ih =>
    have hm := hR m (by simp)
    have hmpos : 0 < m.imu.length := List.length_pos.mpr hm.1
    obtain ⟨s1, pub, hP, hA1, hN1, -, ⟨tl1, htl1, hl1a, hl1b⟩, ⟨tli1, htli1⟩, hhead1⟩ :=
      Process_active_spec SO3_exp s m hA hN hm
    have hne1 : s1.v_rot_ ≠ [] := by
      intro h0
      rw [htl1] at h0
      have hl0 := congrArg List.length h0
      simp only [List.length_append, List.length_nil] at hl0
      by_cases hv : s.v_rot_ = []
      · have := hl1b hv
        omega
      · have := hl1a hv
        omega
    obtain ⟨sf, hPall, hAf, hNf, ⟨tl2, htl2, hl2a, -⟩, ⟨tli2, htli2⟩, -⟩ :=
      ih s1 hA1 hN1 (fun x hx => hR x (by simp [hx]))
    refine ⟨sf, ?_, hAf, hNf, ⟨tl1 ++ tl2, ?_, ?_, ?_⟩, ⟨tli1 ++ tli2, ?_⟩, ?_⟩
    · simp only [Process_all, hP]
      exact hPall
    · rw [htl2, htl1, List.append_assoc]
    · intro hv
      simp only [folded_samples, List.length_append]
      rw [hl1a hv, hl2a hne1]
    · intro hv _
      simp only [folded_samples, List.length_append]
      rw [hl1b hv, hl2a hne1]
      omega
    · rw [htli2, htli1, List.append_assoc]
    · intro hv _
      obtain ⟨h1, inter, last_lidar, hll, h2, h3⟩ := hhead1 hv
      have hnei : s1.v_imu_ ≠ [] := by
        intro h0
        rw [h0] at h2
        cases h2
      refine ⟨?_, inter, last_lidar, hll, ?_, h3⟩
      · rw [htl2, List.head?_append_of_ne_nil _ hne1]
        exact h1
      · rw [htli2, List.head?_append_of_ne_nil _ hnei]
        exact h2

/-- The whole pipeline on a seeding group, calibration groups and ready active
groups, from an object with `b_first_frame_` set, when the seeding scan has a
positive timestamp: after the calibration the object is anchored at the SEEDING
scan with an empty orientation track and the calibration closed, and the active
groups are then processed as `Process_all_active_spec` says. -/
theorem pipeline_after_calibration (SO3_exp : Vector3d → Matrix3d) (s0 : ImuProcess)
    (first : MeasureGroup ℝ) (cal : List (MeasureGroup ℝ)) (lidar : PointCloud2 ℝ)
    (hfresh : s0.b_first_frame_ = true)
    (hfirst : first.imu ≠ []) (hl : first.lidar = some lidar) (hpos : 0 < lidar.stamp)
    (hcal : ∀ m ∈ cal, m.imu ≠ [] ∧ m.lidar ≠ none)
    (hfront : (folded_samples cal.dropLast).length < 50)
    (hreach : 50 ≤ (folded_samples cal).length)
    (hbound : (folded_samples cal).length ≤ 46340) :
    ∃ sc, Process_all SO3_exp s0 (first :: cal) = some sc ∧ Anchored sc ∧
      sc.Need_init = false ∧ sc.v_rot_ = [] ∧ sc.v_imu_ = [] ∧
      sc.last_lidar_ = some lidar := by
  obtain ⟨imu_back, _, hlast, _⟩ := getLast_head_of_ne_nil first.imu hfirst
  obtain ⟨s1, hP1, hS1, hi1, hn1, -, -, -, hll1, hli1, hr1, hv1, -⟩ :=
    Process_first_frame_spec SO3_exp s0 first imu_back lidar hfresh hlast hl
  have hA1 : Anchored s1 :=
    ⟨hS1, by rw [hll1]; simp, by rw [hli1]; simp, by rw [hr1, hv1]; rfl,
      fun _ => ⟨lidar, hll1, hpos⟩⟩
  obtain ⟨s2, hloop, hPall⟩ := Process_all_calibrating SO3_exp cal s1 hS1.1 hi1 (by rw [hn1])
    hcal (by rw [hn1]; omega) (by rw [hn1]; omega)
  obtain ⟨s3, hloop3, hn3, -⟩ :=
    init_loop_spec (folded_samples cal) s1 (by rw [hn1]) (by rw [hn1]; omega)
  have hs : s3 = s2 := Option.some.inj (hloop3.symm.trans hloop)
  subst hs
  obtain ⟨hAc, e1, e2, e3, -, -⟩ := calibration_keeps_anchored (folded_samples cal) s1 s3 hA1 hloop
  refine ⟨init_finish s3, ?_, hAc, (init_finish_above s3 (by rw [hn3, hn1]; omega)).1,
    e1.trans hr1, e2.trans hv1, e3.trans hll1⟩
  simp only [Process_all, hP1]
  exact hPall

/-- C13: the pipeline state machine. From an object with `b_first_frame_` set (a
fresh or a reset object), for a first group, groups `cal` whose samples before
the last group are fewer than 50, and groups `act`, all with non-empty inertial
sequences and non-null scans (and at most 46340 samples in `cal`, so that
`N * N` fits an `int`):
(1) the call on the first group only seeds: counter 1, accumulator at the last
sample of the group, nothing published, no track and no key pose;
(2) for every group `m` of `cal`, the calls before it all have a result and
leave the object awaiting calibration with the counter at one plus the samples
folded; the call on `m` is the calibration loop over all the samples of `m`
followed by `init_finish`, publishes nothing, builds no track and no key pose,
and closes the calibration exactly when 50 samples or more have been folded by
the end of `m`, which is not so when a group of `cal` follows `m`;
(3) if `cal` holds 50 samples or more, the calls on the first group and `cal`
leave the calibration closed, and for every group `m` of `act`, when the calls
before it have a result, the call on `m` is `IntegrateGyr` on its samples
followed by `UndistortPcl` in BACKWARD mode, publishing the undistorted cloud
and the key poses; it has a result exactly when both methods have one;
(4) if moreover the first scan has a positive timestamp and the groups of `act`
have non-empty scans and non-negative sample timestamps, every call on a group
of `act` has a result and publishes. -/
theorem C13_pipeline_state_machine (SO3_exp : Vector3d → Matrix3d) (s0 : ImuProcess)
    (first : MeasureGroup ℝ) (cal act : List (MeasureGroup ℝ))
    (hfresh : s0.b_first_frame_ = true)
    (hfirst : first.imu ≠ [] ∧ first.lidar ≠ none)
    (hcal : ∀ m ∈ cal, m.imu ≠ [] ∧ m.lidar ≠ none)
    (hact : ∀ m ∈ act, m.imu ≠ [] ∧ m.lidar ≠ none)
    (hfront : (folded_samples cal.dropLast).length < 50)
    (hbound : (folded_samples cal).length ≤ 46340) :
    (∃ s1 imu_back, first.imu.getLast? = some imu_back ∧
      Process SO3_exp s0 first = some (s1, none) ∧
      s1.b_first_frame_ = false ∧ s1.Need_init = true ∧ s1.init_iter_num = 1 ∧
      s1.scale_gravity = norm3 imu_back.linear_acceleration ∧
      s1.mean_acc = imu_back.linear_acceleration ∧
      s1.mean_gyr = imu_back.angular_velocity ∧
      s1.v_rot_ = [] ∧ s1.v_rot_kp_.pose6D = []) ∧
    (∀ pre m post, cal = pre ++ m :: post →
      ∃ sp sm, Process_all SO3_exp s0 (first :: pre) = some sp ∧
        sp.b_first_frame_ = false ∧ sp.Need_init = true ∧
        sp.init_iter_num = 1 + (folded_samples pre).length ∧
        init_loop sp m.imu = some sm ∧
        sm.init_iter_num = 1 + (folded_samples (pre ++ [m])).length ∧
        Process SO3_exp sp m = some (init_finish sm, none) ∧
        ((init_finish sm).Need_init = false ↔ 50 ≤ (folded_samples (pre ++ [m])).length) ∧
        (post ≠ [] → (init_finish sm).Need_init = true) ∧
        (init_finish sm).v_rot_ = [] ∧ (init_finish sm).v_rot_kp_.pose6D = []) ∧
    (50 ≤ (folded_samples cal).length →
      (∃ sc, Process_all SO3_exp s0 (first :: cal) = some sc ∧
        sc.b_first_frame_ = false ∧ sc.Need_init = false) ∧
      ∀ pre m post, act = pre ++ m :: post →
        ∀ sa, Process_all SO3_exp s0 (first :: (cal ++ pre)) = some sa →
          sa.b_first_frame_ = false ∧ sa.Need_init = false ∧
          ∃ imu_back lidar, m.imu.getLast? = some imu_back ∧ m.lidar = some lidar ∧
            Process SO3_exp sa m =
              match IntegrateGyr SO3_exp sa m.imu with
              | none => none
              | some s1 =>
                match UndistortPcl s1 m BACKWARD with
                | none => none
                | some (s2, cur_pcl_un) =>
                  some ({ s2 with last_lidar_ := some lidar, last_imu_ := some imu_back,
                                  cur_pcl_in_ := some [], cur_pcl_un_ := some [] },
                        some { livox_first_point := [], livox_undistort := cur_pcl_un,
                               livox_distort := [], KeyPointPose6D := s2.v_rot_kp_ })) ∧
    (50 ≤ (folded_samples cal).length →
      (∃ lidar, first.lidar = some lidar ∧ 0 < lidar.stamp) →
      (∀ m ∈ act, ActiveReady m) →
      ∀ pre m post, act = pre ++ m :: post →
        ∃ sa s1 pub, Process_all SO3_exp s0 (first :: (cal ++ pre)) = some sa ∧
          Process SO3_exp sa m = some (s1, some pub)) := by
  obtain ⟨imu_back, _, hlast, _⟩ := getLast_head_of_ne_nil first.imu hfirst.1
  obtain ⟨lidar, hlidar⟩ := Option.ne_none_iff_exists'.mp hfirst.2
  obtain ⟨s1, hP1, hS1, hi1, hn1, hg1, ha1, hw1, hll1, hli1, hr1, hv1, hk1⟩ :=
    Process_first_frame_spec SO3_exp s0 first imu_back lidar hfresh hlast hlidar
  refine ⟨⟨s1, imu_back, hlast, hP1, hS1.1, hi1, hn1, hg1, ha1, hw1, hr1, hk1⟩, ?_, ?_, ?_⟩
  · intro pre m post hsplit
    subst hsplit
    obtain ⟨sp, sm, hPall, hloop, hbp, hip, hn, hsm, hnm, hP, hiff, hopen⟩ :=
      Process_calibrating_group SO3_exp pre post m s1 hS1.1 hi1 (by rw [hn1]) hcal
        (by rw [hn1]; omega) (by rw [hn1]; omega)
    have hcount : (folded_samples (pre ++ [m])).length =
        (folded_samples pre).length + m.imu.length := by
      simp [folded_samples_append, folded_samples]
    have hfp := init_loop_frame _ s1 sp hloop
    have hfm := init_loop_frame _ sp sm hsm
    have hff := init_finish_frame sm
    refine ⟨sp, sm, ?_, hbp, hip, by rw [hn, hn1], hsm, ?_, hP, ?_, hopen, ?_, ?_⟩
    · simp only [Process_all, hP1]
      exact hPall
    · rw [hnm, hn, hn1, hcount]
      push_cast
      ring
    · rw [hiff, hnm, hn, hn1, hcount]
      omega
    · rw [hff, hfm, hfp]
      exact hr1
    · rw [hff, hfm, hfp]
      exact hk1
  · intro hreach
    obtain ⟨s2, hloop, hPall⟩ := Process_all_calibrating SO3_exp cal s1 hS1.1 hi1 (by rw [hn1])
      hcal (by rw [hn1]; omega) (by rw [hn1]; omega)
    obtain ⟨s3, hloop3, hn3, -⟩ :=
      init_loop_spec (folded_samples cal) s1 (by rw [hn1]) (by rw [hn1]; omega)
    have hs : s3 = s2 := Option.some.inj (hloop3.symm.trans hloop)
    subst hs
    have hNc : (init_finish s3).Need_init = false :=
      (init_finish_above s3 (by rw [hn3, hn1]; omega)).1
    have hSc : Started (init_finish s3) :=
      Process_all_keeps_started SO3_exp cal s1 _ hS1 hPall
    have hPc : Process_all SO3_exp s0 (first :: cal) = some (init_finish s3) := by
      simp only [Process_all, hP1]
      exact hPall
    refine ⟨⟨_, hPc, hSc.1, hNc⟩, ?_⟩
    intro pre m post hsplit sa hsa
    have hm := hact m (by rw [hsplit]; simp)
    obtain ⟨m_back, _, hmlast, _⟩ := getLast_head_of_ne_nil m.imu hm.1
    obtain ⟨m_lidar, hmlidar⟩ := Option.ne_none_iff_exists'.mp hm.2
    have hcons : first :: (cal ++ pre) = (first :: cal) ++ pre := rfl
    rw [hcons, Process_all_append, hPc] at hsa
    obtain ⟨hSa, hNa⟩ := Process_all_keeps_active SO3_exp pre _ sa hSc hNc hsa
    exact ⟨hSa.1, hNa, m_back, m_lidar, hmlast, hmlidar,
      Process_active_eq SO3_exp sa m m_back m_lidar hSa hNa hmlast hmlidar⟩
  · intro hreach hposf hready pre m post hsplit
    obtain ⟨lidar1, hl1, hpos⟩ := hposf
    obtain ⟨sc, hPc, hAc, hNc, -⟩ := pipeline_after_calibration SO3_exp s0 first cal lidar1
      hfresh hfirst.1 hl1 hpos hcal hfront hreach hbound
    obtain ⟨sa, hPa, hAa, hNa, -⟩ := Process_all_active_spec SO3_exp pre sc hAc hNc
      (fun x hx => hready x (by rw [hsplit]; simp [hx]))
    obtain ⟨s2, pub, hP, -⟩ := Process_active_spec SO3_exp sa m hAa hNa
      (hready m (by rw [hsplit]; simp))
    refine ⟨sa, s2, pub, ?_, hP⟩
    have hcons : first :: (cal ++ pre) = (first :: cal) ++ pre := rfl
    rw [hcons, Process_all_append, hPc]
    exact hPa

/-- Witness for C13: a fresh object, a seeding group with its scan at `t = 1`,
two calibration groups of 25 samples each, then two active groups with scans at
`t = 3` and `t = 4`. The calibration groups hold 50 samples, the first scan has
a positive timestamp and the active groups are ready, so all four parts of the
theorem say something on this run. -/
theorem C13_pipeline_state_machine_witness :
    50 ≤ (folded_samples [stationary_group, stationary_group]).length ∧
    (∃ lidar, first_scan_group.lidar = some lidar ∧ 0 < lidar.stamp) ∧
    (∀ m ∈ [active_group 3, active_group 4], ActiveReady m) ∧
    ((∃ s1 imu_back, first_scan_group.imu.getLast? = some imu_back ∧
      Process (fun _ => 1) (ImuProcess.ctor 0 0) first_scan_group = some (s1, none) ∧
      s1.b_first_frame_ = false ∧ s1.Need_init = true ∧ s1.init_iter_num = 1 ∧
      s1.scale_gravity = norm3 imu_back.linear_acceleration ∧
      s1.mean_acc = imu_back.linear_acceleration ∧
      s1.mean_gyr = imu_back.angular_velocity ∧
      s1.v_rot_ = [] ∧ s1.v_rot_kp_.pose6D = []) ∧
    (∀ pre m post, [stationary_group, stationary_group] = pre ++ m :: post →
      ∃ sp sm, Process_all (fun _ => 1) (ImuProcess.ctor 0 0) (first_scan_group :: pre) =
          some sp ∧
        sp.b_first_frame_ = false ∧ sp.Need_init = true ∧
        sp.init_iter_num = 1 + (folded_samples pre).length ∧
        init_loop sp m.imu = some sm ∧
        sm.init_iter_num = 1 + (folded_samples (pre ++ [m])).length ∧
        Process (fun _ => 1) sp m = some (init_finish sm, none) ∧
        ((init_finish sm).Need_init = false ↔ 50 ≤ (folded_samples (pre ++ [m])).length) ∧
        (post ≠ [] → (init_finish sm).Need_init = true) ∧
        (init_finish sm).v_rot_ = [] ∧ (init_finish sm).v_rot_kp_.pose6D = []) ∧
    (50 ≤ (folded_samples [stationary_group, stationary_group]).length →
      (∃ sc, Process_all (fun _ => 1) (ImuProcess.ctor 0 0)
          (first_scan_group :: [stationary_group, stationary_group]) = some sc ∧
        sc.b_first_frame_ = false ∧ sc.Need_init = false) ∧
      ∀ pre m post, [active_group 3, active_group 4] = pre ++ m :: post →
        ∀ sa, Process_all (fun _ => 1) (ImuProcess.ctor 0 0)
            (first_scan_group :: ([stationary_group, stationary_group] ++ pre)) = some sa →
          sa.b_first_frame_ = false ∧ sa.Need_init = false ∧
          ∃ imu_back lidar, m.imu.getLast? = some imu_back ∧ m.lidar = some lidar ∧
            Process (fun _ => 1) sa m =
              match IntegrateGyr (fun _ => 1) sa m.imu with
              | none => none
              | some s1 =>
                match UndistortPcl s1 m BACKWARD with
                | none => none
                | some (s2, cur_pcl_un) =>
                  some ({ s2 with last_lidar_ := some lidar, last_imu_ := some imu_back,
                                  cur_pcl_in_ := some [], cur_pcl_un_ := some [] },
                        some { livox_first_point := [], livox_undistort := cur_pcl_un,
                               livox_distort := [], KeyPointPose6D := s2.v_rot_kp_ })) ∧
    (50 ≤ (folded_samples [stationary_group, stationary_group]).length →
      (∃ lidar, first_scan_group.lidar = some lidar ∧ 0 < lidar.stamp) →
      (∀ m ∈ [active_group 3, active_group 4], ActiveReady m) →
      ∀ pre m post, [active_group 3, active_group 4] = pre ++ m :: post →
        ∃ sa s1 pub, Process_all (fun _ => 1) (ImuProcess.ctor 0 0)
            (first_scan_group :: ([stationary_group, stationary_group] ++ pre)) = some sa ∧
          Process (fun _ => 1) sa m = some (s1, some pub))) :=
  ⟨by simp [folded_samples, stationary_group],
    ⟨_, rfl, by norm_num⟩,
    by
      intro m hm
      simp only [List.mem_cons, List.mem_singleton, List.not_mem_nil, or_false] at hm
      rcases hm with rfl | rfl <;>
        exact ⟨by simp [active_group], by
          intro imu himu
          simp only [active_group, List.mem_cons, List.mem_singleton, List.not_mem_nil,
            or_false] at himu
          rcases himu with rfl | rfl <;> norm_num [imuAt], _, rfl, by simp⟩,
    C13_pipeline_state_machine (fun _ => 1) (ImuProcess.ctor 0 0) first_scan_group
      [stationary_group, stationary_group] [active_group 3, active_group 4] rfl
      (by simp [first_scan_group]) (by simp [stationary_group]) (by simp [active_group])
      (by simp [folded_samples, stationary_group])
      (by simp [folded_samples, stationary_group])⟩

/-! ## The orientation track across scans -/

/-- The group `active_group t` is ready for the active branch when `t` is not
negative. -/
theorem active_group_ready (t : ℝ) (ht : 0 ≤ t) : ActiveReady (active_group t) := by
  refine ⟨by simp [active_group], ?_, _, rfl, by simp⟩
  intro imu himu
  simp only [active_group, List.mem_cons, List.mem_singleton, List.not_mem_nil,
    or_false] at himu
  rcases himu with rfl | rfl
  · exact ht
  · show 0 ≤ t + 0.1
    linarith

/-- C20 (the code at the failing input): a fresh object, a seeding group with
its scan at `t = 1`, a calibration group of 50 samples with its scan at `t = 2`,
then two active groups of two samples each, with scans at `t = 3` and `t = 4`.
All calls have a result. After the first active group the track holds 3 entries
(`k + 1` for `k = 2`), the first at a sample stamped 1, the timestamp of the
SEEDING scan (the calibration branch does not move `last_lidar_`). After the
second active group the track holds 5 entries, not `k + 1 = 3`: the 3 entries of
the first active group are still in front, the 2 samples of the second group were
appended, and the first entry is still the one stamped 1, not a boundary sample
at the previous scan's timestamp 3. -/
theorem C20_track_not_rebuilt_per_scan :
    ∃ sc sA pubA sB pubB,
      Process_all (fun _ => 1) (ImuProcess.ctor 0 0) [first_scan_group, calibration_group] =
        some sc ∧
      sc.Need_init = false ∧ sc.v_rot_ = [] ∧ sc.v_imu_ = [] ∧
      Process (fun _ => 1) sc (active_group 3) = some (sA, some pubA) ∧
      Process (fun _ => 1) sA (active_group 4) = some (sB, some pubB) ∧
      (active_group 3).imu.length = 2 ∧ (active_group 4).imu.length = 2 ∧
      sA.v_rot_.length = 3 ∧ sA.v_imu_.length = 3 ∧
      sB.v_rot_.length = 5 ∧ sB.v_imu_.length = 5 ∧
      sB.v_rot_.length ≠ (active_group 4).imu.length + 1 ∧
      (∃ tl, sB.v_rot_ = sA.v_rot_ ++ tl) ∧ (∃ tli, sB.v_imu_ = sA.v_imu_ ++ tli) ∧
      sA.v_imu_.head?.map (fun imu => imu.stamp) = some 1 ∧
      sB.v_imu_.head?.map (fun imu => imu.stamp) = some 1 ∧
      sA.last_lidar_.map (fun lidar => lidar.stamp) = some 3 := by
  obtain ⟨sc, hPc, hAc, hNc, hrc, hvc, hllc⟩ := pipeline_after_calibration (fun _ => 1)
    (ImuProcess.ctor 0 0) first_scan_group [calibration_group] { stamp := 1, points := [] } rfl
    (by simp [first_scan_group]) rfl (by norm_num) (by simp [calibration_group])
    (by simp [folded_samples]) (by simp [folded_samples, calibration_group])
    (by simp [folded_samples, calibration_group])
  obtain ⟨sA, pubA, hPA, hAA, hNA, hllA, ⟨tlA, htlA, -, hlenA⟩, -, hheadA⟩ :=
    Process_active_spec (fun _ => 1) sc (active_group 3) hAc hNc
      (active_group_ready 3 (by norm_num))
  obtain ⟨sB, pubB, hPB, hAB, -, -, ⟨tlB, htlB, hlenB, -⟩, ⟨tliB, htliB⟩, -⟩ :=
    Process_active_spec (fun _ => 1) sA (active_group 4) hAA hNA
      (active_group_ready 4 (by norm_num))
  have hk3 : (active_group 3).imu.length = 2 := rfl
  have hk4 : (active_group 4).imu.length = 2 := rfl
  have hA3 : sA.v_rot_.length = 3 := by
    rw [htlA, hrc, List.nil_append, hlenA hrc, hk3]
  have hneA : sA.v_rot_ ≠ [] := by
    intro h0
    rw [h0] at hA3
    cases hA3
  have hB5 : sB.v_rot_.length = 5 := by
    rw [htlB, List.length_append, hA3, hlenB hneA, hk4]
  obtain ⟨-, inter, last_lidar, hll, hhead, hstamp⟩ := hheadA hrc
  have hone : inter.stamp = 1 := by
    rw [hllc] at hll
    cases hll
    exact hstamp
  have hneiA : sA.v_imu_ ≠ [] := by
    intro h0
    rw [h0] at hhead
    cases hhead
  refine ⟨sc, sA, pubA, sB, pubB, hPc, hNc, hrc, hvc, hPA, hPB, hk3, hk4, hA3, ?_, hB5, ?_, ?_,
    ⟨tlB, htlB⟩, ⟨tliB, htliB⟩, ?_, ?_, ?_⟩
  · rw [← hAA.2.2.2.1]
    exact hA3
  · rw [← hAB.2.2.2.1]
    exact hB5
  · rw [hB5, hk4]
    norm_num
  · rw [hhead, Option.map_some', hone]
  · rw [htliB, List.head?_append_of_ne_nil _ hneiA, hhead, Option.map_some', hone]
  · rw [hllA]
    rfl


/-! ## The order of the inertial buffer -/

/-- In a list in non-decreasing order of a key `f` no key is greater than the
key of the last element. -/
theorem le_getLast_of_pairwise {α T : Type} [Preorder T] (f : α → T) (l : List α)
    (h : l.Pairwise (fun a b => f a ≤ f b)) (last : α)
    (hb : l.getLast? = some last) : ∀ a ∈ l, f a ≤ f last := by
  induction l with
  | nil => simp
  | cons x l ih =>
    rw [List.pairwise_cons] at h
    cases l with
    | nil =>
      simp only [List.getLast?_singleton, Option.some.injEq] at hb
      subst hb
      simp
    | cons y l =>
      have hb1 : (y :: l).getLast? = some last := by
        rw [← hb, List.getLast?_cons_cons]
      have hmem : last ∈ y :: l := List.mem_of_getLast?_eq_some hb1
      intro a ha
      rcases List.mem_cons.mp ha with rfl | ha
      · exact h.1 last hmem
      · exact ih h.2 hb1 a ha

/-- What is left of a list after dropping from the front, when something is
left, ends where the list ended. -/
theorem getLast_drop {α : Type} (n : Nat) (l : List α) (b : α)
    (h : (l.drop n).getLast? = some b) : l.getLast? = some b := by
  have hne : l.drop n ≠ [] := by
    intro h0
    rw [h0] at h
    cases h
  have hsplit : l = l.take n ++ l.drop n := (List.take_append_drop n l).symm
  rw [hsplit, List.getLast?_append_of_ne_nil _ hne]
  exact h

/-- Whatever it answers, `SyncMeasure` leaves `last_timestamp_imu` as it was and
leaves in the inertial buffer what a number of `pop_front()` leave. -/
theorem SyncMeasure_imu_buffer {T : Type} [LinearOrderedField T]
    (measgroup : MeasureGroup T) (g : Globals T) (ready : Bool) (meas : MeasureGroup T)
    (g1 : Globals T) (h : SyncMeasure measgroup g = some (ready, meas, g1)) :
    g1.last_timestamp_imu = g.last_timestamp_imu ∧
      ∃ n, g1.imu_buffer = g.imu_buffer.drop n := by
  cases ready with
  | true =>
    obtain ⟨lidar, lidar_rest, end_time, -, -, -, rfl⟩ := SyncMeasure_ready_inv measgroup g meas g1 h
    exact ⟨rfl, _, pop_front_n_eq_drop _ _⟩
  | false =>
    have hg : g1 = g := by
      unfold SyncMeasure at h
      split at h
      · simp only [Option.some.injEq, Prod.mk.injEq] at h
        exact h.2.2.symm
      · simp only [Option.some.injEq, Prod.mk.injEq] at h
        exact h.2.2.symm
      · split_ifs at h
        · simp only [Option.some.injEq, Prod.mk.injEq] at h
          exact h.2.2.symm
        · split at h
          · simp at h
          · simp only at h
            split at h
            · simp at h
            · simp at h
    subst hg
    exact ⟨rfl, 0, rfl⟩

/-- The order of the inertial buffer is kept by every call: if the timestamps in
`imu_buffer` are in non-decreasing order and the newest, if any, is
`last_timestamp_imu`, the same holds after `imu_cbk`, after `pointcloud_cbk` and
after `SyncMeasure`. -/
theorem ingress_call_keeps_order {T : Type} [LinearOrderedField T] (g g1 : Globals T)
    (call : IngressCall T)
    (hs : g.imu_buffer.Pairwise (fun a b => a.stamp ≤ b.stamp))
    (hb : ∀ imu_back, g.imu_buffer.getLast? = some imu_back →
      imu_back.stamp = g.last_timestamp_imu)
    (h : ingress_call g call = some g1) :
    g1.imu_buffer.Pairwise (fun a b => a.stamp ≤ b.stamp) ∧
      ∀ imu_back, g1.imu_buffer.getLast? = some imu_back →
        imu_back.stamp = g1.last_timestamp_imu := by
  cases call with
  | imu msg_in =>
    simp only [ingress_call, Option.some.injEq] at h
    subst h
    by_cases hloop : msg_in.stamp < g.last_timestamp_imu
    · simp [imu_cbk, hloop]
    · simp only [imu_cbk, hloop, decide_False, Bool.false_eq_true, if_false]
      refine ⟨?_, fun x h' => ?_⟩
      swap
      · rw [List.getLast?_append_of_ne_nil _ (by simp), List.getLast?_singleton] at h'
        cases h'
        rfl
      rw [List.pairwise_append]
      refine ⟨hs, List.pairwise_singleton _ _, ?_⟩
      intro a ha b hbm
      rw [List.mem_singleton] at hbm
      subst hbm
      obtain ⟨imu_back, _, hlast, _⟩ := getLast_head_of_ne_nil g.imu_buffer
        (List.ne_nil_of_mem ha)
      calc a.stamp ≤ imu_back.stamp :=
            le_getLast_of_pairwise (fun i => i.stamp) g.imu_buffer hs imu_back hlast a ha
        _ = g.last_timestamp_imu := hb imu_back hlast
        _ ≤ b.stamp := not_lt.mp hloop
  | pointcloud msg =>
    simp only [ingress_call, Option.some.injEq] at h
    subst h
    exact ⟨hs, hb⟩
  | sync measgroup =>
    simp only [ingress_call, Option.map_eq_some'] at h
    obtain ⟨⟨ready, meas, g2⟩, hS, rfl⟩ := h
    obtain ⟨hl, n, hn⟩ := SyncMeasure_imu_buffer measgroup g ready meas g2 hS
    simp only
    rw [hn, hl]
    exact ⟨hs.sublist (List.drop_sublist n _), fun b h' => hb b (getLast_drop n _ b h')⟩

/-- The order of the inertial buffer holds in every state the calls reach from a
state in which it holds. -/
theorem ingress_calls_keep_order {T : Type} [LinearOrderedField T]
    (calls : List (IngressCall T)) (g g1 : Globals T)
    (hs : g.imu_buffer.Pairwise (fun a b => a.stamp ≤ b.stamp))
    (hb : ∀ imu_back, g.imu_buffer.getLast? = some imu_back →
      imu_back.stamp = g.last_timestamp_imu)
    (h : ingress_calls g calls = some g1) :
    g1.imu_buffer.Pairwise (fun a b => a.stamp ≤ b.stamp) ∧
      ∀ imu_back, g1.imu_buffer.getLast? = some imu_back →
        imu_back.stamp = g1.last_timestamp_imu := by
  induction calls generalizing g with
  | nil =>
    simp only [ingress_calls, Option.some.injEq] at h
    subst h
    exact ⟨hs, hb⟩
  | cons call rest ih =>
    simp only [ingress_calls] at h
    cases hc : ingress_call g call with
    | none => simp [hc] at h
    | some g2 =>
      simp only [hc] at h
      obtain ⟨hs2, hb2⟩ := ingress_call_keeps_order g g2 call hs hb hc
      exact ih g2 hs2 hb2 h

/-- C24: in every state reached from the initial file-level variables (empty
buffers) by calls of `imu_cbk`, `pointcloud_cbk` and `SyncMeasure`, in any
number and order, the timestamps in `imu_buffer` are in non-decreasing order
from front to back, the newest of them, when there is one, is
`last_timestamp_imu`, and whenever `SyncMeasure` answers ready from that state,
the samples it pops from the front of the buffer are exactly the samples it
copied into the group: the buffer was the group's samples followed by what is
left. -/
theorem C24_imu_buffer_order_invariant {T : Type} [LinearOrderedField T]
    (calls : List (IngressCall T)) (g : Globals T)
    (hreach : ingress_calls Globals.init calls = some g) :
    g.imu_buffer.Pairwise (fun a b => a.stamp ≤ b.stamp) ∧
    (∀ imu_back, g.imu_buffer.getLast? = some imu_back →
      imu_back.stamp = g.last_timestamp_imu) ∧
    (∀ measgroup meas g1, SyncMeasure measgroup g = some (true, meas, g1) →
      g.imu_buffer.take meas.imu.length = meas.imu ∧
      g1.imu_buffer = g.imu_buffer.drop meas.imu.length ∧
      g.imu_buffer = meas.imu ++ g1.imu_buffer) := by
  obtain ⟨hs, hb⟩ := ingress_calls_keep_order calls Globals.init g
    (by simp [Globals.init]) (by simp [Globals.init]) hreach
  refine ⟨hs, hb, ?_⟩
  intro measgroup meas g1 hready
  obtain ⟨lidar, lidar_rest, end_time, -, -, rfl, rfl⟩ :=
    SyncMeasure_ready_inv measgroup g meas g1 hready
  have hc := (collect_imu_sorted end_time g.imu_buffer hs).1
  simp only
  refine ⟨?_, pop_front_n_eq_drop _ _, hc.symm⟩
  have ht : (collect_imu end_time g.imu_buffer ++
      pop_front_n (collect_imu end_time g.imu_buffer).length g.imu_buffer).take
        (collect_imu end_time g.imu_buffer).length = collect_imu end_time g.imu_buffer :=
    List.take_left' rfl
  rw [hc] at ht
  exact ht

/-- Witness for C24: the state after `ingress_run`, which has a loop-back and a
ready `SyncMeasure` on the way; from that state `SyncMeasure` is ready again and
pops the samples at `t = 9`, `9.5` and `10`, the ones of the group. -/
theorem C24_imu_buffer_order_invariant_witness :
    ingress_calls Globals.init ingress_run = some buffers_after_run ∧
    SyncMeasure { lidar := none, imu := [] } buffers_after_run =
      some (true, { lidar := some scan_9_to_10, imu := [imuAt 9, imuAt 9.5, imuAt 10] },
        { buffers_after_run with lidar_buffer := [], imu_buffer := [imuAt 10.5] }) ∧
    (buffers_after_run.imu_buffer.Pairwise (fun a b => a.stamp ≤ b.stamp) ∧
    (∀ imu_back, buffers_after_run.imu_buffer.getLast? = some imu_back →
      imu_back.stamp = buffers_after_run.last_timestamp_imu) ∧
    (∀ measgroup meas g1, SyncMeasure measgroup buffers_after_run = some (true, meas, g1) →
      buffers_after_run.imu_buffer.take meas.imu.length = meas.imu ∧
      g1.imu_buffer = buffers_after_run.imu_buffer.drop meas.imu.length ∧
      buffers_after_run.imu_buffer = meas.imu ++ g1.imu_buffer)) := by
  have hrun : ingress_calls Globals.init ingress_run = some buffers_after_run := by
    norm_num [ingress_calls, ingress_call, ingress_run, buffers_after_run, Globals.init, imu_cbk,
      pointcloud_cbk, SyncMeasure, lidar_end_time, collect_imu, pop_front_n, scan_9_to_10, imuAt,
      pointAt, List.filter]
  have hready : SyncMeasure { lidar := none, imu := [] } buffers_after_run =
      some (true, { lidar := some scan_9_to_10, imu := [imuAt 9, imuAt 9.5, imuAt 10] },
        { buffers_after_run with lidar_buffer := [], imu_buffer := [imuAt 10.5] }) := by
    norm_num [SyncMeasure, buffers_after_run, scan_9_to_10, lidar_end_time, collect_imu,
      pop_front_n, imuAt, pointAt, List.filter]
  exact ⟨hrun, hready, C24_imu_buffer_order_invariant ingress_run buffers_after_run hrun⟩

/-! ## The point the walk of `UndistortPcl` reaches last -/

/-- The point loop never moves past the last point of the part still to walk:
that point stays the last one to walk, as it was. -/
theorem walk_points_getLast (pcl_beg_time : ℝ) (cont : ℝ → Bool) (Rie : ℝ → Matrix3d)
    (t : ℝ) (todo done : List (PointType ℝ)) (rots : List Matrix3d) :
    (walk_points pcl_beg_time cont Rie t todo done rots).1.getLast? = todo.getLast? := by
  by_cases hne : todo = []
  · subst hne
    simp [walk_points]
  · obtain ⟨moved, h1, -, -⟩ := walk_points_spec pcl_beg_time cont Rie t todo done rots
    have h2 := congrArg List.getLast? h1
    rw [List.getLast?_append_of_ne_nil _
      (walk_points_todo_ne_nil pcl_beg_time cont Rie t todo done rots hne)] at h2
    exact h2.symm

/-- The body of the segment loop leaves the last point to walk as it was. -/
theorem undistort_segment_getLast (zero_bias_gyr : Vector3d) (orientation : Bool)
    (pcl_beg_time : ℝ) (rot_kp : Pose6D) (st st1 : UndistortState) (head tail : Imu ℝ)
    (h : undistort_segment zero_bias_gyr orientation pcl_beg_time rot_kp st head tail =
      some st1) :
    st1.todo.getLast? = st.todo.getLast? := by
  unfold undistort_segment at h
  split at h
  · simp at h
  · simp only at h
    split_ifs at h
    · simp only [Option.some.injEq] at h
      subst h
      exact walk_points_getLast _ _ _ _ _ _ _
    · simp only [Option.some.injEq] at h
      subst h
      exact walk_points_getLast _ _ _ _ _ _ _

/-- The segment loop leaves the last point to walk as it was. -/
theorem undistort_segments_getLast (zero_bias_gyr : Vector3d) (orientation : Bool)
    (pcl_beg_time : ℝ) (rot_kp : Pose6D) (segs : List (Imu ℝ × Imu ℝ))
    (st st1 : UndistortState)
    (h : undistort_segments zero_bias_gyr orientation pcl_beg_time rot_kp st segs = some st1) :
    st1.todo.getLast? = st.todo.getLast? := by
  induction segs generalizing st with
  | nil =>
    simp only [undistort_segments, Option.some.injEq] at h
    subst h
    rfl
  | cons seg segs ih =>
    simp only [undistort_segments] at h
    cases hseg : undistort_segment zero_bias_gyr orientation pcl_beg_time rot_kp st seg.1 seg.2 with
    | none => simp [hseg] at h
    | some st2 =>
      simp only [hseg] at h
      rw [ih st2 h]
      exact undistort_segment_getLast _ _ _ _ _ _ _ _ hseg

/-- C22: for every object (so every gyroscope bias), every group with a
non-empty scan and a non-empty inertial sequence, whatever its angular
velocities: `UndistortPcl` in BACKWARD mode has a result, and the first point of
the cloud it returns is the first point of the sorted scan, unchanged, which is
a point of the scan with the least offset time; in FORWARD mode it has a result,
and the last point of the cloud it returns is the last point of the sorted scan,
unchanged, which is a point of the scan with the greatest offset time. -/
theorem C22_last_reached_point_not_rotated (s : ImuProcess) (meas : MeasureGroup ℝ)
    (lidar : PointCloud2 ℝ) (hl : meas.lidar = some lidar) (hpts : lidar.points ≠ [])
    (himu : meas.imu ≠ []) :
    (∃ s1 out earliest, UndistortPcl s meas BACKWARD = some (s1, out) ∧
      (sort_by_time lidar.points).head? = some earliest ∧ out.head? = some earliest ∧
      earliest ∈ lidar.points ∧ ∀ p ∈ lidar.points, earliest.curvature ≤ p.curvature) ∧
    (∃ s1 out latest, UndistortPcl s meas FORWARD = some (s1, out) ∧
      (sort_by_time lidar.points).getLast? = some latest ∧ out.getLast? = some latest ∧
      latest ∈ lidar.points ∧ ∀ p ∈ lidar.points, p.curvature ≤ latest.curvature) := by
  obtain ⟨v_imu_last, v_imu_first, hlast, hfirst⟩ := getLast_head_of_ne_nil meas.imu himu
  have hsne := sort_by_time_ne_nil lidar.points hpts
  obtain ⟨latest, earliest, hlatest, hearliest⟩ :=
    getLast_head_of_ne_nil (sort_by_time lidar.points) hsne
  have hperm := sort_by_time_perm lidar.points
  have hsorted := sort_by_time_sorted lidar.points
  constructor
  · obtain ⟨st, hst, hU⟩ := UndistortPcl_eq s meas BACKWARD lidar v_imu_last v_imu_first hl hpts
      hlast hfirst
    have hg := undistort_segments_getLast _ _ _ _ _ _ _ hst
    have hinit : (undistort_init BACKWARD lidar.points
        (initial_rot_kp s.zero_bias_gyr v_imu_first v_imu_last)).todo.getLast? =
        some earliest := by
      show ((sort_by_time lidar.points).reverse).getLast? = some earliest
      rw [List.getLast?_reverse]
      exact hearliest
    rw [hinit] at hg
    refine ⟨_, _, earliest, hU, hearliest, ?_, ?_, ?_⟩
    · show (st.todo.reverse ++ st.done).head? = some earliest
      rw [List.head?_append, List.head?_reverse, hg]
      rfl
    · exact hperm.mem_iff.mp (List.mem_of_mem_head? hearliest)
    · intro p hp
      have hp1 : p ∈ sort_by_time lidar.points := hperm.mem_iff.mpr hp
      cases hc : sort_by_time lidar.points with
      | nil => exact absurd hc hsne
      | cons x rest =>
        rw [hc] at hearliest hp1 hsorted
        simp only [List.head?_cons, Option.some.injEq] at hearliest
        subst hearliest
        rcases List.mem_cons.mp hp1 with rfl | hp2
        · exact le_refl _
        · exact (List.pairwise_cons.mp hsorted).1 p hp2
  · obtain ⟨st, hst, hU⟩ := UndistortPcl_eq s meas FORWARD lidar v_imu_last v_imu_first hl hpts
      hlast hfirst
    have hg := undistort_segments_getLast _ _ _ _ _ _ _ hst
    have hinit : (undistort_init FORWARD lidar.points
        (initial_rot_kp s.zero_bias_gyr v_imu_first v_imu_last)).todo.getLast? =
        some latest := hlatest
    rw [hinit] at hg
    have hne : st.todo ≠ [] := by
      intro h0
      rw [h0] at hg
      cases hg
    refine ⟨_, _, latest, hU, hlatest, ?_, ?_, ?_⟩
    · show (st.done.reverse ++ st.todo).getLast? = some latest
      rw [List.getLast?_append_of_ne_nil _ hne]
      exact hg
    · exact hperm.mem_iff.mp (List.mem_of_getLast?_eq_some hlatest)
    · intro p hp
      exact le_getLast_of_pairwise (fun q => q.curvature) _ hsorted latest hlatest p
        (hperm.mem_iff.mpr hp)

/-- Witness for C22: the end-to-end group (three points at offsets 0, 5 and
10 ms, angular velocity `(0, 0, π)`) on a reset object. -/
theorem C22_last_reached_point_not_rotated_witness :
    (∃ s1 out earliest,
      UndistortPcl (Reset (ImuProcess.ctor 0 0)) end_to_end_group BACKWARD = some (s1, out) ∧
      (sort_by_time [unit_x_point 0, unit_x_point 5, unit_x_point 10]).head? = some earliest ∧
      out.head? = some earliest ∧
      earliest ∈ [unit_x_point 0, unit_x_point 5, unit_x_point 10] ∧
      ∀ p ∈ [unit_x_point 0, unit_x_point 5, unit_x_point 10],
        earliest.curvature ≤ p.curvature) ∧
    (∃ s1 out latest,
      UndistortPcl (Reset (ImuProcess.ctor 0 0)) end_to_end_group FORWARD = some (s1, out) ∧
      (sort_by_time [unit_x_point 0, unit_x_point 5, unit_x_point 10]).getLast? = some latest ∧
      out.getLast? = some latest ∧
      latest ∈ [unit_x_point 0, unit_x_point 5, unit_x_point 10] ∧
      ∀ p ∈ [unit_x_point 0, unit_x_point 5, unit_x_point 10],
        p.curvature ≤ latest.curvature) :=
  C22_last_reached_point_not_rotated (Reset (ImuProcess.ctor 0 0)) end_to_end_group
    { stamp := 0, points := [unit_x_point 0, unit_x_point 5, unit_x_point 10] } rfl
    (by simp) (by simp [end_to_end_group])

/-! ## The calibration and the seeding group -/

/-- The first pass of the calibration loop (counter at 1) overwrites what the
accumulator held: the gravity scale becomes the norm of the sample, the means
become the sample, and both variances become zero. -/
theorem init_step_first (s : ImuProcess) (imu : Imu ℝ) (hn : s.init_iter_num = 1) :
    ∃ s1, init_step s imu = some s1 ∧ s1.init_iter_num = 2 ∧
      s1.scale_gravity = norm3 imu.linear_acceleration ∧
      s1.mean_acc = imu.linear_acceleration ∧ s1.mean_gyr = imu.angular_velocity ∧
      s1.cov_acc = 0 ∧ s1.cov_gyr = 0 := by
  have hN : ¬ (s.init_iter_num * s.init_iter_num > INT_MAX) := by
    rw [hn]
    unfold INT_MAX
    norm_num
  unfold init_step
  simp only [hN, if_false]
  refine ⟨_, rfl, ?_, ?_, ?_, ?_, ?_, ?_⟩
  · show s.init_iter_num + 1 = 2
    rw [hn]
    rfl
  · show s.scale_gravity + (norm3 imu.linear_acceleration - s.scale_gravity) /
      (s.init_iter_num : ℝ) = norm3 imu.linear_acceleration
    rw [hn]
    norm_num
  · funext i
    show s.mean_acc i + (imu.linear_acceleration i - s.mean_acc i) / (s.init_iter_num : ℝ) =
      imu.linear_acceleration i
    rw [hn]
    norm_num
  · funext i
    show s.mean_gyr i + (imu.angular_velocity i - s.mean_gyr i) / (s.init_iter_num : ℝ) =
      imu.angular_velocity i
    rw [hn]
    norm_num
  · funext i
    simp only [hn]
    norm_num
  · funext i
    simp only [hn]
    norm_num

/-- One pass of the calibration loop reads nothing of the object but the
accumulator: from two objects with the same accumulator it has a result on both
or on neither, and leaves the same accumulator. -/
theorem init_step_congr (s s' : ImuProcess) (imu : Imu ℝ)
    (h : calibration_accumulator s = calibration_accumulator s') :
    (init_step s imu).map calibration_accumulator =
      (init_step s' imu).map calibration_accumulator := by
  simp only [calibration_accumulator, Prod.mk.injEq] at h
  obtain ⟨h1, h2, h3, h4, h5, h6⟩ := h
  unfold init_step
  simp only [h1, h2, h3, h4, h5, h6]
  split_ifs <;> rfl

/-- The calibration loop reads nothing of the object but the accumulator. -/
theorem init_loop_congr (xs : List (Imu ℝ)) (s s' : ImuProcess)
    (h : calibration_accumulator s = calibration_accumulator s') :
    (init_loop s xs).map calibration_accumulator =
      (init_loop s' xs).map calibration_accumulator := by
  induction xs generalizing s s' with
  | nil => simp only [init_loop, Option.map_some', h]
  | cons imu xs ih =>
    have hstep := init_step_congr s s' imu h
    simp only [init_loop]
    cases h1 : init_step s imu with
    | none =>
      cases h2 : init_step s' imu with
      | none => rfl
      | some t' => simp [h1, h2] at hstep
    | some t =>
      cases h2 : init_step s' imu with
      | none => simp [h1, h2] at hstep
      | some t' =>
        simp only [h1, h2, Option.map_some', Option.some.injEq] at hstep
        exact ih t t' hstep

/-- From two objects with the counter at 1, whatever else their accumulators
hold, the calibration loop over the same non-empty run of samples has a result
on both or on neither, and leaves the same accumulator. -/
theorem init_loop_from_one (xs : List (Imu ℝ)) (s s' : ImuProcess) (hne : xs ≠ [])
    (hn : s.init_iter_num = 1) (hn' : s'.init_iter_num = 1) :
    (init_loop s xs).map calibration_accumulator =
      (init_loop s' xs).map calibration_accumulator := by
  cases xs with
  | nil => exact absurd rfl hne
  | cons imu xs =>
    obtain ⟨t, ht, a1, a2, a3, a4, a5, a6⟩ := init_step_first s imu hn
    obtain ⟨t', ht', b1, b2, b3, b4, b5, b6⟩ := init_step_first s' imu hn'
    simp only [init_loop, ht, ht']
    apply init_loop_congr
    simp only [calibration_accumulator, a1, a2, a3, a4, a5, a6, b1, b2, b3, b4, b5, b6]

/-- Closing the calibration reads nothing of the object but the accumulator,
`Need_init` and `zero_bias_gyr`. -/
theorem init_finish_congr (s s' : ImuProcess)
    (h : calibration_accumulator s = calibration_accumulator s')
    (hz : s.zero_bias_gyr = s'.zero_bias_gyr) (hN : s.Need_init = s'.Need_init) :
    calibration_accumulator (init_finish s) = calibration_accumulator (init_finish s') ∧
      (init_finish s).zero_bias_gyr = (init_finish s').zero_bias_gyr ∧
      (init_finish s).Need_init = (init_finish s').Need_init := by
  simp only [calibration_accumulator, Prod.mk.injEq] at h
  obtain ⟨h1, h2, h3, h4, h5, h6⟩ := h
  unfold init_finish
  rw [h6]
  split_ifs
  · simp only [calibration_accumulator, h1, h2, h3, h4, h5, h6]
    exact ⟨trivial, trivial, trivial⟩
  · simp only [calibration_accumulator, h1, h2, h3, h4, h5, h6]
    exact ⟨trivial, hz, hN⟩

/-- C23: the calibration does not depend on the seeding group. For any two
objects with `b_first_frame_` set, any two first groups, and the same non-empty
run `gs` of calibrating groups after each (non-empty inertial sequences,
non-null scans, fewer than 50 samples before the last group, at most 46340
samples in all): all calls have a result on both sides, and afterwards
`mean_acc`, `mean_gyr`, `cov_acc`, `cov_gyr`, `scale_gravity` and
`zero_bias_gyr` are the same on both sides, as are the counter and `Need_init`.
The reason is the first folded sample `x`: it is applied with the counter at 1
and leaves the means at `x`, the gravity scale at `‖x.acc‖` and the variances at
zero, whatever the seeding group had put in the accumulator. -/
theorem C23_calibration_independent_of_first_group (SO3_exp : Vector3d → Matrix3d)
    (s0 s0' : ImuProcess) (first first' : MeasureGroup ℝ) (gs : List (MeasureGroup ℝ))
    (hfresh : s0.b_first_frame_ = true) (hfresh' : s0'.b_first_frame_ = true)
    (hfirst : first.imu ≠ [] ∧ first.lidar ≠ none)
    (hfirst' : first'.imu ≠ [] ∧ first'.lidar ≠ none)
    (hne : gs ≠ [])
    (hwf : ∀ m ∈ gs, m.imu ≠ [] ∧ m.lidar ≠ none)
    (hfront : (folded_samples gs.dropLast).length < 50)
    (hbound : (folded_samples gs).length ≤ 46340) :
    (∃ sf sf', Process_all SO3_exp s0 (first :: gs) = some sf ∧
      Process_all SO3_exp s0' (first' :: gs) = some sf' ∧
      sf.mean_acc = sf'.mean_acc ∧ sf.mean_gyr = sf'.mean_gyr ∧
      sf.cov_acc = sf'.cov_acc ∧ sf.cov_gyr = sf'.cov_gyr ∧
      sf.scale_gravity = sf'.scale_gravity ∧ sf.zero_bias_gyr = sf'.zero_bias_gyr ∧
      sf.init_iter_num = sf'.init_iter_num ∧ sf.Need_init = sf'.Need_init) ∧
    (∃ s1 x s2, Process SO3_exp s0 first = some (s1, none) ∧
      (folded_samples gs).head? = some x ∧ init_step s1 x = some s2 ∧
      s2.mean_acc = x.linear_acceleration ∧ s2.mean_gyr = x.angular_velocity ∧
      s2.scale_gravity = norm3 x.linear_acceleration ∧
      s2.cov_acc = 0 ∧ s2.cov_gyr = 0) := by
  obtain ⟨imu_back, _, hlast, _⟩ := getLast_head_of_ne_nil first.imu hfirst.1
  obtain ⟨lidar, hlidar⟩ := Option.ne_none_iff_exists'.mp hfirst.2
  obtain ⟨imu_back', _, hlast', _⟩ := getLast_head_of_ne_nil first'.imu hfirst'.1
  obtain ⟨lidar', hlidar'⟩ := Option.ne_none_iff_exists'.mp hfirst'.2
  have hP1 := Process_first_frame_eq SO3_exp s0 first imu_back lidar hfresh hlast hlidar
  have hP1' := Process_first_frame_eq SO3_exp s0' first' imu_back' lidar' hfresh' hlast' hlidar'
  generalize hs1 : ({ Reset { s0 with Need_init := true } with
      last_lidar_ := some lidar, last_imu_ := some imu_back,
      init_iter_num := 1, scale_gravity := norm3 imu_back.linear_acceleration,
      mean_acc := imu_back.linear_acceleration, mean_gyr := imu_back.angular_velocity,
      b_first_frame_ := false } : ImuProcess) = s1 at hP1
  generalize hs1' : ({ Reset { s0' with Need_init := true } with
      last_lidar_ := some lidar', last_imu_ := some imu_back',
      init_iter_num := 1, scale_gravity := norm3 imu_back'.linear_acceleration,
      mean_acc := imu_back'.linear_acceleration, mean_gyr := imu_back'.angular_velocity,
      b_first_frame_ := false } : ImuProcess) = s1' at hP1'
  have hb1 : s1.b_first_frame_ = false := by rw [← hs1]
  have hi1 : s1.Need_init = true := by rw [← hs1]; rfl
  have hn1 : s1.init_iter_num = 1 := by rw [← hs1]
  have hz1 : s1.zero_bias_gyr = ![0, 0, 0] := by rw [← hs1]; rfl
  have hb1' : s1'.b_first_frame_ = false := by rw [← hs1']
  have hi1' : s1'.Need_init = true := by rw [← hs1']; rfl
  have hn1' : s1'.init_iter_num = 1 := by rw [← hs1']
  have hz1' : s1'.zero_bias_gyr = ![0, 0, 0] := by rw [← hs1']; rfl
  have hfne : folded_samples gs ≠ [] := by
    cases gs with
    | nil => exact absurd rfl hne
    | cons m rest =>
      have hm := (hwf m (by simp)).1
      simp only [folded_samples, ne_eq, List.append_eq_nil, not_and]
      exact fun h => absurd h hm
  obtain ⟨s2, hloop, hPall⟩ := Process_all_calibrating SO3_exp gs s1 hb1 hi1 (by rw [hn1])
    hwf (by rw [hn1]; omega) (by rw [hn1]; omega)
  obtain ⟨s2', hloop', hPall'⟩ := Process_all_calibrating SO3_exp gs s1' hb1' hi1' (by rw [hn1'])
    hwf (by rw [hn1']; omega) (by rw [hn1']; omega)
  have hacc : calibration_accumulator s2 = calibration_accumulator s2' := by
    have h := init_loop_from_one (folded_samples gs) s1 s1' hfne hn1 hn1'
    rw [hloop, hloop'] at h
    exact Option.some.inj h
  have hf2 := init_loop_frame _ s1 s2 hloop
  have hf2' := init_loop_frame _ s1' s2' hloop'
  have hz2 : s2.zero_bias_gyr = s2'.zero_bias_gyr := by
    rw [hf2, hf2']
    exact hz1.trans hz1'.symm
  have hN2 : s2.Need_init = s2'.Need_init := by
    rw [hf2, hf2']
    exact hi1.trans hi1'.symm
  obtain ⟨hfin, hzf, hNf⟩ := init_finish_congr s2 s2' hacc hz2 hN2
  simp only [calibration_accumulator, Prod.mk.injEq] at hfin
  obtain ⟨g1, g2, g3, g4, g5, g6⟩ := hfin
  constructor
  · refine ⟨init_finish s2, init_finish s2', ?_, ?_, g2, g3, g4, g5, g1, hzf, g6, hNf⟩
    · simp only [Process_all, hP1]
      exact hPall
    · simp only [Process_all, hP1']
      exact hPall'
  · obtain ⟨_, x, _, hx⟩ := getLast_head_of_ne_nil (folded_samples gs) hfne
    obtain ⟨t, ht, -, a2, a3, a4, a5, a6⟩ := init_step_first s1 x hn1
    exact ⟨s1, x, t, hP1, hx, ht, a3, a4, a2, a5, a6⟩

/-- Witness for C23: a fresh object seeded by a sample with zero readings and a
reset object seeded by a sample with acceleration `(1, 2, 3)` and angular
velocity `(0.1, 0.2, 0.3)`, each followed by the same two groups of 25
stationary samples. -/
theorem C23_calibration_independent_of_first_group_witness :
    (∃ sf sf',
      Process_all (fun _ => 1) (ImuProcess.ctor 0 0)
        (seeding_group :: [stationary_group, stationary_group]) = some sf ∧
      Process_all (fun _ => 1) (Reset (ImuProcess.ctor 0 0))
        (seeding_group_moving :: [stationary_group, stationary_group]) = some sf' ∧
      sf.mean_acc = sf'.mean_acc ∧ sf.mean_gyr = sf'.mean_gyr ∧
      sf.cov_acc = sf'.cov_acc ∧ sf.cov_gyr = sf'.cov_gyr ∧
      sf.scale_gravity = sf'.scale_gravity ∧ sf.zero_bias_gyr = sf'.zero_bias_gyr ∧
      sf.init_iter_num = sf'.init_iter_num ∧ sf.Need_init = sf'.Need_init) ∧
    (∃ s1 x s2, Process (fun _ => 1) (ImuProcess.ctor 0 0) seeding_group = some (s1, none) ∧
      (folded_samples [stationary_group, stationary_group]).head? = some x ∧
      init_step s1 x = some s2 ∧
      s2.mean_acc = x.linear_acceleration ∧ s2.mean_gyr = x.angular_velocity ∧
      s2.scale_gravity = norm3 x.linear_acceleration ∧
      s2.cov_acc = 0 ∧ s2.cov_gyr = 0) :=
  C23_calibration_independent_of_first_group (fun _ => 1) (ImuProcess.ctor 0 0)
    (Reset (ImuProcess.ctor 0 0)) seeding_group seeding_group_moving
    [stationary_group, stationary_group] rfl rfl
    (by simp [seeding_group]) (by simp [seeding_group_moving]) (by simp)
    (by simp [stationary_group])
    (by simp [folded_samples, stationary_group])
    (by simp [folded_samples, stationary_group])


/-! ## The sizes of `v_imu_` and `v_rot_` -/

/-- One pass of the loop of `IntegrateGyr` that has a result keeps the two
vectors of the track at equal sizes: it pushes on both, once or twice. -/
theorem IntegrateGyr_step_sizes (SO3_exp : Vector3d → Matrix3d) (s s1 : ImuProcess)
    (imu : Imu ℝ) (hlen : s.v_rot_.length = s.v_imu_.length)
    (h : IntegrateGyr_step SO3_exp s imu = some s1) :
    s1.v_rot_.length = s1.v_imu_.length := by
  unfold IntegrateGyr_step at h
  by_cases he : s.v_rot_.isEmpty = true
  · cases hl : s.last_imu_ with
    | none => simp [he, hl] at h
    | some last_imu =>
      by_cases hp : s.start_timestamp_ > 0
      · simp only [he, hl, hp, if_true] at h
        split at h
        · split_ifs at h
          simp only [Option.some.injEq] at h
          subst h
          simp [hlen]
        · simp at h
      · simp [he, hl, hp] at h
  · simp only [he, Bool.false_eq_true, if_false] at h
    split at h
    · split_ifs at h
      simp only [Option.some.injEq] at h
      subst h
      simp [hlen]
    · simp at h

/-- The loop of `IntegrateGyr`, when it has a result, keeps the two vectors of
the track at equal sizes. -/
theorem IntegrateGyr_loop_sizes (SO3_exp : Vector3d → Matrix3d) (v_imu : List (Imu ℝ))
    (s s1 : ImuProcess) (hlen : s.v_rot_.length = s.v_imu_.length)
    (h : IntegrateGyr_loop SO3_exp s v_imu = some s1) :
    s1.v_rot_.length = s1.v_imu_.length := by
  induction v_imu generalizing s with
  | nil =>
    simp only [IntegrateGyr_loop, Option.some.injEq] at h
    subst h
    exact hlen
  | cons imu v_imu ih =>
    simp only [IntegrateGyr_loop] at h
    cases hstep : IntegrateGyr_step SO3_exp s imu with
    | none => simp [hstep] at h
    | some s2 =>
      simp only [hstep] at h
      exact ih s2 (IntegrateGyr_step_sizes SO3_exp s s2 imu hlen hstep) h

/-- The method `IntegrateGyr`, when it has a result, keeps the two vectors of
the track at equal sizes. -/
theorem IntegrateGyr_sizes (SO3_exp : Vector3d → Matrix3d) (v_imu : List (Imu ℝ))
    (s s1 : ImuProcess) (hlen : s.v_rot_.length = s.v_imu_.length)
    (h : IntegrateGyr SO3_exp s v_imu = some s1) :
    s1.v_rot_.length = s1.v_imu_.length := by
  unfold IntegrateGyr at h
  split at h
  · simp at h
  · refine IntegrateGyr_loop_sizes SO3_exp v_imu _ s1 ?_ h
    exact hlen

/-- The method `Process`, when it has a result, keeps the two vectors of the
track at equal sizes: the first frame clears both, the calibration writes
neither, and the active branch writes them through `IntegrateGyr` only. -/
theorem Process_sizes (SO3_exp : Vector3d → Matrix3d) (s s1 : ImuProcess)
    (meas : MeasureGroup ℝ) (pub : Option Published)
    (hlen : s.v_rot_.length = s.v_imu_.length)
    (h : Process SO3_exp s meas = some (s1, pub)) :
    s1.v_rot_.length = s1.v_imu_.length := by
  cases hlast : meas.imu.getLast? with
  | none => simp [Process, hlast] at h
  | some imu_back =>
    cases hl : meas.lidar with
    | none => simp [Process, hlast, hl] at h
    | some lidar =>
      have hne : meas.imu ≠ [] := by
        intro h0
        simp [h0] at hlast
      cases hb : s.b_first_frame_ with
      | true =>
        rw [Process_first_frame_eq SO3_exp s meas imu_back lidar hb hlast hl] at h
        simp only [Option.some.injEq, Prod.mk.injEq] at h
        obtain ⟨rfl, -⟩ := h
        rfl
      | false =>
        cases hN : s.Need_init with
        | true =>
          rw [Process_calibrating SO3_exp s meas hb hN hne (by simp [hl])] at h
          cases hloop : init_loop s meas.imu with
          | none => simp [hloop] at h
          | some s2 =>
            simp only [hloop, Option.some.injEq, Prod.mk.injEq] at h
            obtain ⟨rfl, -⟩ := h
            have hf := init_loop_frame meas.imu s s2 hloop
            have hff := init_finish_frame s2
            have e1 : (init_finish s2).v_rot_ = s.v_rot_ := by rw [hff, hf]
            have e2 : (init_finish s2).v_imu_ = s.v_imu_ := by rw [hff, hf]
            rw [e1, e2]
            exact hlen
        | false =>
          unfold Process at h
          simp only [hlast, hl, hb, hN, Bool.false_eq_true, if_false] at h
          cases hI : IntegrateGyr SO3_exp s meas.imu with
          | none => simp [hI] at h
          | some s2 =>
            simp only [hI] at h
            have hlen2 := IntegrateGyr_sizes SO3_exp meas.imu s s2 hlen hI
            split at h
            · cases hU : UndistortPcl s2 meas BACKWARD with
              | none => simp [hU] at h
              | some r =>
                obtain ⟨s3, out⟩ := r
                simp only [hU, Option.some.injEq, Prod.mk.injEq] at h
                obtain ⟨rfl, -⟩ := h
                have hf3 := UndistortPcl_frame s2 s3 meas BACKWARD out hU
                show s3.v_rot_.length = s3.v_imu_.length
                rw [hf3]
                exact hlen2
            · simp at h

/-- Every method call that has a result keeps the two vectors of the track at
equal sizes. -/
theorem call_method_sizes (SO3_exp : Vector3d → Matrix3d) (s s1 : ImuProcess)
    (call : MethodCall) (hlen : s.v_rot_.length = s.v_imu_.length)
    (h : call_method SO3_exp s call = some s1) :
    s1.v_rot_.length = s1.v_imu_.length := by
  cases call with
  | Reset =>
    simp only [call_method, Option.some.injEq] at h
    subst h
    rfl
  | Process meas =>
    simp only [call_method, Option.map_eq_some'] at h
    obtain ⟨⟨s2, pub⟩, hP, rfl⟩ := h
    exact Process_sizes SO3_exp s s2 meas pub hlen hP
  | IntegrateGyr v_imu =>
    exact IntegrateGyr_sizes SO3_exp v_imu s s1 hlen h
  | UndistortPcl meas orientation =>
    simp only [call_method, Option.map_eq_some'] at h
    obtain ⟨⟨s2, out⟩, hU, rfl⟩ := h
    have hf := UndistortPcl_frame s s2 meas orientation out hU
    show s2.v_rot_.length = s2.v_imu_.length
    rw [hf]
    exact hlen

/-- Every sequence of method calls that has a result keeps the two vectors of
the track at equal sizes. -/
theorem call_methods_sizes (SO3_exp : Vector3d → Matrix3d) (calls : List MethodCall)
    (s s1 : ImuProcess) (hlen : s.v_rot_.length = s.v_imu_.length)
    (h : call_methods SO3_exp s calls = some s1) :
    s1.v_rot_.length = s1.v_imu_.length := by
  induction calls generalizing s with
  | nil =>
    simp only [call_methods, Option.some.injEq] at h
    subst h
    exact hlen
  | cons call rest ih =>
    simp only [call_methods] at h
    cases hc : call_method SO3_exp s call with
    | none => simp [hc] at h
    | some s2 =>
      simp only [hc] at h
      exact ih s2 (call_method_sizes SO3_exp s s2 call hlen hc) h

/-- A run of `Process` calls followed by other calls: the object after the
`Process` calls is the one `Process_all` gives. -/
theorem call_methods_Process (SO3_exp : Vector3d → Matrix3d) (gs : List (MeasureGroup ℝ))
    (rest : List MethodCall) (s : ImuProcess) :
    call_methods SO3_exp s (gs.map MethodCall.Process ++ rest) =
      match Process_all SO3_exp s gs with
      | none => none
      | some s1 => call_methods SO3_exp s1 rest := by
  induction gs generalizing s with
  | nil => rfl
  | cons m gs ih =>
    simp only [List.map_cons, List.cons_append, call_methods, call_method, Process_all]
    cases Process SO3_exp s m with
    | none => rfl
    | some r => exact ih r.1

/-- The run `method_run` on a fresh object has a result, and the track it
leaves holds 4 rotations: the identity, two for the active group and one for the
direct `IntegrateGyr`. -/
theorem method_run_result :
    ∃ s, call_methods (fun _ => 1) (ImuProcess.ctor 0 0) method_run = some s ∧
      s.v_rot_.length = 4 := by
  obtain ⟨sc, hPc, hAc, hNc, hrc, -, -⟩ := pipeline_after_calibration (fun _ => 1)
    (Reset (ImuProcess.ctor 0 0)) first_scan_group [calibration_group]
    { stamp := 1, points := [] } rfl
    (by simp [first_scan_group]) rfl (by norm_num) (by simp [calibration_group])
    (by simp [folded_samples]) (by simp [folded_samples, calibration_group])
    (by simp [folded_samples, calibration_group])
  obtain ⟨sA, pubA, hPA, hAA, -, -, ⟨tlA, htlA, -, hlenA⟩, -, -⟩ :=
    Process_active_spec (fun _ => 1) sc (active_group 3) hAc hNc
      (active_group_ready 3 (by norm_num))
  have hA3 : sA.v_rot_.length = 3 := by
    rw [htlA, hrc, List.nil_append, hlenA hrc]
    rfl
  have hneA : sA.v_rot_ ≠ [] := by
    intro h0
    rw [h0] at hA3
    cases hA3
  have hP3 : Process_all (fun _ => 1) (Reset (ImuProcess.ctor 0 0))
      ([first_scan_group, calibration_group] ++ [active_group 3]) = some sA := by
    rw [Process_all_append, hPc]
    simp only [Process_all, hPA]
  obtain ⟨s4, last_lidar, hI, -, -, -, ⟨tl4, htl4, hlen4, -⟩, -, -⟩ :=
    IntegrateGyr_spec (fun _ => 1) [imuAt 5] sA hAA (by
      intro imu himu
      rw [List.mem_singleton] at himu
      subst himu
      show (0 : ℝ) ≤ 5
      norm_num)
  obtain ⟨s5, out, hU, -⟩ := UndistortPcl_map (fun _ => ()) (fun _ _ => rfl) s4 (active_group 3)
    FORWARD { stamp := 3, points := [pointAt 0, pointAt 100] } rfl (by simp)
    (by simp [active_group])
  have hf5 := UndistortPcl_frame s4 s5 (active_group 3) FORWARD out hU
  refine ⟨s5, ?_, ?_⟩
  · have hrun : method_run = MethodCall.Reset ::
        ([first_scan_group, calibration_group, active_group 3].map MethodCall.Process ++
          [MethodCall.IntegrateGyr [imuAt 5], MethodCall.UndistortPcl (active_group 3) FORWARD]) :=
      rfl
    rw [hrun]
    show call_methods (fun _ => 1) (Reset (ImuProcess.ctor 0 0))
      ([first_scan_group, calibration_group, active_group 3].map MethodCall.Process ++
        [MethodCall.IntegrateGyr [imuAt 5], MethodCall.UndistortPcl (active_group 3) FORWARD]) =
      some s5
    rw [call_methods_Process]
    have hP3' : Process_all (fun _ => 1) (Reset (ImuProcess.ctor 0 0))
        [first_scan_group, calibration_group, active_group 3] = some sA := hP3
    rw [hP3']
    simp only [call_methods, call_method, hI, hU, Option.map_some']
  · have h5 : s5.v_rot_ = s4.v_rot_ := by rw [hf5]
    rw [h5, htl4, List.length_append, hA3, hlen4 hneA]
    rfl

/-- C21: in every state reached from a constructed object by calls of `Reset`,
`Process`, `IntegrateGyr` and `UndistortPcl`, in any number and order and with
any arguments, `v_imu_` and `v_rot_` have the same size. -/
theorem C21_track_sizes_equal (SO3_exp : Vector3d → Matrix3d)
    (zero_bias_acc zero_bias_gyr : Vector3d) (calls : List MethodCall) (s : ImuProcess)
    (hreach : call_methods SO3_exp (ImuProcess.ctor zero_bias_acc zero_bias_gyr) calls =
      some s) :
    s.v_imu_.length = s.v_rot_.length :=
  (call_methods_sizes SO3_exp calls (ImuProcess.ctor zero_bias_acc zero_bias_gyr) s rfl
    hreach).symm

/-- Witness for C21: the run `method_run` on a fresh object (with a direct
`IntegrateGyr` and a direct `UndistortPcl` after three `Process` calls) reaches
a state whose track holds 4 rotations, and 4 samples. -/
theorem C21_track_sizes_equal_witness :
    ∃ s, call_methods (fun _ => 1) (ImuProcess.ctor 0 0) method_run = some s ∧
      s.v_rot_.length = 4 ∧ s.v_imu_.length = s.v_rot_.length := by
  obtain ⟨s, hs, h4⟩ := method_run_result
  exact ⟨s, hs, h4, C21_track_sizes_equal (fun _ => 1) 0 0 method_run s hs⟩

end IMUProcessing
